import Mathlib

/-!
# xgo: the compile-time weaver, embedded in Lean

A shallow embedding of `patch/ctxt/ctx.go` and `patch/syntax/syntax.go`.

Conventions of the embedding:

* A Go `string` is a Lean `String`, read as its sequence of characters
  (`String.data`).  The code only cuts strings right after an ASCII prefix or
  at an ASCII `/`, where cutting by bytes and cutting by characters agree.
* A Go `int` is an `Int`; indices that the code keeps non-negative are `Nat`.
* A panic (failed bounds check, failed type assertion, nil dereference,
  explicit `panic`) is the result `none`.
* A `*DeclInfo` is the position of the descriptor object in the list of
  allocated descriptors; a `[]*DeclInfo` that is rewritten in place is a list
  of such positions next to the list of objects.
* A field the source calls `Type` is `Type_` here.
* Functions and tables of the repository that are not part of the embedded
  files, and the Go library functions `strings.EqualFold` and `strconv.Quote`,
  are fields of `Env`; the environment variables, `strconv.ParseInt` and the
  two constructors of literals that `patchVersions` calls are fields of
  `VersionEnv`.
* The pass `fillFuncArgResNames`, which `AfterFilesParsed` runs before
  `registerFuncs` and which is not part of the embedded files, is modelled
  from the spec (`fillFuncArgResNamesSpec`), as is the reference name of a
  method (`FormatFuncRefNameSpec`).
-/

namespace Xgo

/-! ## Strings -/

/-- Go `strings.HasPrefix`. -/
def HasPrefix (s pre : String) : Bool :=
  pre.data.isPrefixOf s.data

/-- Go `len(s)`. -/
def len (s : String) : Nat :=
  s.data.length

/-- Go `s[n:]`; `none` when `n` is out of range. -/
def sliceFrom (s : String) (n : Nat) : Option String :=
  if n ≤ len s then some (String.mk (s.data.drop n)) else none

/-- Go `strconv.FormatBool`. -/
def FormatBool (b : Bool) : String :=
  if b then "true" else "false"

/-- Go `strconv.FormatInt(i, 10)` and the verb `%d`. -/
def FormatInt (i : Int) : String :=
  toString i

/-- Go `strings.HasSuffix`. -/
def HasSuffix (s suffix : String) : Bool :=
  suffix.data.isSuffixOf s.data

/-- Go `strings.Join`. -/
def Join (elems : List String) (sep : String) : String :=
  String.intercalate sep elems

/-! ## patch/ctxt/ctx.go -/

/-- The constant `XgoModule`. -/
def XgoModule : String := "github.com/xhd2015/xgo"

/-- The constant `XgoRuntimeCorePkg`. -/
def XgoRuntimeCorePkg : String := XgoModule ++ "/runtime/core"

/-- The function `cutPkgPrefix`; the pair is `(suffix, ok)`. -/
def cutPkgPrefix (s pkg : String) : Option (String × Bool) :=
  if !HasPrefix s pkg then some ("", false)
  else if len s = len pkg then some ("", true)
  else
    let n := len pkg
    match s.data[n]? with
    | none => none
    | some c =>
      if c ≠ '/' then some ("", false)
      else
        match sliceFrom s (n + 1) with
        | none => none
        | some suffix => some (suffix, true)

/-- The function `IsPkgXgoSkipTrap`. -/
def IsPkgXgoSkipTrap (pkg : String) : Option Bool :=
  match cutPkgPrefix pkg XgoModule with
  | none => none
  | some (suffix, ok) =>
    if !ok then some false
    else if suffix = "" then some true
    else
      match cutPkgPrefix suffix "test" with
      | none => none
      | some (_, ok1) =>
        if ok1 then some false
        else
          match cutPkgPrefix suffix "runtime/test" with
          | none => none
          | some (_, ok2) => if ok2 then some false else some true

/-- The function `SkipPackageTrap`.  Its inputs are the globals it reads:
`stdWhitelist` (which keys the map has), `isSkippableSpecialPkg`,
`base.Flag.Std` and the result of `GetPkgPath()`. -/
def SkipPackageTrap (stdWhitelist : String → Bool) (isSkippableSpecialPkg : String → Bool)
    (Std : Bool) (pkgPath : String) : Option Bool :=
  if pkgPath = "" then some true
  else if HasPrefix pkgPath "runtime/" || HasPrefix pkgPath "internal/" then some true
  else if Std then
    if stdWhitelist pkgPath then some false else some true
  else if isSkippableSpecialPkg pkgPath then some true
  else
    match IsPkgXgoSkipTrap pkgPath with
    | none => none
    | some true => some true
    | some false =>
      if HasPrefix pkgPath "crypto/" then some true else some false

/-- The function `AllowPkgFuncTrap`. -/
def AllowPkgFuncTrap (allowStdFunc : String → String → Bool) (pkgPath : String) (isStd : Bool)
    (funcName : String) : Bool :=
  if isStd then allowStdFunc pkgPath funcName else true

/-! ## The parsed tree (the part of `cmd/compile/internal/syntax` the code reads) -/

/-- Operators of the parser. -/
inductive Operator where
  | Def | Not | Recv | Tilde | OrOr | AndAnd | Eql | Neq | Lss | Leq | Gtr | Geq
  | Add | Sub | Or | Xor | Mul | Div | Rem | And | AndNot | Shl | Shr
  deriving DecidableEq

/-- Expressions, as far as the weaver tells them apart. -/
inductive Expr where
  | Name (Value : String)
  | Operation (Op : Operator) (X : Expr) (Y : Option Expr)
  | IndexExpr (X : Expr) (Index : Expr)
  | BasicLit (Value : String)
  | InterfaceType
  | Other

/-- A name node with the line of its position. -/
structure Name where
  Value : String
  Line : Nat := 0

/-- A parameter, result or receiver; `Name` is `none` for a nil name. -/
structure Field where
  Name : Option String := none
  Type_ : Expr := Expr.Other

/-- The signature of a function. -/
structure FuncType where
  ParamList : List Field := []
  ResultList : List Field := []

/-- A function or method declaration; `Line` is `Pos().Line()` and `Col` is
`Pos().Col()`. -/
structure FuncDecl where
  Line : Nat := 0
  Col : Nat := 0
  Recv : Option Field := none
  Name : String
  TParamList : List Field := []
  Type_ : FuncType := {}

/-- A variable declaration. -/
structure VarDecl where
  NameList : List Name
  Type_ : Option Expr := none

/-- A constant declaration; `Values` is `none` for a nil expression. -/
structure ConstDecl where
  NameList : List Name
  Type_ : Option Expr := none
  Values : Option Expr := none

/-- A type declaration; `Line` is `Pos().Line()`. -/
structure TypeDecl where
  Line : Nat := 0
  Name : String
  TParamList : List Field := []
  Alias : Bool := false
  Type_ : Expr := Expr.Other

/-- A top-level declaration. -/
inductive Decl where
  | FuncDecl (d : FuncDecl)
  | VarDecl (d : VarDecl)
  | ConstDecl (d : ConstDecl)
  | TypeDecl (d : TypeDecl)
  | ImportDecl

/-- A parsed file: `RelFilename` is `Pos().RelFilename()`, `PkgName` is
`PkgName.Value`. -/
structure File where
  RelFilename : String := ""
  PkgName : String := ""
  DeclList : List Decl := []

/-! ## patch/syntax/syntax.go: descriptors -/

/-- The type `DeclKind`. -/
abbrev DeclKind := Int

/-- The constant `Kind_Func`. -/
def Kind_Func : DeclKind := 0
/-- The constant `Kind_Var`. -/
def Kind_Var : DeclKind := 1
/-- The constant `Kind_VarPtr`. -/
def Kind_VarPtr : DeclKind := 2
/-- The constant `Kind_Const`. -/
def Kind_Const : DeclKind := 3

/-- The method `DeclKind.IsFunc`. -/
def DeclKind.IsFunc (c : DeclKind) : Bool :=
  c == Kind_Func

/-- The method `DeclKind.IsVarOrConst`. -/
def DeclKind.IsVarOrConst (c : DeclKind) : Bool :=
  c == Kind_Var || c == Kind_VarPtr || c == Kind_Const

/-- The struct `DeclInfo`; every field starts at its Go zero value. -/
structure DeclInfo where
  FuncDecl : Option FuncDecl := none
  VarDecl : Option VarDecl := none
  ConstDecl : Option ConstDecl := none
  FollowingTrapConst : Bool := false
  Kind : DeclKind := 0
  Name : String := ""
  RecvTypeName : String := ""
  RecvPtr : Bool := false
  Generic : Bool := false
  Closure : Bool := false
  Interface : Bool := false
  RecvName : String := ""
  ArgNames : List String := []
  ResNames : List String := []
  FirstArgCtx : Bool := false
  LastResError : Bool := false
  FileSyntax : Option File := none
  FileIndex : Int := 0
  File : String := ""
  FileRef : String := ""
  Line : Int := 0

/-- What the embedded files take from elsewhere. -/
structure Env where
  /-- Result of `xgo_ctxt.GetPkgPath()`. -/
  pkgPath : String
  /-- The flag `base.Flag.Std`. -/
  Std : Bool
  /-- Whether `stdWhitelist` has the key. -/
  stdWhitelist : String → Bool
  /-- The function `isSkippableSpecialPkg`. -/
  isSkippableSpecialPkg : String → Bool
  /-- The function `allowStdFunc`. -/
  allowStdFunc : String → String → Bool
  /-- Result of `allowVarTrap()`. -/
  allowVarTrap : Bool
  /-- The function `collectVarDecls`. -/
  collectVarDecls : DeclKind → List Name → Option Expr → List DeclInfo
  /-- The function `xgo_func_name.FormatFuncRefName`. -/
  FormatFuncRefName : String → Bool → String → String
  /-- Go `strings.EqualFold`. -/
  EqualFold : String → String → Bool
  /-- Go `strconv.Quote` and the verb `%q`. -/
  Quote : String → String
  /-- The constant `helperCode`. -/
  helperCode : String

/-- The method `DeclInfo.RefName`. -/
def DeclInfo.RefName (env : Env) (c : DeclInfo) : String :=
  if c.Interface then "nil"
  else if !c.Kind.IsFunc then c.Name
  else env.FormatFuncRefName c.RecvTypeName c.RecvPtr c.Name

/-- The method `DeclInfo.GenericName`. -/
def DeclInfo.GenericName (env : Env) (c : DeclInfo) : String :=
  if !c.Generic then "" else c.RefName env

/-- The method `DeclInfo.IdentityName`. -/
def DeclInfo.IdentityName (env : Env) (c : DeclInfo) : String :=
  if c.Interface then c.RecvTypeName
  else if !c.Kind.IsFunc then
    if c.Kind = Kind_VarPtr then "*" ++ c.Name else c.Name
  else env.FormatFuncRefName c.RecvTypeName c.RecvPtr c.Name

/-! ## Batches -/

/-- The loop of `splitBatch` over the remaining descriptors, with the
variables `res` and `cur`. -/
def splitBatchLoop {α : Type} (batch : Int) : List α → List (List α) → List α →
    List (List α) × List α
  | [], res, cur => (res, cur)
  | x :: rest, res, cur =>
    if ((cur ++ [x]).length : Int) ≥ batch then
      splitBatchLoop batch rest (res ++ [cur ++ [x]]) []
    else
      splitBatchLoop batch rest res (cur ++ [x])

/-- The function `splitBatch`; it does not look into the elements, so the
element type is left open. -/
def splitBatch {α : Type} (funcDecls : List α) (batch : Int) : Option (List (List α)) :=
  if batch ≤ 0 then none
  else
    match splitBatchLoop batch funcDecls [] [] with
    | (res, cur) => if cur.length > 0 then some (res ++ [cur]) else some res

/-! ## Extraction of descriptors -/

/-- The function `fillName`. -/
def fillName (field : Field) (namePrefix : String) : Field :=
  match field.Name with
  | none => { field with Name := some namePrefix }
  | some v => if v = "_" then { field with Name := some (namePrefix ++ "_blank") } else field

/-- The loop of `fillMissingArgNames` over the parameters, from index `i` on. -/
def fillParamNames : Nat → List Field → List Field
  | _, [] => []
  | i, p :: rest =>
    fillName p ("__xgo_arg_auto_filled_" ++ FormatInt i) :: fillParamNames (i + 1) rest

/-- The function `fillMissingArgNames`; the declaration it returns is the
declaration after the update in place. -/
def fillMissingArgNames (fn : FuncDecl) : FuncDecl :=
  { fn with
    Recv := fn.Recv.map (fun r => fillName r "__xgo_recv_auto_filled")
    Type_ := { fn.Type_ with ParamList := fillParamNames 0 fn.Type_.ParamList } }

/-- The function `getFieldName` on a field that is not nil. -/
def getFieldName (f : Field) : String :=
  match f.Name with
  | none => ""
  | some v => v

/-- The function `getFieldNames`. -/
def getFieldNames (fields : List Field) : List String :=
  fields.map getFieldName

/-- The function `getFuncDeclInfo`: `none` is a panic (the receiver type is
not a name after unwrapping), `some none` is the result nil. -/
def getFuncDeclInfo (fileIndex : Nat) (f : File) (file : String) (fn0 : FuncDecl) :
    Option (Option DeclInfo) :=
  let line := fn0.Line
  if fn0.Name = "init" then some none
  else
    let genericFunc : Bool := decide (fn0.TParamList.length > 0)
    let fn := fillMissingArgNames fn0
    let mk (recvTypeName : String) (recvPtr : Bool) (recvName : String) (genericRecv : Bool) :
        DeclInfo :=
      { FuncDecl := some fn
        Name := fn.Name
        RecvTypeName := recvTypeName
        RecvPtr := recvPtr
        Generic := genericFunc || genericRecv
        RecvName := recvName
        ArgNames := getFieldNames fn.Type_.ParamList
        ResNames := getFieldNames fn.Type_.ResultList
        FirstArgCtx := false
        LastResError := false
        FileSyntax := some f
        FileIndex := (fileIndex : Int)
        File := file
        Line := (line : Int) }
    match fn.Recv with
    | none => some (some (mk "" false "" false))
    | some recv =>
      let recvName : String :=
        match recv.Name with
        | none => "_"
        | some v => v
      let (recvTypeExpr, recvPtr) : Expr × Bool :=
        match recv.Type_ with
        | Expr.Operation Operator.Mul X _ => (X, true)
        | e => (e, false)
      let (recvTypeExpr1, genericRecv) : Expr × Bool :=
        match recvTypeExpr with
        | Expr.IndexExpr X _ => (X, true)
        | e => (e, false)
      match recvTypeExpr1 with
      | Expr.Name v => some (some (mk v recvPtr recvName genericRecv))
      | _ => none

/-- The updates `extractFuncDecls` makes to each descriptor returned by
`collectVarDecls` for a variable declaration. -/
def setVarProvenance (decl : VarDecl) (fileIndex : Nat) (f : File) (file : String)
    (d : DeclInfo) : DeclInfo :=
  { d with VarDecl := some decl, FileSyntax := some f, FileIndex := (fileIndex : Int), File := file }

/-- The updates `extractFuncDecls` makes to each descriptor returned by
`collectVarDecls` for a constant declaration. -/
def setConstProvenance (decl : ConstDecl) (fileIndex : Nat) (f : File) (file : String)
    (d : DeclInfo) : DeclInfo :=
  { d with ConstDecl := some decl, FileSyntax := some f, FileIndex := (fileIndex : Int), File := file }

/-- The function `extractFuncDecls`. -/
def extractFuncDecls (env : Env) (fileIndex : Nat) (f : File) (file : String) (decl : Decl)
    (varTrap : Bool) : Option (List DeclInfo) :=
  match decl with
  | Decl.FuncDecl fn =>
    match getFuncDeclInfo fileIndex f file fn with
    | none => none
    | some none => some []
    | some (some info) => some [info]
  | Decl.VarDecl d =>
    if !varTrap then some []
    else some ((env.collectVarDecls Kind_Var d.NameList d.Type_).map
      (setVarProvenance d fileIndex f file))
  | Decl.ConstDecl d =>
    if !varTrap then some []
    else some ((env.collectVarDecls Kind_Const d.NameList d.Type_).map
      (setConstProvenance d fileIndex f file))
  | Decl.TypeDecl d =>
    if d.Alias then some []
    else if d.TParamList.length > 0 then some []
    else
      match d.Type_ with
      | Expr.InterfaceType =>
        some [{ RecvTypeName := d.Name
                Interface := true
                FileSyntax := some f
                FileIndex := (fileIndex : Int)
                File := file
                Line := (d.Line : Int) }]
      | _ => some []
  | Decl.ImportDecl => some []

/-- The inner loop of `getFuncDecls`: the descriptors of the declarations of
one file, in order. -/
def extractDeclList (env : Env) (fileIndex : Nat) (f : File) (varTrap : Bool) :
    List Decl → Option (List DeclInfo)
  | [] => some []
  | decl :: rest =>
    match extractFuncDecls env fileIndex f f.RelFilename decl varTrap with
    | none => none
    | some fnDecls =>
      match extractDeclList env fileIndex f varTrap rest with
      | none => none
      | some more => some (fnDecls ++ more)

/-- The outer loop of `getFuncDecls`: the descriptors of the files from index
`i` on, in order. -/
def extractFiles (env : Env) (varTrap : Bool) : Nat → List File → Option (List DeclInfo)
  | _, [] => some []
  | i, f :: rest =>
    match extractDeclList env i f varTrap f.DeclList with
    | none => none
    | some ds =>
      match extractFiles env varTrap (i + 1) rest with
      | none => none
      | some more => some (ds ++ more)

/-! ## The trap-pair pass -/

/-- The constant `xgoTrapPrefix` of `isTrapped`. -/
def xgoTrapPrefix : String := "__xgo_trap_"

/-- The function `isTrapped`.  `objs` are the descriptor objects and
`declFuncs` the slice of pointers to them; reading outside the slice or
through a dangling pointer is a panic. -/
def isTrapped (EqualFold : String → String → Bool) (objs : List DeclInfo)
    (declFuncs : List Nat) (i : Nat) : Option Bool :=
  match declFuncs[i]? with
  | none => none
  | some p =>
    match objs[p]? with
    | none => none
    | some fn =>
      if fn.Kind ≠ Kind_Var then some false
      else if i = 0 then none
      else
        match declFuncs[i - 1]? with
        | none => none
        | some q =>
          match objs[q]? with
          | none => none
          | some last =>
            if last.Kind ≠ Kind_Const then some false
            else if !HasPrefix last.Name xgoTrapPrefix then some false
            else
              match sliceFrom last.Name (len xgoTrapPrefix) with
              | none => none
              | some subName =>
                if !EqualFold fn.Name subName then some false else some true

/-- The two statements `j--; declFuncs[j] = declFuncs[i]`. -/
def copyDown (declFuncs : List Nat) (i j : Nat) : Option (List Nat × Nat) :=
  if j = 0 then none
  else
    match declFuncs[i]? with
    | none => none
    | some p =>
      if j - 1 < declFuncs.length then some (declFuncs.set (j - 1) p, j - 1) else none

/-- The statement `declFuncs[i].FollowingTrapConst = true`. -/
def markFollowing (objs : List DeclInfo) (declFuncs : List Nat) (i : Nat) :
    Option (List DeclInfo) :=
  match declFuncs[i]? with
  | none => none
  | some p =>
    match objs[p]? with
    | none => none
    | some d => some (objs.set p { d with FollowingTrapConst := true })

/-- The loop `for i := n - 1; i >= 0; i--` of `getFuncDecls`.  The first
argument is `i + 1`, the number of positions not yet visited; the result is the
objects, the slice and `j` when the loop ends. -/
def trapLoop (EqualFold : String → String → Bool) :
    Nat → List DeclInfo → List Nat → Nat → Option (List DeclInfo × List Nat × Nat)
  | 0, objs, declFuncs, j => some (objs, declFuncs, j)
  | 1, objs, declFuncs, j =>
    match copyDown declFuncs 0 j with
    | none => none
    | some (declFuncs1, j1) => trapLoop EqualFold 0 objs declFuncs1 j1
  | m + 2, objs, declFuncs, j =>
    match isTrapped EqualFold objs declFuncs (m + 1) with
    | none => none
    | some false =>
      match copyDown declFuncs (m + 1) j with
      | none => none
      | some (declFuncs1, j1) => trapLoop EqualFold (m + 1) objs declFuncs1 j1
    | some true =>
      match markFollowing objs declFuncs (m + 1) with
      | none => none
      | some objs1 =>
        match copyDown declFuncs (m + 1) j with
        | none => none
        | some (declFuncs1, j1) => trapLoop EqualFold m objs1 declFuncs1 j1

/-- The second half of `getFuncDecls`, from `n := len(declFuncs)` on, run on
the freshly extracted descriptors: object `k` is the descriptor extracted at
position `k` and the slice starts as the pointers `0, 1, ..., n - 1`.  The
result is the objects after the pass and the returned slice
`declFuncs[j:]`. -/
def trapPairPass (EqualFold : String → String → Bool) (extracted : List DeclInfo) :
    Option (List DeclInfo × List Nat) :=
  let n := extracted.length
  if n = 0 then some (extracted, [])
  else
    match trapLoop EqualFold n extracted (List.range n) n with
    | none => none
    | some (objs, declFuncs, j) =>
      if j ≤ declFuncs.length then some (objs, declFuncs.drop j) else none

/-- Reading the descriptors a slice of pointers points to. -/
def derefAll (objs : List DeclInfo) : List Nat → Option (List DeclInfo)
  | [] => some []
  | p :: rest =>
    match objs[p]? with
    | none => none
    | some d =>
      match derefAll objs rest with
      | none => none
      | some ds => some (d :: ds)

/-- The function `getFuncDecls`. -/
def getFuncDecls (env : Env) (files : List File) (varTrap : Bool) : Option (List DeclInfo) :=
  match extractFiles env varTrap 0 files with
  | none => none
  | some declFuncs =>
    match trapPairPass env.EqualFold declFuncs with
    | none => none
    | some (objs, ptrs) => derefAll objs ptrs

/-- The function `filterFuncDecls`. -/
def filterFuncDecls (env : Env) (funcDecls : List DeclInfo) (pkgPath : String) : List DeclInfo :=
  funcDecls.filter (fun fn => AllowPkgFuncTrap env.allowStdFunc pkgPath env.Std (fn.IdentityName env))

/-! ## Synthesis of the registration code -/

/-- The constant `XgoLinkGeneratedRegisterFunc`. -/
def XgoLinkGeneratedRegisterFunc : String := "__xgo_link_generated_register_func"
/-- The constant `XgoRegisterFuncs`. -/
def XgoRegisterFuncs : String := "__xgo_register_funcs"
/-- The constant `XgoLocalFuncStub`. -/
def XgoLocalFuncStub : String := "__xgo_local_func_stub"
/-- The constant `XgoLocalPkgName`. -/
def XgoLocalPkgName : String := "__xgo_local_pkg_name"

/-- The function `getFileRef`. -/
def getFileRef (i : Int) : String :=
  "__xgo_reg_file_gen_" ++ FormatInt i

/-- The function `quoteNamesExpr`. -/
def quoteNamesExpr (env : Env) (names : List String) : String :=
  if names.length = 0 then "nil"
  else "[]string\x7b" ++ Join (names.map env.Quote) "," ++ "\x7d"

/-- The variable `fnRefName` of `generateFuncRegBody` for one descriptor. -/
def fnRefNameOf (env : Env) (funcDecl : DeclInfo) : String :=
  if funcDecl.Kind.IsFunc then
    if !funcDecl.Generic then funcDecl.RefName env else "nil"
  else "nil"

/-- The variable `varRefName` of `generateFuncRegBody` for one descriptor. -/
def varRefNameOf (env : Env) (funcDecl : DeclInfo) : String :=
  if funcDecl.Kind.IsFunc then "nil"
  else if funcDecl.Kind = Kind_Var then "&" ++ funcDecl.RefName env
  else if funcDecl.Kind = Kind_Const then funcDecl.RefName env
  else "nil"

/-- The `fieldList` of the closure `regKind` of `generateFuncRegBody`. -/
def regFieldList (env : Env) (funcDecl : DeclInfo) (kind : DeclKind) (identityName : String) :
    List String :=
  [ XgoLocalPkgName,
    FormatInt kind,
    fnRefNameOf env funcDecl,
    varRefNameOf env funcDecl,
    "0",
    FormatBool funcDecl.Interface,
    FormatBool funcDecl.Generic,
    FormatBool funcDecl.Closure,
    env.Quote funcDecl.RecvTypeName,
    FormatBool funcDecl.RecvPtr,
    env.Quote funcDecl.Name,
    env.Quote identityName,
    env.Quote funcDecl.RecvName,
    quoteNamesExpr env funcDecl.ArgNames,
    quoteNamesExpr env funcDecl.ResNames,
    FormatBool funcDecl.FirstArgCtx,
    FormatBool funcDecl.LastResError,
    getFileRef funcDecl.FileIndex,
    FormatInt funcDecl.Line ]

/-- The statement the closure `regKind` appends to `stmts`. -/
def regKind (env : Env) (xgoRegFunc xgoLocalFuncStub : String) (funcDecl : DeclInfo)
    (kind : DeclKind) (identityName : String) : String :=
  xgoRegFunc ++ "(" ++ xgoLocalFuncStub ++ "\x7b" ++
    Join (regFieldList env funcDecl kind identityName) "," ++ "\x7d)"

/-- The statements one descriptor with a name other than `_` adds to `stmts`. -/
def regStmtsOf (env : Env) (xgoRegFunc xgoLocalFuncStub : String) (funcDecl : DeclInfo) :
    List String :=
  let identityName := funcDecl.IdentityName env
  let first := regKind env xgoRegFunc xgoLocalFuncStub funcDecl funcDecl.Kind identityName
  if funcDecl.Kind = Kind_Var then
    [first, regKind env xgoRegFunc xgoLocalFuncStub funcDecl Kind_VarPtr ("*" ++ identityName)]
  else [first]

/-- The first loop of `generateFuncRegBody`, with the variables
`fileDeclaredMapping` (the indices mapped to true), `fileDefs` and `stmts`;
the result is `(fileDefs, stmts)`. -/
def generateFuncRegBodyLoop (env : Env) (xgoRegFunc xgoLocalFuncStub : String) :
    List DeclInfo → List Int → List String → List String → Option (List String × List String)
  | [], _, fileDefs, stmts => some (fileDefs, stmts)
  | funcDecl :: rest, fileDeclaredMapping, fileDefs, stmts =>
    if funcDecl.Name = "_" then
      generateFuncRegBodyLoop env xgoRegFunc xgoLocalFuncStub rest fileDeclaredMapping fileDefs stmts
    else
      let fileIdx := funcDecl.FileIndex
      let fileRef := getFileRef fileIdx
      let stmts1 := stmts ++ regStmtsOf env xgoRegFunc xgoLocalFuncStub funcDecl
      if fileDeclaredMapping.contains fileIdx then
        generateFuncRegBodyLoop env xgoRegFunc xgoLocalFuncStub rest fileDeclaredMapping fileDefs stmts1
      else
        match funcDecl.FileSyntax with
        | none => none
        | some fileSyntax =>
          generateFuncRegBodyLoop env xgoRegFunc xgoLocalFuncStub rest
            (fileIdx :: fileDeclaredMapping)
            (fileDefs ++ [fileRef ++ " := " ++ env.Quote fileSyntax.RelFilename]) stmts1

/-- The function `generateFuncRegBody`. -/
def generateFuncRegBody (env : Env) (funcDecls : List DeclInfo)
    (xgoRegFunc xgoLocalFuncStub : String) : Option String :=
  match generateFuncRegBodyLoop env xgoRegFunc xgoLocalFuncStub funcDecls [] [] [] with
  | none => none
  | some (fileDefs, stmts) =>
    if stmts.length = 0 then some ""
    else some (Join (fileDefs ++ stmts) "\n")

/-- The function `generateRegFileCode`. -/
def generateRegFileCode (pkgName fnName body : String) : String :=
  Join ["package " ++ pkgName, "func " ++ fnName ++ "()\x7b", body, "\x7d", ""] "\n"

/-- The function `generateRegHelperCode`. -/
def generateRegHelperCode (env : Env) (pkgName : String) : String :=
  Join ["// padding", "", "", "package " ++ pkgName, env.helperCode] "\n"

/-! ## Package state and `registerFuncs` -/

/-- The type `LineCol`. -/
structure LineCol where
  Line : Nat
  Col : Nat
  deriving DecidableEq

/-- A Go map, kept as the list of its entries with one entry for each key. -/
abbrev GoMap (κ ν : Type) := List (κ × ν)

/-- The read `m[k]` of a map; `none` when the key is absent. -/
def GoMap.get {κ ν : Type} [DecidableEq κ] (m : GoMap κ ν) (k : κ) : Option ν :=
  match m with
  | [] => none
  | (k1, v1) :: rest => if k1 = k then some v1 else GoMap.get rest k

/-- The assignment `m[k] = v` of a map. -/
def GoMap.set {κ ν : Type} [DecidableEq κ] (m : GoMap κ ν) (k : κ) (v : ν) : GoMap κ ν :=
  match m with
  | [] => [(k, v)]
  | (k1, v1) :: rest => if k1 = k then (k, v) :: rest else (k1, v1) :: GoMap.set rest k v

/-- The package-level variables `allFiles`, `allDecls`, `syntaxDeclMapping`,
`computedSkipTrap` and `skipTrap`.  A nil map is `none`. -/
structure Globals where
  allFiles : List File := []
  allDecls : List DeclInfo := []
  syntaxDeclMapping : Option (GoMap String (GoMap LineCol DeclInfo)) := none
  computedSkipTrap : Bool := false
  skipTrap : Bool := false

/-- The function `ClearFiles`. -/
def ClearFiles (g : Globals) : Globals :=
  { g with allFiles := [] }

/-- The function `ClearDecls`. -/
def ClearDecls (g : Globals) : Globals :=
  { g with allDecls := [] }

/-- The loop of `getSyntaxDeclMapping` over `allDecls`; `none` is a panic
(a function-kind descriptor without declaration). -/
def buildSyntaxDeclMapping :
    List DeclInfo → GoMap String (GoMap LineCol DeclInfo) →
      Option (GoMap String (GoMap LineCol DeclInfo))
  | [], mapping => some mapping
  | syntaxDecl :: rest, mapping =>
    if syntaxDecl.Interface then buildSyntaxDeclMapping rest mapping
    else if !syntaxDecl.Kind.IsFunc then buildSyntaxDeclMapping rest mapping
    else
      match syntaxDecl.FuncDecl with
      | none => none
      | some fn =>
        let file := syntaxDecl.File
        let fileMapping : GoMap LineCol DeclInfo :=
          match GoMap.get mapping file with
          | none => []
          | some m => m
        let key : LineCol := { Line := (syntaxDecl.Line % 2 ^ 64).toNat, Col := fn.Col }
        buildSyntaxDeclMapping rest (GoMap.set mapping file (GoMap.set fileMapping key syntaxDecl))

/-- The function `getSyntaxDeclMapping`: the result and the package state
after the call. -/
def getSyntaxDeclMapping (g : Globals) :
    Option (GoMap String (GoMap LineCol DeclInfo) × Globals) :=
  match g.syntaxDeclMapping with
  | some mapping => some (mapping, g)
  | none =>
    match buildSyntaxDeclMapping g.allDecls [] with
    | none => none
    | some mapping => some (mapping, { g with syntaxDeclMapping := some mapping })

/-- The function `ClearSyntaxDeclMapping`. -/
def ClearSyntaxDeclMapping (g : Globals) : Globals :=
  { g with syntaxDeclMapping := none }

/-- The function `computeSkipTrap`. -/
def computeSkipTrap (files : List File) : Bool :=
  files.any (fun f =>
    f.DeclList.any (fun d =>
      match d with
      | Decl.ConstDecl c =>
        decide (c.NameList.length > 0) &&
          (match c.NameList with
           | [] => false
           | n :: _ => decide (n.Value = "__XGO_SKIP_TRAP"))
      | _ => false))

/-- The function `HasSkipTrap`: the result and the package state after the
call. -/
def HasSkipTrap (g : Globals) : Bool × Globals :=
  if g.computedSkipTrap then (g.skipTrap, g)
  else
    let skip := computeSkipTrap g.allFiles
    (skip, { g with computedSkipTrap := true, skipTrap := skip })

/-- A call `addFile(name, strings.NewReader(code))`. -/
structure AddedFile where
  name : String
  code : String

/-- The loop of `registerFuncs` over the batches, from index `i` on; `total`
is `len(batchFuncDecls)`.  The result is the calls of `addFile`, in order. -/
def registerBatches (env : Env) (pkgName : String) (total : Nat) :
    Nat → List (List DeclInfo) → Option (List AddedFile)
  | _, [] => some []
  | i, funcDecls :: rest =>
    if funcDecls.length = 0 then registerBatches env pkgName total (i + 1) rest
    else
      match generateFuncRegBody env funcDecls XgoLinkGeneratedRegisterFunc XgoLocalFuncStub with
      | none => none
      | some body =>
        let fileCode := generateRegFileCode pkgName "init" body
        let fileNameBase :=
          if total > 1 then "__xgo_autogen_register_func_info" ++ "_" ++ FormatInt i
          else "__xgo_autogen_register_func_info"
        match registerBatches env pkgName total (i + 1) rest with
        | none => none
        | some more => some ({ name := fileNameBase ++ ".go", code := fileCode } :: more)

/-- The function `registerFuncs`: the package state after the call and the
calls of `addFile` it made, in order.  The calls `rewriteStdAndGenericFuncs`
and `trapVariables` and the update of the parsed helper file are left out:
they get no access to `addFile` and the descriptors are passed on as they
are. -/
def registerFuncs (env : Env) (g : Globals) (fileList : List File) :
    Option (Globals × List AddedFile) :=
  let g1 : Globals := { g with allFiles := fileList }
  match SkipPackageTrap env.stdWhitelist env.isSkippableSpecialPkg env.Std env.pkgPath with
  | none => none
  | some true => some (g1, [])
  | some false =>
    let pkgName : String :=
      match fileList with
      | [] => ""
      | f :: _ => f.PkgName
    let pkgPath := env.pkgPath
    let varTrap := env.allowVarTrap
    match getFuncDecls env fileList varTrap with
    | none => none
    | some funcDelcs =>
      if funcDelcs.any
          (fun funcDecl => decide (funcDecl.RecvTypeName = "") &&
            decide (funcDecl.Name = XgoLinkGeneratedRegisterFunc)) then
        some (g1, [])
      else
        let funcDelcs1 := filterFuncDecls env funcDelcs pkgPath
        let g2 : Globals := { g1 with allDecls := funcDelcs1 }
        let helperFile : AddedFile :=
          { name := "__xgo_autogen_register_func_helper.go", code := generateRegHelperCode env pkgName }
        match splitBatch funcDelcs1 1000 with
        | none => none
        | some batchFuncDecls =>
          match registerBatches env pkgName batchFuncDecls.length 0 batchFuncDecls with
          | none => none
          | some files => some (g2, helperFile :: files)

/-! ## `patchVersions` -/

/-- The constant `XGO_TOOLCHAIN_VERSION`. -/
def XGO_TOOLCHAIN_VERSION : String := "XGO_TOOLCHAIN_VERSION"
/-- The constant `XGO_TOOLCHAIN_REVISION`. -/
def XGO_TOOLCHAIN_REVISION : String := "XGO_TOOLCHAIN_REVISION"
/-- The constant `XGO_TOOLCHAIN_VERSION_NUMBER`. -/
def XGO_TOOLCHAIN_VERSION_NUMBER : String := "XGO_TOOLCHAIN_VERSION_NUMBER"
/-- The constant `XGO_VERSION`. -/
def XGO_VERSION : String := "XGO_VERSION"
/-- The constant `XGO_REVISION`. -/
def XGO_REVISION : String := "XGO_REVISION"
/-- The constant `XGO_NUMBER`. -/
def XGO_NUMBER : String := "XGO_NUMBER"

/-- What `patchVersions` takes from outside the embedded files: the
environment variables (`os.Getenv`), the Go library function
`strconv.ParseInt(s, 10, 64)` (`none` is a non-nil error) and the functions
`newStringLit` and `newIntLit` of the repository. -/
structure VersionEnv where
  Getenv : String → String
  ParseInt : String → Option Int
  newStringLit : String → Expr
  newIntLit : Int → Expr

/-- The loop of `patchVersions` over the names of one constant declaration;
the result is the declaration after the updates in place. -/
def patchConstNames (venv : VersionEnv) (version revision : String) (versionNum : Int) :
    List Name → ConstDecl → ConstDecl
  | [], constDecl => constDecl
  | name :: rest, constDecl =>
    let constDecl1 : ConstDecl :=
      if name.Value = XGO_VERSION then
        { constDecl with Values := some (venv.newStringLit version) }
      else if name.Value = XGO_REVISION then
        { constDecl with Values := some (venv.newStringLit revision) }
      else if name.Value = XGO_NUMBER then
        { constDecl with Values := some (venv.newIntLit versionNum) }
      else constDecl
    patchConstNames venv version revision versionNum rest constDecl1

/-- The loop of `patchVersions` over the declarations of the version file. -/
def patchVersionDecls (venv : VersionEnv) (version revision : String) (versionNum : Int)
    (decls : List Decl) : List Decl :=
  decls.map (fun decl =>
    match decl with
    | Decl.ConstDecl constDecl =>
      Decl.ConstDecl (patchConstNames venv version revision versionNum constDecl.NameList constDecl)
    | d => d)

/-- The search of `patchVersions` for the first file whose name ends in
`version.go`, with the update of that file in place; the result is the files
after the update. -/
def patchVersionFile (venv : VersionEnv) (version revision : String) (versionNum : Int) :
    List File → List File
  | [] => []
  | file :: rest =>
    if HasSuffix file.RelFilename "version.go" then
      { file with
        DeclList := patchVersionDecls venv version revision versionNum file.DeclList } :: rest
    else file :: patchVersionFile venv version revision versionNum rest

/-- The function `patchVersions`: the files after the call. -/
def patchVersions (env : Env) (venv : VersionEnv) (fileList : List File) : List File :=
  let pkgPath := env.pkgPath
  if pkgPath ≠ XgoRuntimeCorePkg then fileList
  else
    let version := venv.Getenv XGO_TOOLCHAIN_VERSION
    if version = "" then fileList
    else
      let revision := venv.Getenv XGO_TOOLCHAIN_REVISION
      if revision = "" then fileList
      else
        let versionNumEnv := venv.Getenv XGO_TOOLCHAIN_VERSION_NUMBER
        match venv.ParseInt versionNumEnv with
        | none => fileList
        | some versionNum =>
          if versionNum ≤ 0 then fileList
          else patchVersionFile venv version revision versionNum fileList

/-! ## A concrete environment for running the definitions -/

/-- The descriptors of the names of one declaration, one per name, with the
kind, the name and the line of the name.  It stands in for the function
`collectVarDecls`, which is not among the embedded files, when a definition
is run on a concrete input. -/
def collectVarDeclsPerName (kind : DeclKind) (names : List Name) (_typ : Option Expr) :
    List DeclInfo :=
  names.map (fun n => { Kind := kind, Name := n.Value, Line := (n.Line : Int) })

/-- Equality of two strings after mapping `A`-`Z` to `a`-`z`; it agrees with
`strings.EqualFold` on ASCII strings. -/
def asciiEqualFold (s t : String) : Bool :=
  s.data.map Char.toLower == t.data.map Char.toLower

/-- A reference name: the name itself for a function, `T.name` or `(*T).name`
for a method.  It stands in for `xgo_func_name.FormatFuncRefName` when a
definition is run on a concrete input. -/
def receiverQualifiedName (recvTypeName : String) (recvPtr : Bool) (name : String) : String :=
  if recvTypeName = "" then name
  else if recvPtr then "(*" ++ recvTypeName ++ ")." ++ name
  else recvTypeName ++ "." ++ name

/-- The string between double quotes; it agrees with `strconv.Quote` on
strings of letters, digits and underscores. -/
def quotePlain (s : String) : String :=
  "\"" ++ s ++ "\""

/-- A module `main` compiled outside standard-library mode, with an empty
allow-list and no special package. -/
def mainEnv (varTrap : Bool) : Env where
  pkgPath := "main"
  Std := false
  stdWhitelist := fun _ => false
  isSkippableSpecialPkg := fun _ => false
  allowStdFunc := fun _ _ => true
  allowVarTrap := varTrap
  collectVarDecls := collectVarDeclsPerName
  FormatFuncRefName := receiverQualifiedName
  EqualFold := asciiEqualFold
  Quote := quotePlain
  helperCode := ""

/-- A file with a function, a trap marker and the variable it marks. -/
def sampleFileA : File where
  RelFilename := "a.go"
  PkgName := "main"
  DeclList :=
    [ Decl.FuncDecl { Name := "A", Line := 3 },
      Decl.ConstDecl { NameList := [{ Value := "__xgo_trap_X", Line := 5 }] },
      Decl.VarDecl { NameList := [{ Value := "x", Line := 6 }] } ]

/-- A file with an interface type, an initializer and a function. -/
def sampleFileB : File where
  RelFilename := "b.go"
  PkgName := "main"
  DeclList :=
    [ Decl.TypeDecl { Name := "I", Line := 2, Type_ := Expr.InterfaceType },
      Decl.FuncDecl { Name := "init", Line := 4 },
      Decl.FuncDecl { Name := "B", Line := 9 } ]

/-- A file with the marker constant `__XGO_SKIP_TRAP` and two functions. -/
def sampleFileSkip : File where
  RelFilename := "skip.go"
  PkgName := "main"
  DeclList :=
    [ Decl.ConstDecl { NameList := [{ Value := "__XGO_SKIP_TRAP", Line := 3 }] },
      Decl.FuncDecl { Name := "A", Line := 5 },
      Decl.FuncDecl { Name := "B", Line := 9 } ]

/-- A file whose only constant declaration is `const A, __XGO_SKIP_TRAP = 1, true`. -/
def sampleFileSkipSecond : File where
  RelFilename := "second.go"
  PkgName := "main"
  DeclList :=
    [ Decl.ConstDecl { NameList := [{ Value := "A", Line := 3 },
        { Value := "__XGO_SKIP_TRAP", Line := 3 }] } ]

/-- The value of a sequence of decimal digits. -/
def digitsValue (cs : List Char) : Nat :=
  cs.foldl (fun acc c => 10 * acc + (c.toNat - 48)) 0

/-- The result of `strconv.ParseInt(s, 10, 64)`, `none` for a non-nil error:
an optional sign, then one decimal digit or more and nothing else, with a
value from `-2^63` to `2^63 - 1`. -/
def ParseInt10 (s : String) : Option Int :=
  match s.data with
  | [] => none
  | c :: rest =>
    let neg : Bool := decide (c = '-')
    let digits : List Char := if c = '+' ∨ c = '-' then rest else c :: rest
    if digits.length = 0 then none
    else if !digits.all Char.isDigit then none
    else
      let un := digitsValue digits
      if !neg && decide (un ≥ 2 ^ 63) then none
      else if neg && decide (un > 2 ^ 63) then none
      else some (if neg then -(un : Int) else (un : Int))

/-- The environment with version `1.2.3`, revision `abcdef` and the given
numeric build; the literals are written as their Go source text. -/
def sampleVersionEnv (build : String) : VersionEnv where
  Getenv := fun key =>
    if key = XGO_TOOLCHAIN_VERSION then "1.2.3"
    else if key = XGO_TOOLCHAIN_REVISION then "abcdef"
    else if key = XGO_TOOLCHAIN_VERSION_NUMBER then build
    else ""
  ParseInt := ParseInt10
  newStringLit := fun s => Expr.BasicLit (quotePlain s)
  newIntLit := fun i => Expr.BasicLit (FormatInt i)

/-- The runtime-core module, compiled outside standard-library mode. -/
def coreEnv : Env :=
  { mainEnv false with pkgPath := XgoRuntimeCorePkg }

/-- A file `version.go` with the three version constants and a function. -/
def sampleFileVersion : File where
  RelFilename := "version.go"
  PkgName := "core"
  DeclList :=
    [ Decl.ConstDecl
        { NameList := [{ Value := "XGO_VERSION", Line := 3 }], Values := some (Expr.BasicLit "\"\"") },
      Decl.ConstDecl
        { NameList := [{ Value := "XGO_REVISION", Line := 4 }], Values := some (Expr.BasicLit "\"\"") },
      Decl.ConstDecl
        { NameList := [{ Value := "XGO_NUMBER", Line := 5 }], Values := some (Expr.BasicLit "0") },
      Decl.FuncDecl { Name := "checkVersion", Line := 7 } ]

/-! ## Notions used to state the properties -/

/-- The descriptor with `FollowingTrapConst` set when `b` holds. -/
def markIf (b : Bool) (d : DeclInfo) : DeclInfo :=
  if b then { d with FollowingTrapConst := true } else d

/-- Position `i` of the extracted sequence holds a value-kind variable and
position `i - 1` holds a constant whose name is the reserved prefix followed
by a string equal to the name of the variable ignoring case. -/
def pairedAt (EqualFold : String → String → Bool) (ds : List DeclInfo) : Nat → Bool
  | 0 => false
  | k + 1 =>
    match ds[k + 1]?, ds[k]? with
    | some fn, some last =>
      decide (fn.Kind = Kind_Var) && decide (last.Kind = Kind_Const) &&
        HasPrefix last.Name xgoTrapPrefix &&
        EqualFold fn.Name (String.mk (last.Name.data.drop (len xgoTrapPrefix)))
    | _, _ => false

/-- The positions from `m` on that are not followed by a paired position. -/
def keptFrom (EqualFold : String → String → Bool) (ds : List DeclInfo) (m : Nat) : List Nat :=
  (List.range' m (ds.length - m)).filter (fun k => !pairedAt EqualFold ds (k + 1))

/-- The lines a declaration is given at, in source order: the line of a
function or type declaration and the lines of the names of a variable or
constant declaration. -/
def declLines : Decl → List Int
  | Decl.FuncDecl fn => [(fn.Line : Int)]
  | Decl.VarDecl d => d.NameList.map (fun n => (n.Line : Int))
  | Decl.ConstDecl d => d.NameList.map (fun n => (n.Line : Int))
  | Decl.TypeDecl d => [(d.Line : Int)]
  | Decl.ImportDecl => []

/-- The declarations of the file are given in non-decreasing line order. -/
def declLinesSorted (f : File) : Bool :=
  decide ((f.DeclList.flatMap declLines).Pairwise (fun a b => a ≤ b))

/-- What the order of lines needs from the function `collectVarDecls`, which
is not among the embedded files: the descriptors it returns carry lines of the
names it is given, in the order of the names. -/
def collectKeepsLines (env : Env) : Prop :=
  ∀ (kind : DeclKind) (names : List Name) (typ : Option Expr),
    List.Sublist ((env.collectVarDecls kind names typ).map (fun d => d.Line))
      (names.map (fun n => (n.Line : Int)))

/-- The descriptors extracted from each file, from index `i` on, carry
non-decreasing lines. -/
def perFileLinesSorted (env : Env) (varTrap : Bool) : Nat → List File → Bool
  | _, [] => true
  | i, f :: rest =>
    (match extractDeclList env i f varTrap f.DeclList with
     | none => true
     | some ds => decide (ds.Pairwise (fun a b => a.Line ≤ b.Line))) &&
      perFileLinesSorted env varTrap (i + 1) rest

/-- The added file is a synthesized registration unit: its name starts with
`__xgo_autogen_register_func_info`. -/
def isRegisterUnit (a : AddedFile) : Bool :=
  HasPrefix a.name "__xgo_autogen_register_func_info"

/-- Some constant declaration of some file declares the name
`__XGO_SKIP_TRAP`, at any position of its name list. -/
def declaresSkipTrapAnywhere (files : List File) : Bool :=
  files.any (fun f =>
    f.DeclList.any (fun d =>
      match d with
      | Decl.ConstDecl c => c.NameList.any (fun n => decide (n.Value = "__XGO_SKIP_TRAP"))
      | _ => false))

/-- The descriptor has a name other than the blank identifier `_`. -/
def nonBlank (d : DeclInfo) : Bool :=
  decide (d.Name ≠ "_")

/-- The descriptor of a function `A` in the first file. -/
def sampleDeclA : DeclInfo :=
  { Name := "A", FileSyntax := some sampleFileA, FileIndex := 0, File := "a.go", Line := 3 }

/-- The descriptor of a variable `x` in the first file. -/
def sampleDeclX : DeclInfo :=
  { Kind := Kind_Var, Name := "x", FileSyntax := some sampleFileA, FileIndex := 0,
    File := "a.go", Line := 6 }

/-- The descriptor of the interface type `I` in the second file, as
`extractFuncDecls` builds it. -/
def sampleDeclI : DeclInfo :=
  { RecvTypeName := "I", Interface := true, FileSyntax := some sampleFileB, FileIndex := 1,
    File := "b.go", Line := 2 }

/-- The descriptor of a generic function `G` in the second file. -/
def sampleDeclG : DeclInfo :=
  { Name := "G", Generic := true, FileSyntax := some sampleFileB, FileIndex := 1,
    File := "b.go", Line := 12 }

/-- The descriptor of a function named `_` in the second file. -/
def sampleDeclBlank : DeclInfo :=
  { Name := "_", FileSyntax := some sampleFileB, FileIndex := 1, File := "b.go", Line := 20 }

/-- Modelled from the spec: `xgo_func_name.FormatFuncRefName` is not among the
embedded files.  The spec calls the identity name of a method
receiver-qualified and writes it `(*T).M` for a pointer receiver and `(T).M`
for a value receiver; a declaration without receiver has empty receiver
fields and keeps its declared name. -/
def FormatFuncRefNameSpec (recvTypeName : String) (recvPtr : Bool) (name : String) : String :=
  if recvTypeName = "" then name
  else if recvPtr then "(*" ++ recvTypeName ++ ")." ++ name
  else "(" ++ recvTypeName ++ ")." ++ name

/-- The expression is a name, or a name with an index. -/
def isRecvBase : Expr → Bool
  | Expr.Name _ => true
  | Expr.IndexExpr (Expr.Name _) _ => true
  | _ => false

/-- The declaration has no receiver, or its receiver type is a name or a name
with an index, alone or as the operand of `*`. -/
def recvShapeOk (fn : FuncDecl) : Bool :=
  match fn.Recv with
  | none => true
  | some recv =>
    match recv.Type_ with
    | Expr.Operation Operator.Mul X _ => isRecvBase X
    | e => isRecvBase e

/-- The method `func (r **T) M()`, whose receiver type is a pointer to a
pointer. -/
def sampleMethodPtrPtr : FuncDecl where
  Line := 7
  Recv := some
    { Name := some "r"
      Type_ := Expr.Operation Operator.Mul
        (Expr.Operation Operator.Mul (Expr.Name "T") none) none }
  Name := "M"

/-- The method `func (r *T) M(a int, _ string)`. -/
def sampleMethodPtr : FuncDecl where
  Line := 9
  Recv := some { Name := some "r", Type_ := Expr.Operation Operator.Mul (Expr.Name "T") none }
  Name := "M"
  Type_ :=
    { ParamList := [{ Name := some "a", Type_ := Expr.Name "int" },
        { Name := some "_", Type_ := Expr.Name "string" }] }

/-- The names `v0`, `v1`, ..., `v500`. -/
def manyVarsNames : List Name :=
  (List.range 501).map (fun i => { Value := "v" ++ toString i, Line := 3 })

/-- The declaration `var v0, v1, ..., v500 int`. -/
def manyVarsDecl : VarDecl where
  NameList := manyVarsNames
  Type_ := some (Expr.Name "int")

/-- A file whose only declaration declares 501 variables. -/
def manyVarsFile : File where
  RelFilename := "vars.go"
  PkgName := "main"
  DeclList := [Decl.VarDecl manyVarsDecl]

/-- The descriptors of the 501 variables of `manyVarsFile`. -/
def manyVarsDecls : List DeclInfo :=
  manyVarsNames.map (fun n =>
    { VarDecl := some manyVarsDecl
      Kind := Kind_Var
      Name := n.Value
      FileSyntax := some manyVarsFile
      FileIndex := 0
      File := "vars.go"
      Line := (n.Line : Int) })

/-- The name `getFuncDeclInfo` records for a parameter or receiver declared
with the name `declared`: the declared name, or the placeholder when no name
is declared, or the placeholder followed by `_blank` when the declared name
is `_`. -/
def backfilled (placeholder : String) (declared : Option String) : String :=
  match declared with
  | none => placeholder
  | some v => if v = "_" then placeholder ++ "_blank" else v

/-- The placeholder of parameter position `i`. -/
def argPlaceholder (i : Nat) : String :=
  "__xgo_arg_auto_filled_" ++ FormatInt i

/-- Modelled from the spec: the placeholder names that the function
`fillFuncArgResNames` synthesizes, one for the receiver and one for each
parameter position and each result position.  The function is called by
`AfterFilesParsed` before `registerFuncs` and is not among the embedded files,
and the spec does not spell the placeholders. -/
structure Placeholders where
  recv : String
  arg : Nat → String
  res : Nat → String

/-- Modelled from the spec: the placeholders of `fillFuncArgResNames` are
synthesized names, so none is empty and none is `_`, and they are
de-duplicated, so two parameter positions get two placeholders and two result
positions get two placeholders. -/
def Placeholders.usable (ph : Placeholders) : Prop :=
  (ph.recv ≠ "" ∧ ph.recv ≠ "_") ∧
  (∀ i, ph.arg i ≠ "" ∧ ph.arg i ≠ "_") ∧
  (∀ i, ph.res i ≠ "" ∧ ph.res i ≠ "_") ∧
  (∀ i j, i ≠ j → ph.arg i ≠ ph.arg j) ∧
  (∀ i j, i ≠ j → ph.res i ≠ ph.res j)

/-- Modelled from the spec: the name `fillFuncArgResNames` leaves on a
parameter, result or receiver declared with the name `declared`: a missing
name and the blank identifier `_` are backfilled with the placeholder, every
other name is kept. -/
def filledNameSpec (placeholder : String) (declared : Option String) : String :=
  match declared with
  | none => placeholder
  | some v => if v = "_" then placeholder else v

/-- Modelled from the spec: `fillFuncArgResNames` on one parameter, result or
receiver. -/
def fillFieldSpec (placeholder : String) (field : Field) : Field :=
  { field with Name := some (filledNameSpec placeholder field.Name) }

/-- Modelled from the spec: `fillFuncArgResNames` on a list of parameters or
results, from position `i` on. -/
def fillFieldsSpec (placeholder : Nat → String) : Nat → List Field → List Field
  | _, [] => []
  | i, p :: rest => fillFieldSpec (placeholder i) p :: fillFieldsSpec placeholder (i + 1) rest

/-- Modelled from the spec: the function `fillFuncArgResNames` on one function
declaration.  `AfterFilesParsed` calls it on the parsed files before
`registerFuncs`, so before `getFuncDeclInfo` reads a declaration; it is not
among the embedded files.  The spec says that missing or blank-identifier
parameter, result and receiver names are backfilled with synthesized,
de-duplicated placeholder names. -/
def fillFuncArgResNamesSpec (ph : Placeholders) (fn : FuncDecl) : FuncDecl :=
  { fn with
    Recv := fn.Recv.map (fillFieldSpec ph.recv)
    Type_ :=
      { ParamList := fillFieldsSpec ph.arg 0 fn.Type_.ParamList
        ResultList := fillFieldsSpec ph.res 0 fn.Type_.ResultList } }

/-- No parameter, result or receiver of the declaration is declared with the
empty string as its name; the parser gives no such name. -/
def noEmptyName (fn : FuncDecl) : Bool :=
  fn.Type_.ParamList.all (fun p => decide (p.Name ≠ some "")) &&
    fn.Type_.ResultList.all (fun r => decide (r.Name ≠ some "")) &&
    (match fn.Recv with
     | none => true
     | some recv => decide (recv.Name ≠ some ""))

/-- Placeholders for running the definitions: `_x` for the receiver, `_a0`,
`_a1`, ... for the parameters and `_r0`, `_r1`, ... for the results. -/
def samplePlaceholders : Placeholders where
  recv := "_x"
  arg := fun i => "_a" ++ FormatInt i
  res := fun i => "_r" ++ FormatInt i

/-- The function `func F(int, string) (int, error)`: no parameter and no
result is named. -/
def sampleFuncUnnamed : FuncDecl where
  Line := 3
  Name := "F"
  Type_ :=
    { ParamList := [{ Type_ := Expr.Name "int" }, { Type_ := Expr.Name "string" }],
      ResultList := [{ Type_ := Expr.Name "int" }, { Type_ := Expr.Name "error" }] }

/-- The method `func (_ *T) M(_ int, b string) (n int, _ error)`. -/
def sampleMethodBlank : FuncDecl where
  Line := 7
  Recv := some { Name := some "_", Type_ := Expr.Operation Operator.Mul (Expr.Name "T") none }
  Name := "M"
  Type_ :=
    { ParamList := [{ Name := some "_", Type_ := Expr.Name "int" },
        { Name := some "b", Type_ := Expr.Name "string" }],
      ResultList := [{ Name := some "n", Type_ := Expr.Name "int" },
        { Name := some "_", Type_ := Expr.Name "error" }] }

/-- The receiver type written `T`, `*T`, `T[P]` or `*T[P]`: `ptr` says whether
the leading `*` is there and `index` is the `P` of a generic index. -/
def recvTypeOf (T : String) (ptr : Bool) (index : Option Expr) : Expr :=
  let base : Expr :=
    match index with
    | none => Expr.Name T
    | some P => Expr.IndexExpr (Expr.Name T) P
  if ptr then Expr.Operation Operator.Mul base none else base

/-- The method `func (t T) init()`. -/
def sampleMethodInit : FuncDecl where
  Line := 5
  Recv := some { Name := some "t", Type_ := Expr.Name "T" }
  Name := "init"

/-- The generic method `func (l *List[E]) Push(e E)`. -/
def sampleMethodGeneric : FuncDecl where
  Line := 11
  Recv := some
    { Name := some "l"
      Type_ := Expr.Operation Operator.Mul
        (Expr.IndexExpr (Expr.Name "List") (Expr.Name "E")) none }
  Name := "Push"
  Type_ := { ParamList := [{ Name := some "e", Type_ := Expr.Name "E" }] }

/-- A file that declares the registration link function. -/
def sampleFileLink : File where
  RelFilename := "link.go"
  PkgName := "main"
  DeclList :=
    [ Decl.FuncDecl { Name := "A", Line := 3 },
      Decl.FuncDecl { Name := "__xgo_link_generated_register_func", Line := 5 } ]

/-- The positions of the extracted sequence that the trap-pair pass marks. -/
def markedPositions (EqualFold : String → String → Bool) (ds : List DeclInfo) : List Nat :=
  (List.range ds.length).filter (fun k => pairedAt EqualFold ds k)

/-- An extracted sequence that starts with a variable: `var x`, `func A`,
`const __xgo_trap_Y`, `var y`. -/
def sampleSeqVarFirst : List DeclInfo :=
  [ { Kind := Kind_Var, Name := "x", Line := 2 },
    { Kind := Kind_Func, Name := "A", Line := 3 },
    { Kind := Kind_Const, Name := "__xgo_trap_Y", Line := 5 },
    { Kind := Kind_Var, Name := "y", Line := 6 } ]

/-! ## Theorems: batches -/

/-- What the loop of `splitBatch` computes: with `m` the batch size and the
current batch shorter than `m`, it appends full batches to `res` and leaves a
rest shorter than `m`; nothing is lost or reordered. -/
theorem splitBatchLoop_spec {α : Type} (m : Nat) (hm : 0 < m) (xs : List α) :
    ∀ (res : List (List α)) (cur : List α), cur.length < m →
      ∃ new cur1, splitBatchLoop (m : Int) xs res cur = (res ++ new, cur1) ∧
        (∀ b ∈ new, b.length = m) ∧
        new.length = (cur.length + xs.length) / m ∧
        cur1.length = (cur.length + xs.length) % m ∧
        new.flatten ++ cur1 = cur ++ xs := by
  induction xs with
  | nil =>
    intro res cur hcur
    refine ⟨[], cur, by simp [splitBatchLoop], by simp, ?_, ?_, by simp⟩
    · simp [Nat.div_eq_of_lt hcur]
    · simp [Nat.mod_eq_of_lt hcur]
  | cons x rest ih =>
    intro res cur hcur
    by_cases hfull : m ≤ cur.length + 1
    · have hlen : cur.length + 1 = m := by omega
      obtain ⟨new, cur1, heq, hall, hcount, hrest, hcat⟩ := ih (res ++ [cur ++ [x]]) [] (by simpa using hm)
      refine ⟨(cur ++ [x]) :: new, cur1, ?_, ?_, ?_, ?_, ?_⟩
      · have hcond : ((cur ++ [x]).length : Int) ≥ (m : Int) := by
          simp only [List.length_append, List.length_singleton]
          exact_mod_cast hfull
        simp only [splitBatchLoop, hcond, if_true, heq, List.append_assoc, List.singleton_append]
      · intro b hb
        rcases List.mem_cons.1 hb with rfl | hb
        · simp [hlen]
        · exact hall b hb
      · simp only [List.length_cons, hcount, List.length_nil, Nat.zero_add]
        have : cur.length + (rest.length + 1) = rest.length + m := by omega
        rw [this, Nat.add_div_right _ hm]
      · rw [hrest]
        simp only [List.length_cons, List.length_nil, Nat.zero_add]
        have : cur.length + (rest.length + 1) = rest.length + m := by omega
        rw [this, Nat.add_mod_right]
      · have hcat1 : new.flatten ++ cur1 = rest := by simpa using hcat
        simp [hcat1]
    · have hlt : (cur ++ [x]).length < m := by simp; omega
      obtain ⟨new, cur1, heq, hall, hcount, hrest, hcat⟩ := ih res (cur ++ [x]) hlt
      refine ⟨new, cur1, ?_, hall, ?_, ?_, ?_⟩
      · have hcond : ¬ ((cur ++ [x]).length : Int) ≥ (m : Int) := by
          simp only [List.length_append, List.length_singleton]
          exact_mod_cast hfull
        simp only [splitBatchLoop, hcond, if_false, heq]
      · rw [hcount]; simp [Nat.add_assoc, Nat.add_comm 1]
      · rw [hrest]; simp [Nat.add_assoc, Nat.add_comm 1]
      · rw [hcat]; simp

/-- The result of `splitBatch` for a positive batch size `m`: `N / m` full
batches followed by the rest of `N % m` descriptors when that is not empty. -/
theorem splitBatch_eq {α : Type} (m : Nat) (hm : 0 < m) (L : List α) :
    ∃ full rest, splitBatch L (m : Int) = some (full ++ (if rest.length = 0 then [] else [rest])) ∧
      (∀ b ∈ full, b.length = m) ∧ full.length = L.length / m ∧
      rest.length = L.length % m ∧ full.flatten ++ rest = L := by
  obtain ⟨new, cur1, heq, hall, hcount, hrest, hcat⟩ := splitBatchLoop_spec m hm L [] [] (by simpa using hm)
  refine ⟨new, cur1, ?_, hall, by simpa using hcount, by simpa using hrest, by simpa using hcat⟩
  have hpos : ¬ ((m : Int) ≤ 0) := by exact_mod_cast Nat.not_le.2 hm
  simp only [splitBatch, hpos, if_false, heq, List.nil_append]
  cases cur1 <;> simp

/-- The ceiling of `N / m` in terms of the quotient and the remainder. -/
theorem ceil_div_eq (N m : Nat) (hm : 0 < m) :
    ⌈((N : ℚ) / (m : ℚ))⌉ = ((N / m + (if N % m = 0 then 0 else 1) : Nat) : Int) := by
  have hmq : (0 : ℚ) < (m : ℚ) := by exact_mod_cast hm
  have hN : (N : ℚ) = (m : ℚ) * ((N / m : Nat) : ℚ) + ((N % m : Nat) : ℚ) := by
    exact_mod_cast (Nat.div_add_mod N m).symm
  have hr : ((N % m : Nat) : ℚ) < (m : ℚ) := by exact_mod_cast Nat.mod_lt N hm
  have hr0 : (0 : ℚ) ≤ ((N % m : Nat) : ℚ) := by positivity
  generalize N / m = q at hN ⊢
  rw [Int.ceil_eq_iff]
  by_cases h0 : N % m = 0
  · simp only [h0, if_true, Nat.add_zero, Nat.cast_zero, add_zero] at hN ⊢
    constructor
    · rw [lt_div_iff₀ hmq, hN]
      push_cast
      nlinarith
    · rw [div_le_iff₀ hmq, hN]
      push_cast
      nlinarith
  · have hr1 : (1 : ℚ) ≤ ((N % m : Nat) : ℚ) := by
      exact_mod_cast Nat.one_le_iff_ne_zero.2 h0
    generalize N % m = r at hN hr hr0 hr1 h0
    simp only [h0, if_false]
    constructor
    · rw [lt_div_iff₀ hmq, hN]
      push_cast
      nlinarith
    · rw [div_le_iff₀ hmq, hN]
      push_cast
      nlinarith

/-- C1: for a positive batch size `M`, `splitBatch` returns `ceil(N / M)`
batches, each non-empty and of length at most `M`; every batch but the last has
length exactly `M`, the last has length `N mod M`, or `M` when `M` divides `N`;
2500 descriptors with `M = 1000` give batches of 1000, 1000 and 500. -/
theorem splitBatch_shape {α : Type} (L : List α) (M : Int) (hM : 0 < M) :
    ∃ bs, splitBatch L M = some bs ∧
      (bs.length : Int) = ⌈((L.length : ℚ) / (M : ℚ))⌉ ∧
      (∀ b ∈ bs, b ≠ [] ∧ (b.length : Int) ≤ M) ∧
      (∀ i b, i + 1 < bs.length → bs[i]? = some b → (b.length : Int) = M) ∧
      (∀ b, bs.getLast? = some b →
        (b.length : Int) = if (L.length : Int) % M = 0 then M else (L.length : Int) % M) ∧
      (L.length = 2500 → M = 1000 → bs.map List.length = [1000, 1000, 500]) := by
  obtain ⟨m, rfl⟩ : ∃ m : Nat, M = (m : Int) := ⟨M.toNat, (Int.toNat_of_nonneg hM.le).symm⟩
  have hm : 0 < m := by exact_mod_cast hM
  obtain ⟨full, rest, heq, hall, hcount, hrest, hcat⟩ := splitBatch_eq m hm L
  refine ⟨_, heq, ?_, ?_, ?_, ?_, ?_⟩
  · have hc := ceil_div_eq L.length m hm
    simp only [Int.cast_natCast]
    rw [hc]
    by_cases h0 : L.length % m = 0
    · simp [h0, hrest, hcount]
    · have : rest.length ≠ 0 := by omega
      simp [h0, this, hcount]
  · intro b hb
    rcases List.mem_append.1 hb with hb | hb
    · have := hall b hb
      refine ⟨?_, by exact_mod_cast this.le⟩
      intro hnil
      rw [hnil] at this
      simp at this
      omega
    · by_cases h0 : rest.length = 0
      · simp [h0] at hb
      · simp only [h0, if_false, List.mem_singleton] at hb
        subst hb
        refine ⟨by intro hnil; simp [hnil] at h0, ?_⟩
        have := Nat.mod_lt L.length hm
        exact_mod_cast (by omega : b.length ≤ m)
  · intro i b hi hb
    have hif : i < full.length := by
      by_cases h0 : rest.length = 0
      · simp only [h0, if_true, List.append_nil] at hi
        omega
      · simp only [h0, if_false, List.length_append, List.length_singleton] at hi
        omega
    rw [List.getElem?_append_left hif] at hb
    have := hall b (List.getElem?_mem hb)
    exact_mod_cast this
  · intro b hb
    by_cases h0 : rest.length = 0
    · have hmod : L.length % m = 0 := by omega
      have hmodz : (L.length : Int) % (m : Int) = 0 := by exact_mod_cast hmod
      simp only [h0, if_true, List.append_nil] at hb
      have := hall b (List.mem_of_getLast?_eq_some hb)
      simp only [hmodz, if_true]
      exact_mod_cast this
    · simp only [h0, if_false, List.getLast?_concat] at hb
      have hb1 : rest = b := by simpa using hb
      subst hb1
      have hmod : L.length % m ≠ 0 := by omega
      have hmodz : ¬ (L.length : Int) % (m : Int) = 0 := by exact_mod_cast hmod
      simp only [hmodz, if_false]
      exact_mod_cast hrest
  · intro hN hM1000
    have hm1000 : m = 1000 := by exact_mod_cast hM1000
    subst hm1000
    rw [hN] at hcount hrest
    have h0 : rest.length ≠ 0 := by omega
    simp only [h0, if_false, List.map_append, List.map_cons, List.map_nil]
    match full, hcount, hall with
    | [a, b], _, hall =>
      have ha := hall a (by simp)
      have hb := hall b (by simp)
      simp [ha, hb, hrest]

/-- Witness of `splitBatch_shape`: a list of 2500 elements in batches of 1000,
and five descriptors in batches of two. -/
theorem splitBatch_shape_witness :
    (∃ bs, splitBatch (List.replicate 2500 ()) 1000 = some bs ∧
      bs.map List.length = [1000, 1000, 500]) ∧
    (0 : Int) < 2 ∧ splitBatch [1, 2, 3, 4, 5] 2 = some [[1, 2], [3, 4], [5]] ∧
    ∃ bs, splitBatch [1, 2, 3, 4, 5] 2 = some bs ∧
      (bs.length : Int) = ⌈(([1, 2, 3, 4, 5].length : ℚ) / ((2 : Int) : ℚ))⌉ ∧
      (∀ b ∈ bs, b ≠ [] ∧ (b.length : Int) ≤ 2) ∧
      (∀ i b, i + 1 < bs.length → bs[i]? = some b → (b.length : Int) = 2) ∧
      (∀ b, bs.getLast? = some b →
        (b.length : Int) =
          if ([1, 2, 3, 4, 5].length : Int) % 2 = 0 then 2 else ([1, 2, 3, 4, 5].length : Int) % 2) ∧
      ([1, 2, 3, 4, 5].length = 2500 → (2 : Int) = 1000 → bs.map List.length = [1000, 1000, 500]) :=
  ⟨(splitBatch_shape (List.replicate 2500 ()) 1000 (by decide)).elim
      (fun bs h => ⟨bs, h.1, h.2.2.2.2.2 (List.length_replicate 2500 ()) rfl⟩),
    by decide, by decide, splitBatch_shape [1, 2, 3, 4, 5] 2 (by decide)⟩

/-- C2: for a positive batch size `M`, the batches returned by `splitBatch`,
concatenated in order, are the descriptor list it was given. -/
theorem splitBatch_flatten {α : Type} (L : List α) (M : Int) (hM : 0 < M) :
    ∃ bs, splitBatch L M = some bs ∧ bs.flatten = L := by
  obtain ⟨m, rfl⟩ : ∃ m : Nat, M = (m : Int) := ⟨M.toNat, (Int.toNat_of_nonneg hM.le).symm⟩
  have hm : 0 < m := by exact_mod_cast hM
  obtain ⟨full, rest, heq, _, _, _, hcat⟩ := splitBatch_eq m hm L
  refine ⟨_, heq, ?_⟩
  by_cases h0 : rest.length = 0
  · have : rest = [] := List.length_eq_zero.1 h0
    subst this
    simpa using hcat
  · simpa [h0] using hcat

/-- Witness of `splitBatch_flatten`: seven descriptors in batches of three. -/
theorem splitBatch_flatten_witness :
    (0 : Int) < 3 ∧ splitBatch [10, 20, 30, 40, 50, 60, 70] 3 = some [[10, 20, 30], [40, 50, 60], [70]] ∧
    ∃ bs, splitBatch [10, 20, 30, 40, 50, 60, 70] 3 = some bs ∧
      bs.flatten = [10, 20, 30, 40, 50, 60, 70] :=
  ⟨by decide, by decide, splitBatch_flatten [10, 20, 30, 40, 50, 60, 70] 3 (by decide)⟩

/-! ## Theorems: the trap-pair pass -/

/-- A string with the given prefix can be cut after it. -/
theorem sliceFrom_of_HasPrefix (s p : String) (h : HasPrefix s p = true) :
    sliceFrom s (len p) = some (String.mk (s.data.drop (len p))) := by
  have hp : p.data <+: s.data := by simpa [HasPrefix] using h
  have hle : len p ≤ len s := hp.length_le
  simp [sliceFrom, hle]

/-- The test `isTrapped` at a position past the first, on a slice whose two
entries read there still point to their own positions and on objects that
agree with the extracted descriptors there, is `pairedAt`. -/
theorem isTrapped_eq (EqualFold : String → String → Bool) (ds objs : List DeclInfo)
    (declFuncs : List Nat) (i : Nat) (hi : i + 1 < ds.length)
    (hp1 : declFuncs[i + 1]? = some (i + 1)) (hp0 : declFuncs[i]? = some i)
    (ho1 : objs[i + 1]? = ds[i + 1]?) (ho0 : objs[i]? = ds[i]?) :
    isTrapped EqualFold objs declFuncs (i + 1) = some (pairedAt EqualFold ds (i + 1)) := by
  obtain ⟨fn, h1⟩ : ∃ fn, ds[i + 1]? = some fn := ⟨_, List.getElem?_eq_getElem hi⟩
  obtain ⟨last, h0⟩ : ∃ last, ds[i]? = some last :=
    ⟨_, List.getElem?_eq_getElem (Nat.lt_of_succ_lt hi)⟩
  simp only [isTrapped, pairedAt, hp1, hp0, ho1, ho0, h1, h0, Nat.add_sub_cancel]
  by_cases hk : fn.Kind = Kind_Var
  · by_cases hc : last.Kind = Kind_Const
    · by_cases hpre : HasPrefix last.Name xgoTrapPrefix = true
      · simp [hk, hc, hpre, sliceFrom_of_HasPrefix _ _ hpre]
        by_cases he : EqualFold fn.Name (String.mk (last.Name.data.drop (len xgoTrapPrefix))) = true
        · simp [he]
        · simp [he]
      · simp [hk, hc, hpre]
    · simp [hk, hc]
  · simp [hk]

/-- A paired position holds a value-kind variable. -/
theorem pairedAt_kind_var (EqualFold : String → String → Bool) (ds : List DeclInfo) (i : Nat)
    (h : pairedAt EqualFold ds i = true) : ∃ fn, ds[i]? = some fn ∧ fn.Kind = Kind_Var := by
  cases i with
  | zero => simp [pairedAt] at h
  | succ k =>
    simp only [pairedAt] at h
    split at h
    · rename_i fn last hfn hlast
      simp only [Bool.and_eq_true, decide_eq_true_eq] at h
      exact ⟨fn, hfn, h.1.1.1⟩
    · simp at h

/-- The position before a paired position holds a constant. -/
theorem pairedAt_kind_const (EqualFold : String → String → Bool) (ds : List DeclInfo) (k : Nat)
    (h : pairedAt EqualFold ds (k + 1) = true) :
    ∃ last, ds[k]? = some last ∧ last.Kind = Kind_Const := by
  simp only [pairedAt] at h
  split at h
  · rename_i fn last hfn hlast
    simp only [Bool.and_eq_true, decide_eq_true_eq] at h
    exact ⟨last, hlast, h.1.1.2⟩
  · simp at h

/-- Two adjacent positions are not both paired: the first of them would be a
variable and a constant at once. -/
theorem pairedAt_not_adjacent (EqualFold : String → String → Bool) (ds : List DeclInfo) (k : Nat)
    (h : pairedAt EqualFold ds (k + 1) = true) : pairedAt EqualFold ds k = false := by
  obtain ⟨last, hlast, hc⟩ := pairedAt_kind_const EqualFold ds k h
  by_contra hne
  have hk : pairedAt EqualFold ds k = true := by simpa using hne
  obtain ⟨fn, hfn, hv⟩ := pairedAt_kind_var EqualFold ds k hk
  rw [hlast] at hfn
  cases hfn
  rw [hc] at hv
  exact absurd hv (by decide)

/-- No position past the end is paired. -/
theorem pairedAt_of_length_le (EqualFold : String → String → Bool) (ds : List DeclInfo) (i : Nat)
    (h : ds.length ≤ i) : pairedAt EqualFold ds i = false := by
  by_contra hne
  have hk : pairedAt EqualFold ds i = true := by simpa using hne
  obtain ⟨fn, hfn, _⟩ := pairedAt_kind_var EqualFold ds i hk
  have := List.getElem?_eq_none h
  rw [this] at hfn
  cases hfn

/-- Writing at `j - 1` and reading the slice from `j - 1` on. -/
theorem drop_set_pred {α : Type} (l : List α) (j : Nat) (p : α) (h1 : 0 < j) (h2 : j ≤ l.length) :
    (l.set (j - 1) p).drop (j - 1) = p :: l.drop j := by
  have hlt : j - 1 < (l.set (j - 1) p).length := by simp; omega
  rw [List.drop_eq_getElem_cons hlt]
  have hj : j - 1 + 1 = j := by omega
  rw [hj, List.drop_set_of_lt _ _ (by omega)]
  simp

/-- The kept positions from `m` on: `m` unless `m + 1` is paired, then those
from `m + 1` on. -/
theorem keptFrom_step (EqualFold : String → String → Bool) (ds : List DeclInfo) (m : Nat)
    (hm : m < ds.length) :
    keptFrom EqualFold ds m =
      if pairedAt EqualFold ds (m + 1) = true then keptFrom EqualFold ds (m + 1)
      else m :: keptFrom EqualFold ds (m + 1) := by
  have hlen : ds.length - m = (ds.length - (m + 1)) + 1 := by omega
  simp only [keptFrom]
  rw [hlen, List.range'_succ, List.filter_cons]
  by_cases hp : pairedAt EqualFold ds (m + 1) = true
  · simp [hp]
  · simp [hp]

/-- The loop of the trap-pair pass, started with `m` positions left to visit
in a state that agrees with the extracted sequence `ds` on what was done so
far, ends without a panic, with the slice holding from `j` on the positions
not followed by a paired position and with the objects marked at the paired
positions. -/
theorem trapLoop_spec (EqualFold : String → String → Bool) (ds : List DeclInfo) (m : Nat) :
    ∀ (objs : List DeclInfo) (declFuncs : List Nat) (j : Nat),
      declFuncs.length = ds.length → m ≤ j → j ≤ ds.length →
      (∀ k, k < m → declFuncs[k]? = some k) →
      (∀ k, objs[k]? = (ds[k]?).map (markIf (decide (m ≤ k) && pairedAt EqualFold ds k))) →
      declFuncs.drop j = keptFrom EqualFold ds m →
      pairedAt EqualFold ds m = false →
      ∃ objsF declFuncsF jF,
        trapLoop EqualFold m objs declFuncs j = some (objsF, declFuncsF, jF) ∧
        declFuncsF.length = ds.length ∧ jF ≤ ds.length ∧
        declFuncsF.drop jF = keptFrom EqualFold ds 0 ∧
        ∀ k, objsF[k]? = (ds[k]?).map (markIf (pairedAt EqualFold ds k)) := by
  induction m using Nat.strong_induction_on with
  | _ m ih =>
    intro objs declFuncs j hlen hmj hjn hptr hobj hdrop hnot
    match m, ih, hmj, hptr, hobj, hdrop, hnot with
    | 0, _, _, _, hobj, hdrop, _ =>
      exact ⟨objs, declFuncs, j, by simp [trapLoop], hlen, hjn, hdrop, by simpa using hobj⟩
    | 1, ih, hmj, hptr, hobj, hdrop, hnot =>
      have h0 : declFuncs[0]? = some 0 := hptr 0 (by omega)
      have hj0 : j ≠ 0 := by omega
      have hj1 : j - 1 < declFuncs.length := by omega
      have hcopy : copyDown declFuncs 0 j = some (declFuncs.set (j - 1) 0, j - 1) := by
        simp [copyDown, hj0, h0, hj1]
      have hrec := ih 0 (by omega) objs (declFuncs.set (j - 1) 0) (j - 1)
        (by simpa using hlen) (by omega) (by omega) (by intro k hk; omega)
        (by
          intro k
          rw [hobj k]
          cases k with
          | zero => simp [pairedAt]
          | succ k => simp)
        (by
          rw [drop_set_pred declFuncs j 0 (by omega) (by omega), hdrop,
            keptFrom_step EqualFold ds 0 (by omega)]
          simp [hnot])
        (by simp [pairedAt])
      obtain ⟨objsF, declFuncsF, jF, hrun, hrest⟩ := hrec
      refine ⟨objsF, declFuncsF, jF, ?_, hrest⟩
      simp only [trapLoop.eq_2, hcopy]
      exact hrun
    | m + 2, ih, hmj, hptr, hobj, hdrop, hnot =>
      have hp1 : declFuncs[m + 1]? = some (m + 1) := hptr (m + 1) (by omega)
      have hp0 : declFuncs[m]? = some m := hptr m (by omega)
      have ho1 : objs[m + 1]? = ds[m + 1]? := by
        rw [hobj (m + 1)]
        have : ¬ (m + 2 ≤ m + 1) := by omega
        cases ds[m + 1]? <;> simp [markIf, this]
      have ho0 : objs[m]? = ds[m]? := by
        rw [hobj m]
        have : ¬ (m + 2 ≤ m) := by omega
        cases ds[m]? <;> simp [markIf, this]
      have htrap := isTrapped_eq EqualFold ds objs declFuncs m (by omega) hp1 hp0 ho1 ho0
      have hj0 : j ≠ 0 := by omega
      have hj1 : j - 1 < declFuncs.length := by omega
      have hcopy : copyDown declFuncs (m + 1) j = some (declFuncs.set (j - 1) (m + 1), j - 1) := by
        simp [copyDown, hj0, hp1, hj1]
      have hptr1 : ∀ k, k < m + 1 → (declFuncs.set (j - 1) (m + 1))[k]? = some k := by
        intro k hk
        rw [List.getElem?_set_ne (by omega)]
        exact hptr k (by omega)
      have hdrop1 : (declFuncs.set (j - 1) (m + 1)).drop (j - 1) =
          (m + 1) :: keptFrom EqualFold ds (m + 2) := by
        rw [drop_set_pred declFuncs j (m + 1) (by omega) (by omega), hdrop]
      by_cases hpair : pairedAt EqualFold ds (m + 1) = true
      · -- the pair is found: mark, copy, skip the marker
        obtain ⟨fn, hfn⟩ : ∃ fn, ds[m + 1]? = some fn :=
          ⟨_, List.getElem?_eq_getElem (by omega : m + 1 < ds.length)⟩
        have hmark : markFollowing objs declFuncs (m + 1) =
            some (objs.set (m + 1) { fn with FollowingTrapConst := true }) := by
          simp [markFollowing, hp1, ho1, hfn]
        have hm0 : pairedAt EqualFold ds m = false := pairedAt_not_adjacent EqualFold ds m hpair
        have hrec := ih m (by omega) (objs.set (m + 1) { fn with FollowingTrapConst := true })
          (declFuncs.set (j - 1) (m + 1)) (j - 1)
          (by simpa using hlen) (by omega) (by omega)
          (fun k hk => hptr1 k (by omega))
          (by
            intro k
            by_cases hk : m + 1 = k
            · subst hk
              have hlt : m + 1 < objs.length := by
                have := ho1
                rw [hfn] at this
                exact (List.getElem?_eq_some_iff.1 this).1
              rw [List.getElem?_set_eq_of_lt _ hlt, hfn]
              simp [markIf, hpair]
            · rw [List.getElem?_set_ne hk, hobj k]
              by_cases hkm : k = m
              · subst hkm
                simp [hm0]
              · have : (decide (m + 2 ≤ k)) = (decide (m ≤ k)) := by
                  have : (m + 2 ≤ k) ↔ (m ≤ k) := by omega
                  simp [this]
                rw [this])
          (by
            rw [hdrop1, keptFrom_step EqualFold ds m (by omega),
              keptFrom_step EqualFold ds (m + 1) (by omega)]
            simp [hpair, hnot])
          hm0
        obtain ⟨objsF, declFuncsF, jF, hrun, hrest⟩ := hrec
        refine ⟨objsF, declFuncsF, jF, ?_, hrest⟩
        rw [hpair] at htrap
        simp only [trapLoop, htrap, hmark, hcopy, hrun]
      · -- no pair here: copy
        have hpairf : pairedAt EqualFold ds (m + 1) = false := by simpa using hpair
        have hrec := ih (m + 1) (by omega) objs (declFuncs.set (j - 1) (m + 1)) (j - 1)
          (by simpa using hlen) (by omega) (by omega) hptr1
          (by
            intro k
            rw [hobj k]
            by_cases hkm : k = m + 1
            · subst hkm
              simp [hpairf]
            · have : (decide (m + 2 ≤ k)) = (decide (m + 1 ≤ k)) := by
                have : (m + 2 ≤ k) ↔ (m + 1 ≤ k) := by omega
                simp [this]
              rw [this])
          (by
            rw [hdrop1, keptFrom_step EqualFold ds (m + 1) (by omega)]
            simp [hnot])
          hpairf
        obtain ⟨objsF, declFuncsF, jF, hrun, hrest⟩ := hrec
        refine ⟨objsF, declFuncsF, jF, ?_, hrest⟩
        rw [hpairf] at htrap
        simp only [trapLoop, htrap, hcopy, hrun]

/-- The trap-pair pass on an extracted sequence `ds` ends without a panic: it
returns the positions not followed by a paired position, in increasing order,
and leaves the objects marked at the paired positions. -/
theorem trapPairPass_eq (EqualFold : String → String → Bool) (ds : List DeclInfo) :
    ∃ objs, trapPairPass EqualFold ds = some (objs, keptFrom EqualFold ds 0) ∧
      ∀ k, objs[k]? = (ds[k]?).map (markIf (pairedAt EqualFold ds k)) := by
  by_cases hn : ds.length = 0
  · have hnil : ds = [] := List.length_eq_zero.1 hn
    subst hnil
    exact ⟨[], by simp [trapPairPass, keptFrom], by simp⟩
  · obtain ⟨objsF, declFuncsF, jF, hrun, hlen, hj, hdrop, hobj⟩ :=
      trapLoop_spec EqualFold ds ds.length ds (List.range ds.length) ds.length
        (by simp) (le_refl _) (le_refl _)
        (fun k hk => List.getElem?_range hk)
        (by
          intro k
          by_cases hk : k < ds.length
          · have : ¬ (ds.length ≤ k) := by omega
            simp [List.getElem?_eq_getElem hk, this, markIf]
          · simp [List.getElem?_eq_none (Nat.le_of_not_lt hk)])
        (by simp [keptFrom])
        (pairedAt_of_length_le EqualFold ds ds.length (le_refl _))
    refine ⟨objsF, ?_, hobj⟩
    have hj1 : jF ≤ declFuncsF.length := by omega
    simp only [trapPairPass, hn, if_false, hrun, hj1, if_true, hdrop]

/-- Position `k` is kept by the pass exactly when it is a position of the
sequence and position `k + 1` is not paired. -/
theorem mem_keptFrom_zero (EqualFold : String → String → Bool) (ds : List DeclInfo) (k : Nat) :
    k ∈ keptFrom EqualFold ds 0 ↔ k < ds.length ∧ pairedAt EqualFold ds (k + 1) = false := by
  simp [keptFrom, List.mem_filter, List.mem_range']

/-- The kept positions are strictly increasing. -/
theorem keptFrom_pairwise (EqualFold : String → String → Bool) (ds : List DeclInfo) (m : Nat) :
    (keptFrom EqualFold ds m).Pairwise (fun a b => a < b) := by
  unfold keptFrom
  exact List.Pairwise.filter _ (List.pairwise_lt_range' m (ds.length - m))

/-- C3: when position `k` of the extracted sequence holds a constant named
with the reserved prefix followed by `s` and position `k + 1` a value-kind
variable whose name equals `s` ignoring case, the trap-pair pass returns a
sequence that holds the descriptor of position `k + 1` exactly once, with
`FollowingTrapConst` set, and does not hold the marker of position `k`. -/
theorem trapPairPass_marks_pair (EqualFold : String → String → Bool) (ds : List DeclInfo)
    (k : Nat) (s : String) (c v : DeclInfo)
    (hc : ds[k]? = some c) (hv : ds[k + 1]? = some v)
    (hck : c.Kind = Kind_Const) (hcn : c.Name = "__xgo_trap_" ++ s)
    (hvk : v.Kind = Kind_Var) (hvn : EqualFold v.Name s = true) :
    ∃ objs ptrs, trapPairPass EqualFold ds = some (objs, ptrs) ∧
      ptrs.count (k + 1) = 1 ∧
      objs[k + 1]? = some { v with FollowingTrapConst := true } ∧
      k ∉ ptrs := by
  obtain ⟨objs, hrun, hobj⟩ := trapPairPass_eq EqualFold ds
  have hpair : pairedAt EqualFold ds (k + 1) = true := by
    have hpre : HasPrefix c.Name xgoTrapPrefix = true := by
      rw [hcn]
      simp [HasPrefix, xgoTrapPrefix]
    have hsub : String.mk (c.Name.data.drop (len xgoTrapPrefix)) = s := by
      rw [hcn]
      simp [len, xgoTrapPrefix]
    simp [pairedAt, hc, hv, hck, hvk, hpre, hsub, hvn]
  have hnext : pairedAt EqualFold ds (k + 2) = false := by
    by_contra hne
    have ht : pairedAt EqualFold ds (k + 1 + 1) = true := by simpa using hne
    obtain ⟨last, hlast, hconst⟩ := pairedAt_kind_const EqualFold ds (k + 1) ht
    rw [hv] at hlast
    cases hlast
    rw [hvk] at hconst
    exact absurd hconst (by decide)
  have hlt : k + 1 < ds.length := (List.getElem?_eq_some_iff.1 hv).1
  refine ⟨objs, _, hrun, ?_, ?_, ?_⟩
  · apply List.count_eq_one_of_mem
    · exact (keptFrom_pairwise EqualFold ds 0).imp (fun h => Nat.ne_of_lt h)
    · exact (mem_keptFrom_zero EqualFold ds (k + 1)).2 ⟨hlt, hnext⟩
  · rw [hobj (k + 1), hv]
    simp [markIf, hpair]
  · intro hmem
    have := ((mem_keptFrom_zero EqualFold ds k).1 hmem).2
    rw [hpair] at this
    cases this

/-- Witness of `trapPairPass_marks_pair`: the marker `__xgo_trap_X` followed by
the variable `x`, after a function `A`. -/
theorem trapPairPass_marks_pair_witness :
    trapPairPass asciiEqualFold
        [{ Name := "A" }, { Kind := Kind_Const, Name := "__xgo_trap_X" },
          { Kind := Kind_Var, Name := "x" }] =
      some ([{ Name := "A" }, { Kind := Kind_Const, Name := "__xgo_trap_X" },
          { Kind := Kind_Var, Name := "x", FollowingTrapConst := true }], [0, 2]) ∧
    ∃ objs ptrs,
      trapPairPass asciiEqualFold
        [{ Name := "A" }, { Kind := Kind_Const, Name := "__xgo_trap_X" },
          { Kind := Kind_Var, Name := "x" }] = some (objs, ptrs) ∧
      ptrs.count (1 + 1) = 1 ∧
      objs[1 + 1]? = some { ({ Kind := Kind_Var, Name := "x" } : DeclInfo) with
        FollowingTrapConst := true } ∧
      1 ∉ ptrs :=
  ⟨rfl, trapPairPass_marks_pair asciiEqualFold
    [{ Name := "A" }, { Kind := Kind_Const, Name := "__xgo_trap_X" },
      { Kind := Kind_Var, Name := "x" }] 1 "X"
    { Kind := Kind_Const, Name := "__xgo_trap_X" } { Kind := Kind_Var, Name := "x" }
    rfl rfl rfl (by decide) rfl (by decide)⟩

/-! ## Theorems: source order -/

/-- Reading through pointers that all point to objects gives the objects, one
for each pointer, in order. -/
theorem derefAll_total (objs : List DeclInfo) (ptrs : List Nat)
    (h : ∀ p ∈ ptrs, p < objs.length) :
    ∃ res, derefAll objs ptrs = some res := by
  induction ptrs with
  | nil => exact ⟨[], rfl⟩
  | cons p rest ih =>
    obtain ⟨res, hres⟩ := ih (fun q hq => h q (List.mem_cons_of_mem _ hq))
    have hp : p < objs.length := h p (List.mem_cons_self _ _)
    exact ⟨objs[p] :: res, by simp [derefAll, List.getElem?_eq_getElem hp, hres]⟩

/-- What `derefAll` returns is, element by element, what the pointers point
to. -/
theorem derefAll_forall₂ (objs : List DeclInfo) (ptrs : List Nat) (res : List DeclInfo)
    (h : derefAll objs ptrs = some res) :
    List.Forall₂ (fun d p => objs[p]? = some d) res ptrs := by
  induction ptrs generalizing res with
  | nil =>
    simp only [derefAll, Option.some.injEq] at h
    subst h
    exact List.Forall₂.nil
  | cons p rest ih =>
    simp only [derefAll] at h
    split at h
    · cases h
    · rename_i d hd
      split at h
      · cases h
      · rename_i ds hds
        simp only [Option.some.injEq] at h
        subst h
        exact List.Forall₂.cons hd (ih ds hds)

/-- An element on the left of two lists related element by element has its
partner on the right. -/
theorem forall₂_mem_left {α β : Type} {P : α → β → Prop} {l₁ : List α} {l₂ : List β}
    (h : List.Forall₂ P l₁ l₂) {a : α} (ha : a ∈ l₁) : ∃ b ∈ l₂, P a b := by
  induction h with
  | nil => cases ha
  | cons hab _ ih =>
    rcases List.mem_cons.1 ha with rfl | ha
    · exact ⟨_, List.mem_cons_self _ _, hab⟩
    · obtain ⟨b, hb, hP⟩ := ih ha
      exact ⟨b, List.mem_cons_of_mem _ hb, hP⟩

/-- A relation that holds along the extracted sequence and does not look at
`FollowingTrapConst` holds along every selection of it at increasing
positions, marked or not. -/
theorem pairwise_of_positions {R : DeclInfo → DeclInfo → Prop} (ext : List DeclInfo)
    (hext : ext.Pairwise R)
    (hR : ∀ a b a1 b1, R a b → (a1 = a ∨ a1 = { a with FollowingTrapConst := true }) →
      (b1 = b ∨ b1 = { b with FollowingTrapConst := true }) → R a1 b1)
    (res : List DeclInfo) (idx : List Nat) (hidx : idx.Pairwise (fun a b => a < b))
    (hF : List.Forall₂ (fun d k => ∃ e, ext[k]? = some e ∧
      (d = e ∨ d = { e with FollowingTrapConst := true })) res idx) :
    res.Pairwise R := by
  induction hF with
  | nil => exact List.Pairwise.nil
  | @cons d k res1 idx1 hdk hrest ih =>
    rw [List.pairwise_cons] at hidx ⊢
    refine ⟨?_, ih hidx.2⟩
    intro d1 hd1
    obtain ⟨k1, hk1, e1, he1, hde1⟩ := forall₂_mem_left hrest hd1
    obtain ⟨e, he, hde⟩ := hdk
    have hlt : k < k1 := hidx.1 k1 hk1
    obtain ⟨hk, rfl⟩ := List.getElem?_eq_some_iff.1 he
    obtain ⟨hk1l, rfl⟩ := List.getElem?_eq_some_iff.1 he1
    exact hR _ _ _ _ (List.pairwise_iff_getElem.1 hext k k1 hk hk1l hlt) hde hde1

/-- Every descriptor `getFuncDeclInfo` returns carries the file index it was
given. -/
theorem getFuncDeclInfo_fileIndex (i : Nat) (f : File) (file : String) (fn : FuncDecl)
    (d : DeclInfo) (h : getFuncDeclInfo i f file fn = some (some d)) : d.FileIndex = (i : Int) := by
  simp only [getFuncDeclInfo] at h
  split at h
  · cases h
  · split at h
    · simp only [Option.some.injEq] at h
      subst h
      rfl
    · split at h
      · simp only [Option.some.injEq] at h
        subst h
        rfl
      · cases h

/-- Every descriptor `extractFuncDecls` returns carries the file index it was
given. -/
theorem extractFuncDecls_fileIndex (env : Env) (i : Nat) (f : File) (file : String) (decl : Decl)
    (varTrap : Bool) (ds : List DeclInfo)
    (h : extractFuncDecls env i f file decl varTrap = some ds) :
    ∀ d ∈ ds, d.FileIndex = (i : Int) := by
  intro d hd
  cases decl with
  | FuncDecl fn =>
    simp only [extractFuncDecls] at h
    split at h
    · cases h
    · simp only [Option.some.injEq] at h
      subst h
      cases hd
    · rename_i info hinfo
      simp only [Option.some.injEq] at h
      subst h
      simp only [List.mem_singleton] at hd
      subst hd
      exact getFuncDeclInfo_fileIndex i f file fn _ hinfo
  | VarDecl v =>
    simp only [extractFuncDecls] at h
    split at h
    · simp only [Option.some.injEq] at h
      subst h
      cases hd
    · simp only [Option.some.injEq] at h
      subst h
      obtain ⟨d0, _, rfl⟩ := List.mem_map.1 hd
      rfl
  | ConstDecl c =>
    simp only [extractFuncDecls] at h
    split at h
    · simp only [Option.some.injEq] at h
      subst h
      cases hd
    · simp only [Option.some.injEq] at h
      subst h
      obtain ⟨d0, _, rfl⟩ := List.mem_map.1 hd
      rfl
  | TypeDecl t =>
    simp only [extractFuncDecls] at h
    split at h
    · simp only [Option.some.injEq] at h
      subst h
      cases hd
    · split at h
      · simp only [Option.some.injEq] at h
        subst h
        cases hd
      · split at h
        · simp only [Option.some.injEq] at h
          subst h
          simp only [List.mem_singleton] at hd
          subst hd
          rfl
        · simp only [Option.some.injEq] at h
          subst h
          cases hd
  | ImportDecl =>
    simp only [extractFuncDecls, Option.some.injEq] at h
    subst h
    cases hd

/-- Every descriptor extracted from the declarations of file `i` carries the
file index `i`. -/
theorem extractDeclList_fileIndex (env : Env) (i : Nat) (f : File) (varTrap : Bool)
    (decls : List Decl) :
    ∀ ds, extractDeclList env i f varTrap decls = some ds → ∀ d ∈ ds, d.FileIndex = (i : Int) := by
  induction decls with
  | nil =>
    intro ds h d hd
    simp only [extractDeclList, Option.some.injEq] at h
    subst h
    cases hd
  | cons decl rest ih =>
    intro ds h d hd
    simp only [extractDeclList] at h
    split at h
    · cases h
    · rename_i fnDecls hfn
      split at h
      · cases h
      · rename_i more hmore
        simp only [Option.some.injEq] at h
        subst h
        rcases List.mem_append.1 hd with hd | hd
        · exact extractFuncDecls_fileIndex env i f f.RelFilename decl varTrap fnDecls hfn d hd
        · exact ih more hmore d hd

/-- The descriptors extracted from the files from index `i` on carry file
indices from `i` on, in non-decreasing order; when the descriptors of each
file carry non-decreasing lines, file index and line are in non-decreasing
lexicographic order. -/
theorem extractFiles_order (env : Env) (varTrap : Bool) (files : List File) :
    ∀ (i : Nat) (ext : List DeclInfo), extractFiles env varTrap i files = some ext →
      (∀ d ∈ ext, (i : Int) ≤ d.FileIndex) ∧
      ext.Pairwise (fun a b => a.FileIndex ≤ b.FileIndex) ∧
      (perFileLinesSorted env varTrap i files = true →
        ext.Pairwise (fun a b =>
          a.FileIndex < b.FileIndex ∨ (a.FileIndex = b.FileIndex ∧ a.Line ≤ b.Line))) := by
  induction files with
  | nil =>
    intro i ext h
    simp only [extractFiles, Option.some.injEq] at h
    subst h
    simp
  | cons f rest ih =>
    intro i ext h
    simp only [extractFiles] at h
    split at h
    · cases h
    · rename_i ds hds
      split at h
      · cases h
      · rename_i more hmore
        simp only [Option.some.injEq] at h
        subst h
        have hidx := extractDeclList_fileIndex env i f varTrap f.DeclList ds hds
        obtain ⟨hge, hsorted, hlex⟩ := ih (i + 1) more hmore
        have hge1 : ∀ d ∈ more, (i : Int) + 1 ≤ d.FileIndex := by
          intro d hd
          have := hge d hd
          push_cast at this
          exact this
        refine ⟨?_, ?_, ?_⟩
        · intro d hd
          rcases List.mem_append.1 hd with hd | hd
          · rw [hidx d hd]
          · have := hge1 d hd
            omega
        · rw [List.pairwise_append]
          refine ⟨?_, hsorted, ?_⟩
          · apply List.Pairwise.imp_mem.2
            apply List.pairwise_of_forall
            intro a b ha hb
            rw [hidx a ha, hidx b hb]
          · intro a ha b hb
            have := hge1 b hb
            rw [hidx a ha]
            omega
        · intro hlines
          simp only [perFileLinesSorted, hds, Bool.and_eq_true, decide_eq_true_eq] at hlines
          rw [List.pairwise_append]
          refine ⟨?_, hlex hlines.2, ?_⟩
          · refine List.Pairwise.imp_of_mem ?_ hlines.1
            intro a b ha hb hab
            right
            exact ⟨by rw [hidx a ha, hidx b hb], hab⟩
          · intro a ha b hb
            have := hge1 b hb
            left
            rw [hidx a ha]
            omega

/-- What `getFuncDecls` returns: the descriptors of the extracted sequence at
the kept positions, marked at the paired positions. -/
theorem getFuncDecls_eq (env : Env) (files : List File) (varTrap : Bool) (res : List DeclInfo)
    (h : getFuncDecls env files varTrap = some res) :
    ∃ ext, extractFiles env varTrap 0 files = some ext ∧
      List.Forall₂ (fun d k => (ext[k]?).map (markIf (pairedAt env.EqualFold ext k)) = some d)
        res (keptFrom env.EqualFold ext 0) := by
  simp only [getFuncDecls] at h
  split at h
  · cases h
  · rename_i ext hext
    obtain ⟨objs, hrun, hobj⟩ := trapPairPass_eq env.EqualFold ext
    rw [hrun] at h
    simp only at h
    refine ⟨ext, hext, ?_⟩
    have := derefAll_forall₂ objs _ res h
    exact this.imp (fun {d k} hdk => by rw [← hobj k]; exact hdk)

/-- Whenever the extraction ends without a panic, `getFuncDecls` returns. -/
theorem getFuncDecls_total (env : Env) (files : List File) (varTrap : Bool) (ext : List DeclInfo)
    (h : extractFiles env varTrap 0 files = some ext) :
    ∃ res, getFuncDecls env files varTrap = some res := by
  obtain ⟨objs, hrun, hobj⟩ := trapPairPass_eq env.EqualFold ext
  have hlen : objs.length = ext.length := by
    apply Nat.le_antisymm
    · by_contra hlt
      have h1 := hobj ext.length
      have hlt1 : ext.length < objs.length := by omega
      rw [List.getElem?_eq_none (le_refl _), List.getElem?_eq_getElem hlt1] at h1
      cases h1
    · by_contra hlt
      have h1 := hobj objs.length
      have hlt1 : objs.length < ext.length := by omega
      rw [List.getElem?_eq_none (le_refl _), List.getElem?_eq_getElem hlt1] at h1
      cases h1
  obtain ⟨res, hres⟩ := derefAll_total objs (keptFrom env.EqualFold ext 0) (by
    intro p hp
    rw [hlen]
    exact ((mem_keptFrom_zero env.EqualFold ext p).1 hp).1)
  exact ⟨res, by simp only [getFuncDecls, h, hrun, hres]⟩

/-- Every descriptor `getFuncDeclInfo` returns carries the line of the
declaration. -/
theorem getFuncDeclInfo_line (i : Nat) (f : File) (file : String) (fn : FuncDecl)
    (d : DeclInfo) (h : getFuncDeclInfo i f file fn = some (some d)) : d.Line = (fn.Line : Int) := by
  simp only [getFuncDeclInfo] at h
  split at h
  · cases h
  · split at h
    · simp only [Option.some.injEq] at h
      subst h
      rfl
    · split at h
      · simp only [Option.some.injEq] at h
        subst h
        rfl
      · cases h

/-- The lines of the descriptors extracted from one declaration are lines of
the declaration, in order. -/
theorem extractFuncDecls_lines (env : Env) (i : Nat) (f : File) (file : String) (decl : Decl)
    (varTrap : Bool) (ds : List DeclInfo)
    (hc : varTrap = false ∨ collectKeepsLines env)
    (h : extractFuncDecls env i f file decl varTrap = some ds) :
    List.Sublist (ds.map (fun d => d.Line)) (declLines decl) := by
  cases decl with
  | FuncDecl fn =>
    simp only [extractFuncDecls] at h
    split at h
    · cases h
    · simp only [Option.some.injEq] at h
      subst h
      simp
    · rename_i info hinfo
      simp only [Option.some.injEq] at h
      subst h
      simp only [List.map_cons, List.map_nil, declLines]
      rw [getFuncDeclInfo_line i f file fn info hinfo]
  | VarDecl v =>
    simp only [extractFuncDecls] at h
    split at h
    · simp only [Option.some.injEq] at h
      subst h
      simp
    · rename_i hv
      simp only [Option.some.injEq] at h
      subst h
      rcases hc with hc | hc
      · simp [hc] at hv
      · have := hc Kind_Var v.NameList v.Type_
        simpa [declLines, List.map_map, Function.comp_def, setVarProvenance] using this
  | ConstDecl v =>
    simp only [extractFuncDecls] at h
    split at h
    · simp only [Option.some.injEq] at h
      subst h
      simp
    · rename_i hv
      simp only [Option.some.injEq] at h
      subst h
      rcases hc with hc | hc
      · simp [hc] at hv
      · have := hc Kind_Const v.NameList v.Type_
        simpa [declLines, List.map_map, Function.comp_def, setConstProvenance] using this
  | TypeDecl t =>
    simp only [extractFuncDecls] at h
    split at h
    · simp only [Option.some.injEq] at h
      subst h
      simp
    · split at h
      · simp only [Option.some.injEq] at h
        subst h
        simp
      · split at h
        · simp only [Option.some.injEq] at h
          subst h
          simp [declLines]
        · simp only [Option.some.injEq] at h
          subst h
          simp
  | ImportDecl =>
    simp only [extractFuncDecls, Option.some.injEq] at h
    subst h
    simp

/-- The lines of the descriptors extracted from the declarations of one file
are lines of the declarations, in order. -/
theorem extractDeclList_lines (env : Env) (i : Nat) (f : File) (varTrap : Bool)
    (hc : varTrap = false ∨ collectKeepsLines env) (decls : List Decl) :
    ∀ ds, extractDeclList env i f varTrap decls = some ds →
      List.Sublist (ds.map (fun d => d.Line)) (decls.flatMap declLines) := by
  induction decls with
  | nil =>
    intro ds h
    simp only [extractDeclList, Option.some.injEq] at h
    subst h
    simp
  | cons decl rest ih =>
    intro ds h
    simp only [extractDeclList] at h
    split at h
    · cases h
    · rename_i fnDecls hfn
      split at h
      · cases h
      · rename_i more hmore
        simp only [Option.some.injEq] at h
        subst h
        rw [List.map_append, List.flatMap_cons]
        exact List.Sublist.append
          (extractFuncDecls_lines env i f f.RelFilename decl varTrap fnDecls hc hfn)
          (ih more hmore)

/-- When the declarations of each file are given in non-decreasing line order,
the descriptors extracted from each file carry non-decreasing lines. -/
theorem perFileLinesSorted_of_decls (env : Env) (varTrap : Bool)
    (hc : varTrap = false ∨ collectKeepsLines env) (files : List File) :
    ∀ i, (∀ f ∈ files, declLinesSorted f = true) → perFileLinesSorted env varTrap i files = true := by
  induction files with
  | nil => intro i _; rfl
  | cons f rest ih =>
    intro i hs
    simp only [perFileLinesSorted, Bool.and_eq_true]
    refine ⟨?_, ih (i + 1) (fun g hg => hs g (List.mem_cons_of_mem _ hg))⟩
    cases hds : extractDeclList env i f varTrap f.DeclList with
    | none => rfl
    | some ds =>
      have hsub := extractDeclList_lines env i f varTrap hc f.DeclList ds hds
      have hf : (f.DeclList.flatMap declLines).Pairwise (fun a b => a ≤ b) := by
        have := hs f (List.mem_cons_self _ _)
        simpa [declLinesSorted] using this
      have hp := hf.sublist hsub
      rw [List.pairwise_map] at hp
      simpa using hp

/-- The stand-in `collectVarDeclsPerName` gives each descriptor the line of its
name. -/
theorem collectKeepsLines_mainEnv (varTrap : Bool) : collectKeepsLines (mainEnv varTrap) := by
  intro kind names typ
  have : ((mainEnv varTrap).collectVarDecls kind names typ).map (fun d => d.Line) =
      names.map (fun n => (n.Line : Int)) := by
    simp [mainEnv, collectVarDeclsPerName, List.map_map, Function.comp_def]
  rw [this]

/-- C4: the descriptors `getFuncDecls` returns are in source order: they are
the extraction sequence (files in list order, declarations in in-file order)
at strictly increasing positions, each as extracted or with
`FollowingTrapConst` set; `FileIndex` is non-decreasing along the result, and
so is the pair of `FileIndex` and `Line` when the declarations of each file
are given in non-decreasing line order.  The line of a variable or constant
descriptor is written by `collectVarDecls`, which is not among the embedded
files: with variable trapping on, it is taken to write lines of the names it
is given, in their order. -/
theorem getFuncDecls_source_order (env : Env) (files : List File) (varTrap : Bool)
    (res : List DeclInfo) (h : getFuncDecls env files varTrap = some res) :
    ∃ (ext : List DeclInfo) (idx : List Nat), extractFiles env varTrap 0 files = some ext ∧
      idx.Pairwise (fun a b => a < b) ∧
      List.Forall₂ (fun d k => ∃ e, ext[k]? = some e ∧
        (d = e ∨ d = { e with FollowingTrapConst := true })) res idx ∧
      res.Pairwise (fun a b => a.FileIndex ≤ b.FileIndex) ∧
      ((varTrap = false ∨ collectKeepsLines env) →
        (∀ f ∈ files, declLinesSorted f = true) →
        res.Pairwise (fun a b =>
          a.FileIndex < b.FileIndex ∨ (a.FileIndex = b.FileIndex ∧ a.Line ≤ b.Line))) := by
  obtain ⟨ext, hext, hF⟩ := getFuncDecls_eq env files varTrap res h
  obtain ⟨_, hsorted, hlex⟩ := extractFiles_order env varTrap files 0 ext hext
  have hidx := keptFrom_pairwise env.EqualFold ext 0
  have hF1 : List.Forall₂ (fun d k => ∃ e, ext[k]? = some e ∧
      (d = e ∨ d = { e with FollowingTrapConst := true })) res (keptFrom env.EqualFold ext 0) := by
    refine hF.imp ?_
    intro d k hdk
    cases he : ext[k]? with
    | none => rw [he] at hdk; cases hdk
    | some e =>
      rw [he] at hdk
      simp only [Option.map_some', Option.some.injEq] at hdk
      refine ⟨e, rfl, ?_⟩
      by_cases hp : pairedAt env.EqualFold ext k = true
      · right; rw [← hdk]; simp [markIf, hp]
      · left; rw [← hdk]; simp [markIf, hp]
  refine ⟨ext, _, hext, hidx, hF1, ?_, ?_⟩
  · refine pairwise_of_positions ext hsorted ?_ res _ hidx hF1
    intro a b a1 b1 hab ha hb
    rcases ha with rfl | rfl <;> rcases hb with rfl | rfl <;> exact hab
  · intro hc hdecls
    have hlines := perFileLinesSorted_of_decls env varTrap hc files 0 hdecls
    refine pairwise_of_positions ext (hlex hlines) ?_ res _ hidx hF1
    intro a b a1 b1 hab ha hb
    rcases ha with rfl | rfl <;> rcases hb with rfl | rfl <;> exact hab

/-- Witness of `getFuncDecls_source_order`: two files, the first with a trap
pair, the second with an interface type and an initializer, each with its
declarations in line order. -/
theorem getFuncDecls_source_order_witness :
    (getFuncDecls (mainEnv true) [sampleFileA, sampleFileB] true).map
        (List.map (fun d => (d.Name, d.RecvTypeName, d.FileIndex, d.Line, d.FollowingTrapConst))) =
      some [("A", "", 0, 3, false), ("x", "", 0, 6, true), ("", "I", 1, 2, false),
        ("B", "", 1, 9, false)] ∧
    (∀ f ∈ [sampleFileA, sampleFileB], declLinesSorted f = true) ∧
    ∃ res, getFuncDecls (mainEnv true) [sampleFileA, sampleFileB] true = some res ∧
      ∃ (ext : List DeclInfo) (idx : List Nat),
        extractFiles (mainEnv true) true 0 [sampleFileA, sampleFileB] = some ext ∧
        idx.Pairwise (fun a b => a < b) ∧
        List.Forall₂ (fun d k => ∃ e, ext[k]? = some e ∧
          (d = e ∨ d = { e with FollowingTrapConst := true })) res idx ∧
        res.Pairwise (fun a b => a.FileIndex ≤ b.FileIndex) ∧
        res.Pairwise (fun a b =>
          a.FileIndex < b.FileIndex ∨ (a.FileIndex = b.FileIndex ∧ a.Line ≤ b.Line)) := by
  have hdecls : ∀ f ∈ [sampleFileA, sampleFileB], declLinesSorted f = true := by
    intro f hf
    simp only [List.mem_cons, List.mem_singleton, List.not_mem_nil, or_false] at hf
    rcases hf with rfl | rfl <;> decide
  obtain ⟨ext, idx, h1, h2, h3, h4, h5⟩ :=
    getFuncDecls_source_order (mainEnv true) [sampleFileA, sampleFileB] true _ rfl
  exact ⟨by decide, hdecls, _, rfl, ext, idx, h1, h2, h3, h4,
    h5 (Or.inr (collectKeepsLines_mainEnv true)) hdecls⟩

/-! ## Theorems: which modules are skipped -/

/-- A string has a prefix exactly when its characters start with those of the
prefix. -/
theorem HasPrefix_iff (s p : String) : HasPrefix s p = true ↔ ∃ t : List Char, s.data = p.data ++ t := by
  simp only [HasPrefix, List.isPrefixOf_iff_prefix]
  constructor
  · rintro ⟨t, ht⟩
    exact ⟨t, ht.symm⟩
  · rintro ⟨t, ht⟩
    exact ⟨t, ht.symm⟩

/-- Reading a list right after a first part. -/
theorem getElem?_append_cons_length {α : Type} (l : List α) (c : α) (t : List α) :
    (l ++ c :: t)[l.length]? = some c := by
  induction l with
  | nil => simp
  | cons a l ih => simpa using ih

/-- Dropping a first part and one more element. -/
theorem drop_length_succ_append_cons {α : Type} (l : List α) (c : α) (t : List α) :
    (l ++ c :: t).drop (l.length + 1) = t := by
  induction l with
  | nil => simp
  | cons a l ih => simp

/-- The function `cutPkgPrefix` never panics; it accepts `pkg` itself, with an
empty suffix, and `pkg` followed by `/` and a suffix, and nothing else. -/
theorem cutPkgPrefix_spec (s pkg : String) :
    (s = pkg → cutPkgPrefix s pkg = some ("", true)) ∧
    (∀ r : String, s = pkg ++ "/" ++ r → cutPkgPrefix s pkg = some (r, true)) ∧
    (s ≠ pkg → (¬ ∃ r : String, s = pkg ++ "/" ++ r) → cutPkgPrefix s pkg = some ("", false)) := by
  refine ⟨?_, ?_, ?_⟩
  · rintro rfl
    have : HasPrefix s s = true := (HasPrefix_iff s s).2 ⟨[], by simp⟩
    simp [cutPkgPrefix, this]
  · rintro r rfl
    have hp : HasPrefix (pkg ++ "/" ++ r) pkg = true :=
      (HasPrefix_iff _ _).2 ⟨'/' :: r.data, by simp [String.data_append]⟩
    have hdata : (pkg ++ "/" ++ r).data = pkg.data ++ '/' :: r.data := by
      simp [String.data_append]
    have hlen : ¬ (len (pkg ++ "/" ++ r) = len pkg) := by
      simp [len, hdata]
    have hget : (pkg ++ "/" ++ r).data[len pkg]? = some '/' := by
      rw [hdata]
      exact getElem?_append_cons_length pkg.data '/' r.data
    have hslice : sliceFrom (pkg ++ "/" ++ r) (len pkg + 1) = some r := by
      have hle : pkg.data.length + 1 ≤ (pkg.data ++ '/' :: r.data).length := by simp
      simp only [sliceFrom, len, hdata, hle, if_true]
      rw [drop_length_succ_append_cons]
    simp only [cutPkgPrefix, hp, hlen, hget, hslice]
    simp
  · intro hne hnot
    by_cases hp : HasPrefix s pkg = true
    · obtain ⟨t, ht⟩ := (HasPrefix_iff s pkg).1 hp
      cases t with
      | nil =>
        exfalso
        apply hne
        apply String.ext
        simpa using ht
      | cons c t1 =>
        have hlen : ¬ (len s = len pkg) := by simp [len, ht]
        have hget : s.data[len pkg]? = some c := by
          rw [ht]
          exact getElem?_append_cons_length pkg.data c t1
        have hc : c ≠ '/' := by
          rintro rfl
          apply hnot
          refine ⟨String.mk t1, ?_⟩
          apply String.ext
          simp [String.data_append, ht]
        simp only [cutPkgPrefix, hp, hlen, hget]
        simp [hc]
    · simp [cutPkgPrefix, hp]

/-- The function `cutPkgPrefix` returns on every input. -/
theorem cutPkgPrefix_total (s pkg : String) : ∃ r, cutPkgPrefix s pkg = some r := by
  obtain ⟨h1, h2, h3⟩ := cutPkgPrefix_spec s pkg
  by_cases he : s = pkg
  · exact ⟨_, h1 he⟩
  · by_cases hr : ∃ r : String, s = pkg ++ "/" ++ r
    · obtain ⟨r, hr⟩ := hr
      exact ⟨_, h2 r hr⟩
    · exact ⟨_, h3 he hr⟩

/-- The second result of `cutPkgPrefix` is true exactly for `pkg` and for
`pkg` followed by `/` and a suffix. -/
theorem cutPkgPrefix_ok_iff (s pkg : String) :
    ∃ suffix ok, cutPkgPrefix s pkg = some (suffix, ok) ∧
      (ok = true ↔ (s = pkg ∨ ∃ r : String, s = pkg ++ "/" ++ r)) := by
  obtain ⟨h1, h2, h3⟩ := cutPkgPrefix_spec s pkg
  by_cases he : s = pkg
  · exact ⟨_, _, h1 he, by simp [he]⟩
  · by_cases hr : ∃ r : String, s = pkg ++ "/" ++ r
    · obtain ⟨r, hr1⟩ := hr
      exact ⟨_, _, h2 r hr1, by simp; right; exact ⟨r, hr1⟩⟩
    · exact ⟨_, _, h3 he hr, by simp [he, hr]⟩

/-- The function `IsPkgXgoSkipTrap` returns on every input. -/
theorem IsPkgXgoSkipTrap_total (pkg : String) : ∃ b, IsPkgXgoSkipTrap pkg = some b := by
  obtain ⟨⟨suffix, ok⟩, h0⟩ := cutPkgPrefix_total pkg XgoModule
  obtain ⟨⟨s1, ok1⟩, h1⟩ := cutPkgPrefix_total suffix "test"
  obtain ⟨⟨s2, ok2⟩, h2⟩ := cutPkgPrefix_total suffix "runtime/test"
  simp only [IsPkgXgoSkipTrap, h0, h1, h2]
  cases ok <;> cases ok1 <;> cases ok2 <;> by_cases hs : suffix = "" <;> simp [hs]

/-- C5: an empty module path and a module path under `runtime/` or
`internal/` is skipped, in either mode and whatever the allow-list and the
special set are. -/
theorem SkipPackageTrap_reserved (stdWhitelist isSkippableSpecialPkg : String → Bool)
    (Std : Bool) (pkgPath : String)
    (h : pkgPath = "" ∨ HasPrefix pkgPath "runtime/" = true ∨
      HasPrefix pkgPath "internal/" = true) :
    SkipPackageTrap stdWhitelist isSkippableSpecialPkg Std pkgPath = some true := by
  unfold SkipPackageTrap
  rcases h with h | h | h
  · simp [h]
  · by_cases he : pkgPath = "" <;> simp [he, h]
  · by_cases he : pkgPath = "" <;> simp [he, h]

/-- Witness of `SkipPackageTrap_reserved`: `runtime/internal/atomic` in
standard-library mode with an allow-list that has every path. -/
theorem SkipPackageTrap_reserved_witness :
    ("runtime/internal/atomic" = "" ∨ HasPrefix "runtime/internal/atomic" "runtime/" = true ∨
      HasPrefix "runtime/internal/atomic" "internal/" = true) ∧
    SkipPackageTrap (fun _ => true) (fun _ => false) true "runtime/internal/atomic" = some true :=
  ⟨by decide, SkipPackageTrap_reserved (fun _ => true) (fun _ => false) true
    "runtime/internal/atomic" (by decide)⟩

/-- C6: in standard-library mode a non-empty module path outside `runtime/`
and `internal/` is not skipped exactly when it is on the allow-list; off the
allow-list it is skipped. -/
theorem SkipPackageTrap_std_mode (stdWhitelist isSkippableSpecialPkg : String → Bool)
    (pkgPath : String) (hne : pkgPath ≠ "") (hrt : HasPrefix pkgPath "runtime/" = false)
    (hint : HasPrefix pkgPath "internal/" = false) :
    (SkipPackageTrap stdWhitelist isSkippableSpecialPkg true pkgPath = some false ↔
      stdWhitelist pkgPath = true) ∧
    (stdWhitelist pkgPath = false →
      SkipPackageTrap stdWhitelist isSkippableSpecialPkg true pkgPath = some true) := by
  unfold SkipPackageTrap
  cases hw : stdWhitelist pkgPath <;> simp [hne, hrt, hint, hw]

/-- Witness of `SkipPackageTrap_std_mode`: `net/http` with the allow-list
`net/http`. -/
theorem SkipPackageTrap_std_mode_witness :
    ("net/http" : String) ≠ "" ∧ HasPrefix "net/http" "runtime/" = false ∧
    HasPrefix "net/http" "internal/" = false ∧
    SkipPackageTrap (fun p => p == "net/http") (fun _ => false) true "net/http" = some false ∧
    SkipPackageTrap (fun p => p == "net/http") (fun _ => false) true "sync/atomic" = some true ∧
    ((SkipPackageTrap (fun p => p == "net/http") (fun _ => false) true "net/http" = some false ↔
        (fun p : String => p == "net/http") "net/http" = true) ∧
      ((fun p : String => p == "net/http") "net/http" = false →
        SkipPackageTrap (fun p => p == "net/http") (fun _ => false) true "net/http" = some true)) :=
  ⟨by decide, by decide, by decide, by decide, by decide,
    SkipPackageTrap_std_mode (fun p => p == "net/http") (fun _ => false) "net/http"
      (by decide) (by decide) (by decide)⟩

/-- Refutation of C7 as stated: in standard-library mode a path of the special
set that is on the allow-list is not skipped. -/
theorem SkipPackageTrap_special_counterexample :
    (HasPrefix "crypto/rand" "crypto/" = true ∧
      SkipPackageTrap (fun p => p == "crypto/rand") (fun _ => false) true "crypto/rand" =
        some false) ∧
    ((fun p : String => p == "os") "os" = true ∧
      SkipPackageTrap (fun p => p == "os") (fun p => p == "os") true "os" = some false) := by
  decide

/-- C7, amended: a module path of the special set (accepted by
`isSkippableSpecialPkg`, or under `crypto/`) is skipped outside
standard-library mode; in standard-library mode it is skipped exactly when it
is empty, under `runtime/` or `internal/`, or off the allow-list, and is not
skipped otherwise. -/
theorem SkipPackageTrap_special (stdWhitelist isSkippableSpecialPkg : String → Bool)
    (pkgPath : String)
    (h : isSkippableSpecialPkg pkgPath = true ∨ HasPrefix pkgPath "crypto/" = true) :
    SkipPackageTrap stdWhitelist isSkippableSpecialPkg false pkgPath = some true ∧
    (SkipPackageTrap stdWhitelist isSkippableSpecialPkg true pkgPath = some true ↔
      (pkgPath = "" ∨ HasPrefix pkgPath "runtime/" = true ∨
        HasPrefix pkgPath "internal/" = true ∨ stdWhitelist pkgPath = false)) ∧
    (¬ (pkgPath = "" ∨ HasPrefix pkgPath "runtime/" = true ∨
        HasPrefix pkgPath "internal/" = true ∨ stdWhitelist pkgPath = false) →
      SkipPackageTrap stdWhitelist isSkippableSpecialPkg true pkgPath = some false) := by
  refine ⟨?_, ?_, ?_⟩
  · unfold SkipPackageTrap
    obtain ⟨b, hb⟩ := IsPkgXgoSkipTrap_total pkgPath
    by_cases he : pkgPath = ""
    · simp [he]
    · by_cases hr : (HasPrefix pkgPath "runtime/" || HasPrefix pkgPath "internal/") = true
      · simp [he, hr]
      · rcases h with h | h
        · simp [he, hr, h]
        · by_cases hs : isSkippableSpecialPkg pkgPath = true
          · simp [he, hr, hs]
          · cases b <;> simp [he, hr, hs, hb, h]
  · unfold SkipPackageTrap
    by_cases he : pkgPath = ""
    · simp [he]
    · cases hrt : HasPrefix pkgPath "runtime/" <;> cases hint : HasPrefix pkgPath "internal/" <;>
        cases hw : stdWhitelist pkgPath <;> simp [he, hrt, hint, hw]
  · unfold SkipPackageTrap
    intro hnot
    by_cases he : pkgPath = ""
    · simp [he] at hnot
    · cases hrt : HasPrefix pkgPath "runtime/" <;> cases hint : HasPrefix pkgPath "internal/" <;>
        cases hw : stdWhitelist pkgPath <;> simp [he, hrt, hint, hw] at hnot ⊢

/-- Witness of `SkipPackageTrap_special`: `crypto/rand` with the allow-list
`crypto/rand`. -/
theorem SkipPackageTrap_special_witness :
    (((fun _ : String => false) "crypto/rand" = true ∨ HasPrefix "crypto/rand" "crypto/" = true)) ∧
    (SkipPackageTrap (fun p => p == "crypto/rand") (fun _ => false) false "crypto/rand" = some true ∧
    (SkipPackageTrap (fun p => p == "crypto/rand") (fun _ => false) true "crypto/rand" = some true ↔
      (("crypto/rand" : String) = "" ∨ HasPrefix "crypto/rand" "runtime/" = true ∨
        HasPrefix "crypto/rand" "internal/" = true ∨
        (fun p : String => p == "crypto/rand") "crypto/rand" = false)) ∧
    (¬ (("crypto/rand" : String) = "" ∨ HasPrefix "crypto/rand" "runtime/" = true ∨
        HasPrefix "crypto/rand" "internal/" = true ∨
        (fun p : String => p == "crypto/rand") "crypto/rand" = false) →
      SkipPackageTrap (fun p => p == "crypto/rand") (fun _ => false) true "crypto/rand" =
        some false)) :=
  ⟨by decide, SkipPackageTrap_special (fun p => p == "crypto/rand") (fun _ => false)
    "crypto/rand" (by decide)⟩

/-- A path under the module has one remainder only. -/
theorem append_slash_inj (pkg r1 r2 : String) (h : pkg ++ "/" ++ r1 = pkg ++ "/" ++ r2) :
    r1 = r2 := by
  have := congrArg String.data h
  simp only [String.data_append, List.append_assoc, List.append_cancel_left_eq] at this
  exact String.ext this

/-- C8: `IsPkgXgoSkipTrap` is true exactly for the module path of the weaver
and for the paths under it, after a `/`, whose remainder is neither `test` nor
`runtime/test` nor a path under one of the two; it is false for the test
subtrees and for every path outside the module, such as
`github.com/xhd2015/xgo2`. -/
theorem IsPkgXgoSkipTrap_iff (pkg : String) :
    (∃ b, IsPkgXgoSkipTrap pkg = some b ∧
      (b = true ↔
        (pkg = "github.com/xhd2015/xgo" ∨
          ∃ r : String, pkg = "github.com/xhd2015/xgo" ++ "/" ++ r ∧
            r ≠ "test" ∧ (¬ ∃ t : String, r = "test" ++ "/" ++ t) ∧
            r ≠ "runtime/test" ∧ ¬ ∃ t : String, r = "runtime/test" ++ "/" ++ t))) ∧
    IsPkgXgoSkipTrap "github.com/xhd2015/xgo2" = some false ∧
    IsPkgXgoSkipTrap "github.com/xhd2015/xgo/test" = some false ∧
    IsPkgXgoSkipTrap "github.com/xhd2015/xgo/runtime/test/debug" = some false ∧
    IsPkgXgoSkipTrap "github.com/xhd2015/xgo/runtime/core" = some true := by
  refine ⟨?_, by decide, by decide, by decide, by decide⟩
  obtain ⟨h1, h2, h3⟩ := cutPkgPrefix_spec pkg XgoModule
  by_cases he : pkg = XgoModule
  · refine ⟨true, ?_, ?_⟩
    · simp [IsPkgXgoSkipTrap, h1 he]
    · simp only [true_iff]
      left
      exact he
  · by_cases hr : ∃ r : String, pkg = XgoModule ++ "/" ++ r
    · obtain ⟨r, hr1⟩ := hr
      obtain ⟨s1, ok1, hc1, hok1⟩ := cutPkgPrefix_ok_iff r "test"
      obtain ⟨s2, ok2, hc2, hok2⟩ := cutPkgPrefix_ok_iff r "runtime/test"
      have hright : ∀ P : String → Prop,
          (pkg = "github.com/xhd2015/xgo" ∨
            ∃ r0 : String, pkg = "github.com/xhd2015/xgo" ++ "/" ++ r0 ∧ P r0) ↔ P r := by
        intro P
        constructor
        · rintro (h | ⟨r0, hr0, hP⟩)
          · exact absurd h he
          · have : r0 = r := append_slash_inj XgoModule r0 r (by rw [← hr1]; exact hr0.symm)
            rw [← this]
            exact hP
        · intro hP
          exact Or.inr ⟨r, hr1, hP⟩
      rw [hright (fun r0 => r0 ≠ "test" ∧ (¬ ∃ t : String, r0 = "test" ++ "/" ++ t) ∧
            r0 ≠ "runtime/test" ∧ ¬ ∃ t : String, r0 = "runtime/test" ++ "/" ++ t)]
      by_cases hempty : r = ""
      · refine ⟨true, ?_, ?_⟩
        · simp [IsPkgXgoSkipTrap, h2 r hr1, hempty]
        · subst hempty
          simp only [true_iff]
          refine ⟨by decide, ?_, by decide, ?_⟩
          · rintro ⟨t, ht⟩
            have hlen := congrArg len ht
            simp only [len, String.data_append, List.length_append, List.length_cons,
              List.length_nil] at hlen
            omega
          · rintro ⟨t, ht⟩
            have hlen := congrArg len ht
            simp only [len, String.data_append, List.length_append, List.length_cons,
              List.length_nil] at hlen
            omega
      · refine ⟨!ok1 && !ok2, ?_, ?_⟩
        · simp only [IsPkgXgoSkipTrap, h2 r hr1, hc1, hc2]
          cases ok1 <;> cases ok2 <;> simp [hempty]
        · have e1 : ok1 = false ↔ ¬ (r = "test" ∨ ∃ t : String, r = "test" ++ "/" ++ t) := by
            rw [← hok1]
            cases ok1 <;> simp
          have e2 : ok2 = false ↔
              ¬ (r = "runtime/test" ∨ ∃ t : String, r = "runtime/test" ++ "/" ++ t) := by
            rw [← hok2]
            cases ok2 <;> simp
          rw [Bool.and_eq_true, Bool.not_eq_true', Bool.not_eq_true', e1, e2]
          simp only [not_or, ne_eq, and_assoc]
    · refine ⟨false, ?_, ?_⟩
      · simp [IsPkgXgoSkipTrap, h3 he hr]
      · simp only [Bool.false_eq_true, false_iff]
        rintro (h | ⟨r, hr1, _⟩)
        · exact he h
        · exact hr ⟨r, hr1⟩

/-! ## Theorems: the marker constant and the registration units -/

/-- Every file the loop over the batches adds is a registration unit, and
there is one for each batch when no batch is empty. -/
theorem registerBatches_spec (env : Env) (pkgName : String) (total : Nat)
    (bs : List (List DeclInfo)) :
    ∀ (i : Nat) (files : List AddedFile), (∀ b ∈ bs, b.length ≠ 0) →
      registerBatches env pkgName total i bs = some files →
      files.length = bs.length ∧ ∀ a ∈ files, isRegisterUnit a = true := by
  induction bs with
  | nil =>
    intro i files _ h
    simp only [registerBatches, Option.some.injEq] at h
    subst h
    simp
  | cons b rest ih =>
    intro i files hne h
    have hb : b.length ≠ 0 := hne b (List.mem_cons_self _ _)
    simp only [registerBatches, hb, if_false] at h
    split at h
    · cases h
    · rename_i body hbody
      split at h
      · cases h
      · rename_i more hmore
        simp only [Option.some.injEq] at h
        subst h
        obtain ⟨hlen, hall⟩ := ih (i + 1) more (fun b1 hb1 => hne b1 (List.mem_cons_of_mem _ hb1)) hmore
        refine ⟨by simp [hlen], ?_⟩
        intro a ha
        rcases List.mem_cons.1 ha with rfl | ha
        · simp only [isRegisterUnit]
          rw [HasPrefix_iff]
          by_cases ht : total > 1
          · exact ⟨("_" ++ FormatInt i ++ ".go").data, by simp [ht, String.data_append]⟩
          · exact ⟨(".go" : String).data, by simp [ht, String.data_append]⟩
        · exact hall a ha

/-- For a positive batch size no batch returned by `splitBatch` is empty, and
there is no batch exactly when there is no descriptor. -/
theorem splitBatch_nonempty {α : Type} (m : Nat) (hm : 0 < m) (L : List α) :
    ∃ bs, splitBatch L (m : Int) = some bs ∧ (∀ b ∈ bs, b.length ≠ 0) ∧
      (bs.length = 0 ↔ L = []) ∧
      (bs.length : Int) = ⌈((L.length : ℚ) / (m : ℚ))⌉ := by
  obtain ⟨full, rest, heq, hall, hcount, hrest, hcat⟩ := splitBatch_eq m hm L
  refine ⟨_, heq, ?_, ?_, ?_⟩
  · intro b hb
    rcases List.mem_append.1 hb with hb | hb
    · rw [hall b hb]
      omega
    · by_cases h0 : rest.length = 0
      · simp [h0] at hb
      · simp only [h0, if_false, List.mem_singleton] at hb
        subst hb
        exact h0
  · constructor
    · intro hlen
      have hnil := List.length_eq_zero.1 hlen
      have hfull : full = [] := (List.append_eq_nil.1 hnil).1
      have hr : rest.length = 0 := by
        by_contra h0
        have := (List.append_eq_nil.1 hnil).2
        simp [h0] at this
      rw [← hcat, hfull, List.length_eq_zero.1 hr]
      rfl
    · intro hL
      subst hL
      simp only [List.length_nil, Nat.zero_div, Nat.zero_mod] at hcount hrest
      simp [hrest, hcount]
  · rw [ceil_div_eq L.length m hm]
    by_cases h0 : L.length % m = 0
    · simp [h0, hrest, hcount]
    · have : rest.length ≠ 0 := by omega
      simp [h0, this, hcount]

/-- The helper file is not a registration unit: filtering the files added in
the main branch of `registerFuncs` leaves those of the batches. -/
theorem filter_helper_cons (code : String) (files : List AddedFile)
    (hall : ∀ a ∈ files, isRegisterUnit a = true) :
    List.filter isRegisterUnit
      ({ name := "__xgo_autogen_register_func_helper.go", code := code } :: files) = files := by
  have hno : ¬ isRegisterUnit
      { name := "__xgo_autogen_register_func_helper.go", code := code } = true := by
    have : HasPrefix "__xgo_autogen_register_func_helper.go" "__xgo_autogen_register_func_info" =
        false := by decide
    simp [isRegisterUnit, this]
  rw [List.filter_cons_of_neg hno]
  exact List.filter_eq_self.2 hall

/-- Refutation of C9 as stated: a module `main` whose file declares
`__XGO_SKIP_TRAP` and two functions gets a registration unit from
`registerFuncs`, and `HasSkipTrap` reports the marker afterwards. -/
theorem registerFuncs_marker_counterexample :
    computeSkipTrap [sampleFileSkip] = true ∧
    (registerFuncs (mainEnv false) {} [sampleFileSkip]).map
        (fun r => ((HasSkipTrap r.1).1, r.2.map (fun a => a.name),
          (r.2.filter isRegisterUnit).length)) =
      some (true, ["__xgo_autogen_register_func_helper.go",
        "__xgo_autogen_register_func_info.go"], 1) := by
  decide

/-- C9, amended: `registerFuncs` does not consult the marker constant.  It
appends no registration unit exactly when the module path is skipped by
`SkipPackageTrap`, or a descriptor without receiver carries the name of the
registration link function, or no descriptor is left after filtering; when
the module is not skipped and no descriptor carries that name, the number of
registration units is the number of batches of at most 1000 of the descriptors
left after filtering, whatever constants the files declare. -/
theorem registerFuncs_units (env : Env) (g : Globals) (fileList : List File) (g1 : Globals)
    (added : List AddedFile) (h : registerFuncs env g fileList = some (g1, added)) :
    ((added.filter isRegisterUnit).length = 0 ↔
      (SkipPackageTrap env.stdWhitelist env.isSkippableSpecialPkg env.Std env.pkgPath = some true ∨
        ∃ ds, getFuncDecls env fileList env.allowVarTrap = some ds ∧
          (ds.any (fun d => decide (d.RecvTypeName = "") &&
              decide (d.Name = XgoLinkGeneratedRegisterFunc)) = true ∨
            filterFuncDecls env ds env.pkgPath = []))) ∧
    (∀ ds, SkipPackageTrap env.stdWhitelist env.isSkippableSpecialPkg env.Std env.pkgPath =
        some false →
      getFuncDecls env fileList env.allowVarTrap = some ds →
      ds.any (fun d => decide (d.RecvTypeName = "") &&
        decide (d.Name = XgoLinkGeneratedRegisterFunc)) = false →
      ((added.filter isRegisterUnit).length : Int) =
        ⌈(((filterFuncDecls env ds env.pkgPath).length : ℚ) / ((1000 : Nat) : ℚ))⌉) := by
  simp only [registerFuncs] at h
  split at h
  · cases h
  · rename_i hskip
    simp only [Option.some.injEq, Prod.mk.injEq] at h
    obtain ⟨_, rfl⟩ := h
    refine ⟨by simp [hskip], ?_⟩
    intro ds hs
    rw [hskip] at hs
    cases hs
  · rename_i hskip
    split at h
    · cases h
    · rename_i ds hds
      split at h
      · rename_i hlink
        simp only [Option.some.injEq, Prod.mk.injEq] at h
        obtain ⟨_, rfl⟩ := h
        refine ⟨?_, ?_⟩
        · simp only [List.filter_nil, List.length_nil, true_iff]
          exact Or.inr ⟨ds, hds, Or.inl hlink⟩
        · intro ds1 _ hds1 hno
          rw [hds] at hds1
          simp only [Option.some.injEq] at hds1
          subst hds1
          rw [hlink] at hno
          cases hno
      · rename_i hlink
        obtain ⟨bs, hsplit, hne, hzero, hceil⟩ :=
          splitBatch_nonempty 1000 (by decide) (filterFuncDecls env ds env.pkgPath)
        have hsplit1 : splitBatch (filterFuncDecls env ds env.pkgPath) 1000 = some bs := hsplit
        rw [hsplit1] at h
        simp only at h
        split at h
        · cases h
        · rename_i files hfiles
          simp only [Option.some.injEq, Prod.mk.injEq] at h
          obtain ⟨_, rfl⟩ := h
          obtain ⟨hlen, hall⟩ := registerBatches_spec env _ _ bs 0 files hne hfiles
          rw [filter_helper_cons _ _ hall, hlen]
          refine ⟨?_, ?_⟩
          · rw [hzero]
            constructor
            · intro hnil
              exact Or.inr ⟨ds, hds, Or.inr hnil⟩
            · rintro (hs | ⟨ds1, hds1, hl | hnil⟩)
              · rw [hskip] at hs
                cases hs
              · rw [hds] at hds1
                simp only [Option.some.injEq] at hds1
                subst hds1
                exact absurd hl hlink
              · rw [hds] at hds1
                simp only [Option.some.injEq] at hds1
                subst hds1
                exact hnil
          · intro ds1 _ hds1 _
            rw [hds] at hds1
            simp only [Option.some.injEq] at hds1
            subst hds1
            exact hceil

/-- Witness of `registerFuncs_units`: the module `main` with the file that
declares `__XGO_SKIP_TRAP` and two functions. -/
theorem registerFuncs_units_witness :
    ∃ g1 added, registerFuncs (mainEnv false) {} [sampleFileSkip] = some (g1, added) ∧
      ((added.filter isRegisterUnit).length = 0 ↔
        (SkipPackageTrap (mainEnv false).stdWhitelist (mainEnv false).isSkippableSpecialPkg
            (mainEnv false).Std (mainEnv false).pkgPath = some true ∨
          ∃ ds, getFuncDecls (mainEnv false) [sampleFileSkip] (mainEnv false).allowVarTrap = some ds ∧
            (ds.any (fun d => decide (d.RecvTypeName = "") &&
                decide (d.Name = XgoLinkGeneratedRegisterFunc)) = true ∨
              filterFuncDecls (mainEnv false) ds (mainEnv false).pkgPath = []))) ∧
      (∀ ds, SkipPackageTrap (mainEnv false).stdWhitelist (mainEnv false).isSkippableSpecialPkg
            (mainEnv false).Std (mainEnv false).pkgPath = some false →
        getFuncDecls (mainEnv false) [sampleFileSkip] (mainEnv false).allowVarTrap = some ds →
        ds.any (fun d => decide (d.RecvTypeName = "") &&
          decide (d.Name = XgoLinkGeneratedRegisterFunc)) = false →
        ((added.filter isRegisterUnit).length : Int) =
          ⌈(((filterFuncDecls (mainEnv false) ds (mainEnv false).pkgPath).length : ℚ) /
            ((1000 : Nat) : ℚ))⌉) :=
  ⟨_, _, rfl, registerFuncs_units (mainEnv false) {} [sampleFileSkip] _ _ rfl⟩

/-- Refutation of C10 as stated: a constant declaration that declares
`__XGO_SKIP_TRAP` as its second name is not seen by `computeSkipTrap`. -/
theorem computeSkipTrap_counterexample :
    declaresSkipTrapAnywhere [sampleFileSkipSecond] = true ∧
    computeSkipTrap [sampleFileSkipSecond] = false := by
  decide

/-- C10, amended: `computeSkipTrap` returns true exactly when some constant
declaration of some file has `__XGO_SKIP_TRAP` as the first name of its name
list. -/
theorem computeSkipTrap_iff (files : List File) :
    computeSkipTrap files = true ↔
      ∃ f ∈ files, ∃ c : ConstDecl, Decl.ConstDecl c ∈ f.DeclList ∧
        ∃ n : Name, c.NameList.head? = some n ∧ n.Value = "__XGO_SKIP_TRAP" := by
  unfold computeSkipTrap
  simp only [List.any_eq_true]
  constructor
  · rintro ⟨f, hf, d, hd, hmatch⟩
    cases d with
    | ConstDecl c =>
      refine ⟨f, hf, c, hd, ?_⟩
      simp only [Bool.and_eq_true, decide_eq_true_eq] at hmatch
      cases hl : c.NameList with
      | nil => rw [hl] at hmatch; simp at hmatch
      | cons n rest =>
        rw [hl] at hmatch
        exact ⟨n, rfl, by simpa using hmatch.2⟩
    | FuncDecl _ => simp at hmatch
    | VarDecl _ => simp at hmatch
    | TypeDecl _ => simp at hmatch
    | ImportDecl => simp at hmatch
  · rintro ⟨f, hf, c, hc, n, hn, hv⟩
    refine ⟨f, hf, Decl.ConstDecl c, hc, ?_⟩
    cases hl : c.NameList with
    | nil => rw [hl] at hn; simp at hn
    | cons n0 rest =>
      rw [hl] at hn
      simp only [List.head?_cons, Option.some.injEq] at hn
      subst hn
      simp only [hl, List.length_cons, Bool.and_eq_true, decide_eq_true_eq]
      exact ⟨Nat.succ_pos _, hv⟩

/-! ## Theorems: synthesis of the registration statements -/

set_option maxRecDepth 100000

/-- What the first loop of `generateFuncRegBody` returns when it returns: the
statements of the descriptors with a name other than `_`, in order, after the
statements it started with, and one new file definition for each file index
of such a descriptor that was not declared before. -/
theorem generateFuncRegBodyLoop_spec (env : Env) (r s : String) (ds : List DeclInfo) :
    ∀ (declared : List Int) (fileDefs stmts fd st : List String),
      generateFuncRegBodyLoop env r s ds declared fileDefs stmts = some (fd, st) →
      st = stmts ++ (ds.filter nonBlank).flatMap (regStmtsOf env r s) ∧
      ∃ (newDefs : List String) (newIdx : List Int),
        fd = fileDefs ++ newDefs ∧ newIdx.Nodup ∧
        (∀ i, i ∈ newIdx ↔ (i ∉ declared ∧ ∃ d ∈ ds, d.Name ≠ "_" ∧ d.FileIndex = i)) ∧
        List.Forall₂ (fun fileDef i => ∃ d ∈ ds, d.Name ≠ "_" ∧ d.FileIndex = i ∧
          ∃ fs, d.FileSyntax = some fs ∧
            fileDef = getFileRef i ++ " := " ++ env.Quote fs.RelFilename) newDefs newIdx := by
  induction ds with
  | nil =>
    intro declared fileDefs stmts fd st h
    simp only [generateFuncRegBodyLoop, Option.some.injEq, Prod.mk.injEq] at h
    obtain ⟨rfl, rfl⟩ := h
    exact ⟨by simp, [], [], by simp, List.nodup_nil, by simp, List.Forall₂.nil⟩
  | cons d rest ih =>
    intro declared fileDefs stmts fd st h
    by_cases hb : d.Name = "_"
    · simp only [generateFuncRegBodyLoop, hb, if_true] at h
      obtain ⟨hst, newDefs, newIdx, hfd, hnd, hmem, hF⟩ := ih declared fileDefs stmts fd st h
      refine ⟨?_, newDefs, newIdx, hfd, hnd, ?_, ?_⟩
      · rw [hst]
        simp [List.filter_cons, nonBlank, hb]
      · intro i
        rw [hmem i]
        constructor
        · rintro ⟨hi, d1, hd1, hn, he⟩
          exact ⟨hi, d1, List.mem_cons_of_mem _ hd1, hn, he⟩
        · rintro ⟨hi, d1, hd1, hn, he⟩
          rcases List.mem_cons.1 hd1 with rfl | hd1
          · exact absurd hb hn
          · exact ⟨hi, d1, hd1, hn, he⟩
      · exact hF.imp (fun {a b} ⟨d1, hd1, hrest⟩ => ⟨d1, List.mem_cons_of_mem _ hd1, hrest⟩)
    · simp only [generateFuncRegBodyLoop, hb, if_false] at h
      have hfilter : (d :: rest).filter nonBlank = d :: rest.filter nonBlank := by
        simp [List.filter_cons, nonBlank, hb]
      by_cases hc : declared.contains d.FileIndex = true
      · simp only [hc, if_true] at h
        obtain ⟨hst, newDefs, newIdx, hfd, hnd, hmem, hF⟩ := ih declared fileDefs _ fd st h
        have hcm : d.FileIndex ∈ declared := by simpa using hc
        refine ⟨?_, newDefs, newIdx, hfd, hnd, ?_, ?_⟩
        · rw [hst, hfilter, List.flatMap_cons, List.append_assoc]
        · intro i
          rw [hmem i]
          constructor
          · rintro ⟨hi, d1, hd1, hn, he⟩
            exact ⟨hi, d1, List.mem_cons_of_mem _ hd1, hn, he⟩
          · rintro ⟨hi, d1, hd1, hn, he⟩
            rcases List.mem_cons.1 hd1 with rfl | hd1
            · rw [he] at hcm
              exact absurd hcm hi
            · exact ⟨hi, d1, hd1, hn, he⟩
        · exact hF.imp (fun {a b} ⟨d1, hd1, hrest⟩ => ⟨d1, List.mem_cons_of_mem _ hd1, hrest⟩)
      · simp only [hc, Bool.false_eq_true, if_false] at h
        have hcm : d.FileIndex ∉ declared := by simpa using hc
        cases hfs : d.FileSyntax with
        | none =>
          rw [hfs] at h
          cases h
        | some fs =>
          rw [hfs] at h
          simp only at h
          obtain ⟨hst, newDefs, newIdx, hfd, hnd, hmem, hF⟩ := ih _ _ _ fd st h
          refine ⟨?_, (getFileRef d.FileIndex ++ " := " ++ env.Quote fs.RelFilename) :: newDefs,
            d.FileIndex :: newIdx, ?_, ?_, ?_, ?_⟩
          · rw [hst, hfilter, List.flatMap_cons, List.append_assoc]
          · rw [hfd]
            simp
          · rw [List.nodup_cons]
            refine ⟨?_, hnd⟩
            intro hin
            exact ((hmem d.FileIndex).1 hin).1 (List.mem_cons_self _ _)
          · intro i
            rw [List.mem_cons, hmem i]
            constructor
            · rintro (rfl | ⟨hi, d1, hd1, hn, he⟩)
              · exact ⟨hcm, d, List.mem_cons_self _ _, hb, rfl⟩
              · exact ⟨fun hin => hi (List.mem_cons_of_mem _ hin), d1,
                  List.mem_cons_of_mem _ hd1, hn, he⟩
            · rintro ⟨hi, d1, hd1, hn, he⟩
              by_cases hid : i = d.FileIndex
              · exact Or.inl hid
              · right
                rcases List.mem_cons.1 hd1 with rfl | hd1
                · exact absurd he.symm hid
                · refine ⟨?_, d1, hd1, hn, he⟩
                  intro hin
                  rcases List.mem_cons.1 hin with h1 | h1
                  · exact hid h1
                  · exact hi h1
          · refine List.Forall₂.cons ⟨d, List.mem_cons_self _ _, hb, rfl, fs, hfs, rfl⟩ ?_
            exact hF.imp (fun {a b} ⟨d1, hd1, hrest⟩ => ⟨d1, List.mem_cons_of_mem _ hd1, hrest⟩)

/-- The first loop of `generateFuncRegBody` returns when every descriptor with
a name other than `_` points to its file. -/
theorem generateFuncRegBodyLoop_total (env : Env) (r s : String) (ds : List DeclInfo)
    (hfs : ∀ d ∈ ds, d.Name ≠ "_" → d.FileSyntax ≠ none) :
    ∀ (declared : List Int) (fileDefs stmts : List String),
      ∃ fd st, generateFuncRegBodyLoop env r s ds declared fileDefs stmts = some (fd, st) := by
  induction ds with
  | nil =>
    intro declared fileDefs stmts
    exact ⟨fileDefs, stmts, rfl⟩
  | cons d rest ih =>
    intro declared fileDefs stmts
    have ih1 := ih (fun d1 hd1 => hfs d1 (List.mem_cons_of_mem _ hd1))
    by_cases hb : d.Name = "_"
    · simp only [generateFuncRegBodyLoop, hb, if_true]
      exact ih1 _ _ _
    · simp only [generateFuncRegBodyLoop, hb, if_false]
      by_cases hc : declared.contains d.FileIndex = true
      · simp only [hc, if_true]
        exact ih1 _ _ _
      · simp only [hc, Bool.false_eq_true, if_false]
        cases hfs1 : d.FileSyntax with
        | none => exact absurd hfs1 (hfs d (List.mem_cons_self _ _) hb)
        | some fs => exact ih1 _ _ _

/-- The first loop of `generateFuncRegBody` does the same on a list and on the
list without the descriptors named `_`. -/
theorem generateFuncRegBodyLoop_filter (env : Env) (r s : String) (ds : List DeclInfo) :
    ∀ (declared : List Int) (fileDefs stmts : List String),
      generateFuncRegBodyLoop env r s ds declared fileDefs stmts =
        generateFuncRegBodyLoop env r s (ds.filter nonBlank) declared fileDefs stmts := by
  induction ds with
  | nil => intro declared fileDefs stmts; rfl
  | cons d rest ih =>
    intro declared fileDefs stmts
    by_cases hb : d.Name = "_"
    · have hfilter : (d :: rest).filter nonBlank = rest.filter nonBlank := by
        simp [List.filter_cons, nonBlank, hb]
      rw [hfilter]
      simp only [generateFuncRegBodyLoop, hb, if_true]
      exact ih _ _ _
    · have hfilter : (d :: rest).filter nonBlank = d :: rest.filter nonBlank := by
        simp [List.filter_cons, nonBlank, hb]
      rw [hfilter]
      simp only [generateFuncRegBodyLoop, hb, if_false]
      by_cases hc : declared.contains d.FileIndex = true
      · simp only [hc, if_true]
        exact ih _ _ _
      · simp only [hc, Bool.false_eq_true, if_false]
        cases d.FileSyntax with
        | none => rfl
        | some fs => exact ih _ _ _

/-- What `generateFuncRegBody` returns in terms of what its first loop
returns. -/
theorem generateFuncRegBody_of_loop (env : Env) (r s : String) (ds : List DeclInfo)
    (fileDefs stmts : List String)
    (h : generateFuncRegBodyLoop env r s ds [] [] [] = some (fileDefs, stmts)) :
    generateFuncRegBody env ds r s =
      some (if stmts.length = 0 then "" else Join (fileDefs ++ stmts) "\n") := by
  simp only [generateFuncRegBody, h]
  by_cases h0 : stmts.length = 0 <;> simp [h0]

/-- The statements of a list with a descriptor named other than `_` in it: the
statements of the descriptors before it, its own statements, and the
statements of the descriptors after it; the call returns when every such
descriptor points to its file. -/
theorem generateFuncRegBodyLoop_split (env : Env) (r s : String) (pre post : List DeclInfo)
    (d : DeclInfo) (hname : d.Name ≠ "_")
    (hfs : ∀ d1 ∈ pre ++ d :: post, d1.Name ≠ "_" → d1.FileSyntax ≠ none) :
    ∃ fileDefs stmts,
      generateFuncRegBodyLoop env r s (pre ++ d :: post) [] [] [] = some (fileDefs, stmts) ∧
      generateFuncRegBody env (pre ++ d :: post) r s = some (Join (fileDefs ++ stmts) "\n") ∧
      stmts = (pre.filter nonBlank).flatMap (regStmtsOf env r s) ++ regStmtsOf env r s d ++
        (post.filter nonBlank).flatMap (regStmtsOf env r s) := by
  obtain ⟨fd, st, hrun⟩ := generateFuncRegBodyLoop_total env r s (pre ++ d :: post) hfs [] [] []
  obtain ⟨hst, -⟩ := generateFuncRegBodyLoop_spec env r s (pre ++ d :: post) [] [] [] fd st hrun
  have hnb : nonBlank d = true := by simp [nonBlank, hname]
  have hst1 : st = (pre.filter nonBlank).flatMap (regStmtsOf env r s) ++ regStmtsOf env r s d ++
      (post.filter nonBlank).flatMap (regStmtsOf env r s) := by
    rw [hst]
    simp [List.filter_append, List.filter_cons, hnb, List.flatMap_append, List.flatMap_cons]
  have hlen : ¬ st.length = 0 := by
    rw [hst1]
    simp only [List.length_append]
    have : 0 < (regStmtsOf env r s d).length := by
      unfold regStmtsOf
      by_cases hk : d.Kind = Kind_Var <;> simp [hk]
    omega
  refine ⟨fd, st, hrun, ?_, hst1⟩
  rw [generateFuncRegBody_of_loop env r s _ fd st hrun]
  simp [hlen]

/-- C13: a value-kind variable descriptor with a name other than `_` adds two
statements back to back, the first with kind tag 1 and its name as identity
name, the second with kind tag 2 and `*` before the name, the two with the
same fields otherwise; a descriptor of another kind with a name other than
`_` adds one statement. -/
theorem generateFuncRegBody_var_stmts (env : Env) (r s : String) (pre post : List DeclInfo)
    (d : DeclInfo) (hname : d.Name ≠ "_")
    (hfs : ∀ d1 ∈ pre ++ d :: post, d1.Name ≠ "_" → d1.FileSyntax ≠ none) :
    ∃ fileDefs stmts,
      generateFuncRegBodyLoop env r s (pre ++ d :: post) [] [] [] = some (fileDefs, stmts) ∧
      generateFuncRegBody env (pre ++ d :: post) r s = some (Join (fileDefs ++ stmts) "\n") ∧
      stmts = (pre.filter nonBlank).flatMap (regStmtsOf env r s) ++ regStmtsOf env r s d ++
        (post.filter nonBlank).flatMap (regStmtsOf env r s) ∧
      (d.Kind = Kind_Var →
        regStmtsOf env r s d =
          [ r ++ "(" ++ s ++ "\x7b" ++
              Join (regFieldList env d Kind_Var (d.IdentityName env)) "," ++ "\x7d)",
            r ++ "(" ++ s ++ "\x7b" ++
              Join (regFieldList env d Kind_VarPtr ("*" ++ d.IdentityName env)) "," ++ "\x7d)" ] ∧
        (d.Interface = false → d.IdentityName env = d.Name) ∧
        (regFieldList env d Kind_Var (d.IdentityName env))[1]? = some "1" ∧
        (regFieldList env d Kind_VarPtr ("*" ++ d.IdentityName env))[1]? = some "2" ∧
        (regFieldList env d Kind_Var (d.IdentityName env))[11]? =
          some (env.Quote (d.IdentityName env)) ∧
        (regFieldList env d Kind_VarPtr ("*" ++ d.IdentityName env))[11]? =
          some (env.Quote ("*" ++ d.IdentityName env)) ∧
        ((regFieldList env d Kind_Var (d.IdentityName env)).eraseIdx 11).eraseIdx 1 =
          ((regFieldList env d Kind_VarPtr ("*" ++ d.IdentityName env)).eraseIdx 11).eraseIdx 1) ∧
      (d.Kind ≠ Kind_Var → (regStmtsOf env r s d).length = 1) := by
  obtain ⟨fileDefs, stmts, hrun, hbody, hst⟩ :=
    generateFuncRegBodyLoop_split env r s pre post d hname hfs
  refine ⟨fileDefs, stmts, hrun, hbody, hst, ?_, ?_⟩
  · intro hk
    refine ⟨?_, ?_, ?_, ?_, rfl, rfl, rfl⟩
    · simp [regStmtsOf, hk, regKind]
    · intro hi
      simp [DeclInfo.IdentityName, hi, hk, DeclKind.IsFunc, Kind_Var, Kind_Func, Kind_VarPtr]
    · have h1 : FormatInt Kind_Var = "1" := by decide
      simp [regFieldList, h1]
    · have h2 : FormatInt Kind_VarPtr = "2" := by decide
      simp [regFieldList, h2]
  · intro hk
    simp [regStmtsOf, hk]

/-- Witness of `generateFuncRegBody_var_stmts`: the function `A` followed by
the variable `x`. -/
theorem generateFuncRegBody_var_stmts_witness :
    sampleDeclX.Name ≠ "_" ∧ sampleDeclX.Kind = Kind_Var ∧
    ∃ fileDefs stmts,
      generateFuncRegBodyLoop (mainEnv true) XgoLinkGeneratedRegisterFunc XgoLocalFuncStub
        ([sampleDeclA] ++ sampleDeclX :: []) [] [] [] = some (fileDefs, stmts) ∧
      stmts =
        [ "__xgo_link_generated_register_func(__xgo_local_func_stub\x7b__xgo_local_pkg_name,0,A,nil,0,false,false,false,\"\",false,\"A\",\"A\",\"\",nil,nil,false,false,__xgo_reg_file_gen_0,3\x7d)",
          "__xgo_link_generated_register_func(__xgo_local_func_stub\x7b__xgo_local_pkg_name,1,nil,&x,0,false,false,false,\"\",false,\"x\",\"x\",\"\",nil,nil,false,false,__xgo_reg_file_gen_0,6\x7d)",
          "__xgo_link_generated_register_func(__xgo_local_func_stub\x7b__xgo_local_pkg_name,2,nil,&x,0,false,false,false,\"\",false,\"x\",\"*x\",\"\",nil,nil,false,false,__xgo_reg_file_gen_0,6\x7d)" ] :=
  ⟨by decide, rfl,
    (generateFuncRegBody_var_stmts (mainEnv true) XgoLinkGeneratedRegisterFunc XgoLocalFuncStub
      [sampleDeclA] [] sampleDeclX (by decide)
      (by
        intro d1 hd1 _
        simp only [List.singleton_append, List.mem_cons, List.mem_nil_iff, or_false] at hd1
        rcases hd1 with rfl | rfl <;> simp [sampleDeclA, sampleDeclX])).elim
      (fun fileDefs h => h.elim (fun stmts h2 =>
        ⟨fileDefs, stmts, h2.1, h2.2.2.1.trans (by decide)⟩))⟩

/-- C15: the body synthesized for a descriptor list defines a file reference
once for each file index of a descriptor with a name other than `_`, and for
no other index; the definitions stand before the statements; the file
reference of every statement is one of these definitions. -/
theorem generateFuncRegBody_file_defs (env : Env) (r s : String) (ds : List DeclInfo)
    (hfs : ∀ d ∈ ds, d.Name ≠ "_" → d.FileSyntax ≠ none) :
    ∃ (fileDefs stmts : List String) (idxs : List Int),
      generateFuncRegBodyLoop env r s ds [] [] [] = some (fileDefs, stmts) ∧
      generateFuncRegBody env ds r s =
        some (if stmts.length = 0 then "" else Join (fileDefs ++ stmts) "\n") ∧
      idxs.Nodup ∧
      (∀ i, i ∈ idxs ↔ ∃ d ∈ ds, d.Name ≠ "_" ∧ d.FileIndex = i) ∧
      List.Forall₂ (fun fileDef i => ∃ d ∈ ds, d.Name ≠ "_" ∧ d.FileIndex = i ∧
        ∃ fs, d.FileSyntax = some fs ∧
          fileDef = getFileRef i ++ " := " ++ env.Quote fs.RelFilename) fileDefs idxs ∧
      stmts = (ds.filter nonBlank).flatMap (regStmtsOf env r s) ∧
      (∀ d ∈ ds, d.Name ≠ "_" → d.FileIndex ∈ idxs ∧
        ∀ (kind : DeclKind) (identityName : String),
          (regFieldList env d kind identityName)[17]? = some (getFileRef d.FileIndex)) := by
  obtain ⟨fd, st, hrun⟩ := generateFuncRegBodyLoop_total env r s ds hfs [] [] []
  obtain ⟨hst, newDefs, newIdx, hfd, hnd, hmem, hF⟩ :=
    generateFuncRegBodyLoop_spec env r s ds [] [] [] fd st hrun
  have hfd1 : fd = newDefs := by simpa using hfd
  subst hfd1
  have hmem1 : ∀ i, i ∈ newIdx ↔ ∃ d ∈ ds, d.Name ≠ "_" ∧ d.FileIndex = i := by
    intro i
    rw [hmem i]
    simp
  refine ⟨fd, st, newIdx, hrun, generateFuncRegBody_of_loop env r s ds fd st hrun, hnd, hmem1,
    hF, by simpa using hst, ?_⟩
  intro d hd hn
  exact ⟨(hmem1 d.FileIndex).2 ⟨d, hd, hn, rfl⟩, fun _ _ => rfl⟩

/-- Witness of `generateFuncRegBody_file_defs`: descriptors of two files, the
second file first with a descriptor named `_`. -/
theorem generateFuncRegBody_file_defs_witness :
    generateFuncRegBodyLoop (mainEnv true) XgoLinkGeneratedRegisterFunc XgoLocalFuncStub
        [sampleDeclBlank, sampleDeclA, sampleDeclG, sampleDeclX] [] [] [] =
      some (["__xgo_reg_file_gen_0 := \"a.go\"", "__xgo_reg_file_gen_1 := \"b.go\""],
        (([sampleDeclBlank, sampleDeclA, sampleDeclG, sampleDeclX].filter nonBlank).flatMap
          (regStmtsOf (mainEnv true) XgoLinkGeneratedRegisterFunc XgoLocalFuncStub))) ∧
    ∃ (fileDefs stmts : List String) (idxs : List Int),
      generateFuncRegBodyLoop (mainEnv true) XgoLinkGeneratedRegisterFunc XgoLocalFuncStub
        [sampleDeclBlank, sampleDeclA, sampleDeclG, sampleDeclX] [] [] [] =
          some (fileDefs, stmts) ∧
      idxs.Nodup ∧ fileDefs.length = idxs.length :=
  ⟨by decide,
    (generateFuncRegBody_file_defs (mainEnv true) XgoLinkGeneratedRegisterFunc XgoLocalFuncStub
      [sampleDeclBlank, sampleDeclA, sampleDeclG, sampleDeclX]
      (by
        intro d hd _
        simp only [List.mem_cons, List.mem_nil_iff, or_false] at hd
        rcases hd with rfl | rfl | rfl | rfl <;>
          simp [sampleDeclBlank, sampleDeclA, sampleDeclG, sampleDeclX])).elim
      (fun fileDefs h => h.elim (fun stmts h2 => h2.elim (fun idxs h3 =>
        ⟨fileDefs, stmts, idxs, h3.1, h3.2.2.1, h3.2.2.2.2.1.length_eq⟩)))⟩

/-- Refutation of C16 as stated: the interface type `I` of the second sample
file gets a registration statement, with the interface field true. -/
theorem generateFuncRegBody_interface_counterexample :
    (getFuncDecls (mainEnv false) [sampleFileB] false).bind (fun ds =>
        (generateFuncRegBodyLoop (mainEnv false) XgoLinkGeneratedRegisterFunc XgoLocalFuncStub
          ds [] [] []).map (fun p => p.2)) =
      some
        [ "__xgo_link_generated_register_func(__xgo_local_func_stub\x7b__xgo_local_pkg_name,0,nil,nil,0,true,false,false,\"I\",false,\"\",\"I\",\"\",nil,nil,false,false,__xgo_reg_file_gen_0,2\x7d)",
          "__xgo_link_generated_register_func(__xgo_local_func_stub\x7b__xgo_local_pkg_name,0,B,nil,0,false,false,false,\"\",false,\"B\",\"B\",\"\",nil,nil,false,false,__xgo_reg_file_gen_0,9\x7d)" ] ∧
    (getFuncDecls (mainEnv false) [sampleFileB] false).map
        (List.map (fun d => (d.Interface, d.Name, d.RecvTypeName))) =
      some [(true, "", "I"), (false, "B", "")] := by
  decide

/-- C16, amended: an interface-marker descriptor with a name other than `_`
(the extractor leaves its name empty) and not of the value-variable kind adds
one registration statement; its interface field is true, its function
reference and its variable reference are nil and its identity name is the
name of the interface type. -/
theorem generateFuncRegBody_interface_stmt (env : Env) (r s : String) (pre post : List DeclInfo)
    (d : DeclInfo) (hname : d.Name ≠ "_") (hi : d.Interface = true) (hk : d.Kind ≠ Kind_Var)
    (hfs : ∀ d1 ∈ pre ++ d :: post, d1.Name ≠ "_" → d1.FileSyntax ≠ none) :
    ∃ fileDefs stmts,
      generateFuncRegBodyLoop env r s (pre ++ d :: post) [] [] [] = some (fileDefs, stmts) ∧
      generateFuncRegBody env (pre ++ d :: post) r s = some (Join (fileDefs ++ stmts) "\n") ∧
      stmts = (pre.filter nonBlank).flatMap (regStmtsOf env r s) ++
        [r ++ "(" ++ s ++ "\x7b" ++ Join (regFieldList env d d.Kind d.RecvTypeName) "," ++ "\x7d)"] ++
        (post.filter nonBlank).flatMap (regStmtsOf env r s) ∧
      (regFieldList env d d.Kind d.RecvTypeName)[2]? = some "nil" ∧
      (regFieldList env d d.Kind d.RecvTypeName)[3]? = some "nil" ∧
      (regFieldList env d d.Kind d.RecvTypeName)[5]? = some "true" ∧
      (regFieldList env d d.Kind d.RecvTypeName)[11]? = some (env.Quote d.RecvTypeName) := by
  obtain ⟨fileDefs, stmts, hrun, hbody, hst⟩ :=
    generateFuncRegBodyLoop_split env r s pre post d hname hfs
  have hone : regStmtsOf env r s d =
      [r ++ "(" ++ s ++ "\x7b" ++ Join (regFieldList env d d.Kind d.RecvTypeName) "," ++ "\x7d)"] := by
    simp [regStmtsOf, hk, regKind, DeclInfo.IdentityName, hi]
  rw [hone] at hst
  refine ⟨fileDefs, stmts, hrun, hbody, hst, ?_, ?_, ?_, rfl⟩
  · by_cases hf : d.Kind.IsFunc = true <;> by_cases hg : d.Generic = true <;>
      simp [regFieldList, fnRefNameOf, DeclInfo.RefName, hi, hf, hg]
  · by_cases hf : d.Kind.IsFunc = true
    · simp [regFieldList, varRefNameOf, hf]
    · simp [regFieldList, varRefNameOf, DeclInfo.RefName, hi, hf, hk]
  · simp [regFieldList, hi, FormatBool]

/-- Witness of `generateFuncRegBody_interface_stmt`: the interface type `I`
between the function `A` and the generic function `G`. -/
theorem generateFuncRegBody_interface_stmt_witness :
    sampleDeclI.Name ≠ "_" ∧ sampleDeclI.Interface = true ∧ sampleDeclI.Kind ≠ Kind_Var ∧
    ∃ fileDefs stmts,
      generateFuncRegBodyLoop (mainEnv true) XgoLinkGeneratedRegisterFunc XgoLocalFuncStub
        ([sampleDeclA] ++ sampleDeclI :: [sampleDeclG]) [] [] [] = some (fileDefs, stmts) ∧
      stmts.length = 3 ∧
      stmts[1]? = some "__xgo_link_generated_register_func(__xgo_local_func_stub\x7b__xgo_local_pkg_name,0,nil,nil,0,true,false,false,\"I\",false,\"\",\"I\",\"\",nil,nil,false,false,__xgo_reg_file_gen_1,2\x7d)" :=
  ⟨by decide, rfl, by decide,
    (generateFuncRegBody_interface_stmt (mainEnv true) XgoLinkGeneratedRegisterFunc
      XgoLocalFuncStub [sampleDeclA] [sampleDeclG] sampleDeclI (by decide) rfl (by decide)
      (by
        intro d1 hd1 _
        simp only [List.singleton_append, List.mem_cons, List.mem_nil_iff, or_false] at hd1
        rcases hd1 with rfl | rfl | rfl <;> simp [sampleDeclA, sampleDeclI, sampleDeclG])).elim
      (fun fileDefs h => h.elim (fun stmts h2 =>
        ⟨fileDefs, stmts, h2.1, by rw [h2.2.2.1]; decide, by rw [h2.2.2.1]; decide⟩))⟩

/-- C17: a function-kind descriptor with the generic flag set and a name other
than `_` adds one registration statement, whose function reference is nil and
whose generic field is true; the function reference of a function-kind
descriptor that is neither generic nor an interface marker is its reference
name, and that of a descriptor of another kind is nil. -/
theorem generateFuncRegBody_fn_ref (env : Env) (r s : String) (pre post : List DeclInfo)
    (d : DeclInfo) (hname : d.Name ≠ "_")
    (hfs : ∀ d1 ∈ pre ++ d :: post, d1.Name ≠ "_" → d1.FileSyntax ≠ none) :
    ∃ fileDefs stmts,
      generateFuncRegBodyLoop env r s (pre ++ d :: post) [] [] [] = some (fileDefs, stmts) ∧
      generateFuncRegBody env (pre ++ d :: post) r s = some (Join (fileDefs ++ stmts) "\n") ∧
      stmts = (pre.filter nonBlank).flatMap (regStmtsOf env r s) ++ regStmtsOf env r s d ++
        (post.filter nonBlank).flatMap (regStmtsOf env r s) ∧
      (d.Kind = Kind_Func → d.Generic = true →
        regStmtsOf env r s d =
          [r ++ "(" ++ s ++ "\x7b" ++
            Join (regFieldList env d Kind_Func (d.IdentityName env)) "," ++ "\x7d)"] ∧
        (regFieldList env d Kind_Func (d.IdentityName env))[2]? = some "nil" ∧
        (regFieldList env d Kind_Func (d.IdentityName env))[6]? = some "true") ∧
      (d.Kind = Kind_Func → d.Generic = false → d.Interface = false →
        d.RefName env = env.FormatFuncRefName d.RecvTypeName d.RecvPtr d.Name ∧
        ∀ (kind : DeclKind) (identityName : String),
          (regFieldList env d kind identityName)[2]? = some (d.RefName env)) ∧
      (d.Kind ≠ Kind_Func →
        ∀ (kind : DeclKind) (identityName : String),
          (regFieldList env d kind identityName)[2]? = some "nil") := by
  obtain ⟨fileDefs, stmts, hrun, hbody, hst⟩ :=
    generateFuncRegBodyLoop_split env r s pre post d hname hfs
  refine ⟨fileDefs, stmts, hrun, hbody, hst, ?_, ?_, ?_⟩
  · intro hk hg
    have hkv : d.Kind ≠ Kind_Var := by rw [hk]; decide
    have hf : d.Kind.IsFunc = true := by rw [hk]; decide
    refine ⟨?_, ?_, ?_⟩
    · have hne : ¬ (Kind_Func = Kind_Var) := by decide
      simp only [regStmtsOf, regKind, hk, hne, if_false]
    · simp [regFieldList, fnRefNameOf, hf, hg]
    · simp [regFieldList, hg, FormatBool]
  · intro hk hg hi
    have hf : d.Kind.IsFunc = true := by rw [hk]; decide
    refine ⟨?_, ?_⟩
    · simp [DeclInfo.RefName, hi, hf]
    · intro kind identityName
      simp [regFieldList, fnRefNameOf, hf, hg]
  · intro hk kind identityName
    have hf : d.Kind.IsFunc = false := by
      simp only [DeclKind.IsFunc, beq_eq_false_iff_ne, ne_eq]
      exact hk
    simp [regFieldList, fnRefNameOf, hf]

/-- Witness of `generateFuncRegBody_fn_ref`: the generic function `G` between
the function `A` and the variable `x`. -/
theorem generateFuncRegBody_fn_ref_witness :
    sampleDeclG.Name ≠ "_" ∧ sampleDeclG.Kind = Kind_Func ∧ sampleDeclG.Generic = true ∧
    ∃ fileDefs stmts,
      generateFuncRegBodyLoop (mainEnv true) XgoLinkGeneratedRegisterFunc XgoLocalFuncStub
        ([sampleDeclA] ++ sampleDeclG :: [sampleDeclX]) [] [] [] = some (fileDefs, stmts) ∧
      stmts.length = 4 ∧
      stmts[0]? = some "__xgo_link_generated_register_func(__xgo_local_func_stub\x7b__xgo_local_pkg_name,0,A,nil,0,false,false,false,\"\",false,\"A\",\"A\",\"\",nil,nil,false,false,__xgo_reg_file_gen_0,3\x7d)" ∧
      stmts[1]? = some "__xgo_link_generated_register_func(__xgo_local_func_stub\x7b__xgo_local_pkg_name,0,nil,nil,0,false,true,false,\"\",false,\"G\",\"G\",\"\",nil,nil,false,false,__xgo_reg_file_gen_1,12\x7d)" :=
  ⟨by decide, rfl, rfl,
    (generateFuncRegBody_fn_ref (mainEnv true) XgoLinkGeneratedRegisterFunc
      XgoLocalFuncStub [sampleDeclA] [sampleDeclX] sampleDeclG (by decide)
      (by
        intro d1 hd1 _
        simp only [List.singleton_append, List.mem_cons, List.mem_nil_iff, or_false] at hd1
        rcases hd1 with rfl | rfl | rfl <;> simp [sampleDeclA, sampleDeclX, sampleDeclG])).elim
      (fun fileDefs h => h.elim (fun stmts h2 =>
        ⟨fileDefs, stmts, h2.1, by rw [h2.2.2.1]; decide, by rw [h2.2.2.1]; decide,
          by rw [h2.2.2.1]; decide⟩))⟩

/-- C20: a descriptor named `_` is dropped at synthesis: the loop leaves the
file definitions and the statements as they are when it meets one, and the
loop and the text returned are those of the list without the descriptors named
`_`. -/
theorem generateFuncRegBody_drops_blank (env : Env) (r s : String) (ds : List DeclInfo) :
    generateFuncRegBody env ds r s = generateFuncRegBody env (ds.filter nonBlank) r s ∧
    generateFuncRegBodyLoop env r s ds [] [] [] =
      generateFuncRegBodyLoop env r s (ds.filter nonBlank) [] [] [] ∧
    (∀ (d : DeclInfo) (rest : List DeclInfo) (declared : List Int) (fileDefs stmts : List String),
      d.Name = "_" →
      generateFuncRegBodyLoop env r s (d :: rest) declared fileDefs stmts =
        generateFuncRegBodyLoop env r s rest declared fileDefs stmts) ∧
    (∀ (pre post : List DeclInfo) (d : DeclInfo), d.Name = "_" → ds = pre ++ d :: post →
      generateFuncRegBody env ds r s = generateFuncRegBody env (pre ++ post) r s) ∧
    (∀ d ∈ ds.filter nonBlank, d.Name ≠ "_") ∧
    (∀ d ∈ ds, d.Name ≠ "_" → d ∈ ds.filter nonBlank) := by
  have hloop := generateFuncRegBodyLoop_filter env r s ds [] [] []
  refine ⟨?_, hloop, ?_, ?_, ?_, ?_⟩
  · simp only [generateFuncRegBody, hloop]
  · intro d rest declared fileDefs stmts hb
    simp only [generateFuncRegBodyLoop, hb, if_true]
  · intro pre post d hb hds
    have hfilter : ds.filter nonBlank = (pre ++ post).filter nonBlank := by
      rw [hds]
      simp [List.filter_append, List.filter_cons, nonBlank, hb]
    simp only [generateFuncRegBody, hloop, hfilter,
      generateFuncRegBodyLoop_filter env r s (pre ++ post) [] [] []]
  · intro d hd
    have := (List.mem_filter.1 hd).2
    simpa [nonBlank] using this
  · intro d hd hn
    exact List.mem_filter.2 ⟨hd, by simpa [nonBlank] using hn⟩

/-! ## Theorems: identity names and extraction of functions -/

/-- C18: with the reference name of a method as the spec writes it, the
identity name of a method of type `T` named `M` with a pointer receiver
differs from that of the method with a value receiver; the first is `(*T).M`,
the second `(T).M`. -/
theorem IdentityName_receiver_ptr_ne (env : Env)
    (henv : env.FormatFuncRefName = FormatFuncRefNameSpec) (T M : String) (hT : T ≠ "")
    (d : DeclInfo) (hk : d.Kind = Kind_Func) (hi : d.Interface = false) :
    DeclInfo.IdentityName env { d with RecvTypeName := T, RecvPtr := true, Name := M } ≠
      DeclInfo.IdentityName env { d with RecvTypeName := T, RecvPtr := false, Name := M } ∧
    DeclInfo.IdentityName env { d with RecvTypeName := T, RecvPtr := true, Name := M } =
      "(*" ++ T ++ ")." ++ M ∧
    DeclInfo.IdentityName env { d with RecvTypeName := T, RecvPtr := false, Name := M } =
      "(" ++ T ++ ")." ++ M := by
  have hf : d.Kind.IsFunc = true := by rw [hk]; decide
  have hp : DeclInfo.IdentityName env { d with RecvTypeName := T, RecvPtr := true, Name := M } =
      "(*" ++ T ++ ")." ++ M := by
    simp [DeclInfo.IdentityName, hi, hf, henv, FormatFuncRefNameSpec, hT]
  have hv : DeclInfo.IdentityName env { d with RecvTypeName := T, RecvPtr := false, Name := M } =
      "(" ++ T ++ ")." ++ M := by
    simp [DeclInfo.IdentityName, hi, hf, henv, FormatFuncRefNameSpec, hT]
  refine ⟨?_, hp, hv⟩
  rw [hp, hv]
  intro heq
  have hlen := congrArg len heq
  simp only [len, String.data_append, List.length_append, List.length_cons,
    List.length_nil] at hlen
  omega

/-- Witness of `IdentityName_receiver_ptr_ne`: the methods `M` of the type
`T`. -/
theorem IdentityName_receiver_ptr_ne_witness :
    ("T" : String) ≠ "" ∧
    DeclInfo.IdentityName { mainEnv false with FormatFuncRefName := FormatFuncRefNameSpec }
        { RecvTypeName := "T", RecvPtr := true, Name := "M" } = "(*T).M" ∧
    DeclInfo.IdentityName { mainEnv false with FormatFuncRefName := FormatFuncRefNameSpec }
        { RecvTypeName := "T", RecvPtr := false, Name := "M" } = "(T).M" ∧
    DeclInfo.IdentityName { mainEnv false with FormatFuncRefName := FormatFuncRefNameSpec }
        { ({} : DeclInfo) with RecvTypeName := "T", RecvPtr := true, Name := "M" } ≠
      DeclInfo.IdentityName { mainEnv false with FormatFuncRefName := FormatFuncRefNameSpec }
        { ({} : DeclInfo) with RecvTypeName := "T", RecvPtr := false, Name := "M" } :=
  ⟨by decide, by decide, by decide,
    (IdentityName_receiver_ptr_ne
      { mainEnv false with FormatFuncRefName := FormatFuncRefNameSpec } rfl "T" "M" (by decide)
      {} rfl rfl).1⟩

/-- Refutation of C19 as stated: for the method `func (r **T) M()` the
extractor panics and yields no descriptor. -/
theorem extractFuncDecls_counterexample :
    sampleMethodPtrPtr.Name ≠ "init" ∧
    getFuncDeclInfo 0 sampleFileA "a.go" sampleMethodPtrPtr = none ∧
    extractFuncDecls (mainEnv false) 0 sampleFileA "a.go" (Decl.FuncDecl sampleMethodPtrPtr)
      false = none :=
  ⟨by decide, rfl, rfl⟩

/-- C19, amended: a function or method declaration named `init` yields no
descriptor; a declaration with another name, without receiver or with a
receiver type that is a name or a name with an index, alone or under one `*`,
yields one function-kind descriptor with that name; with another receiver
type the extractor panics. -/
theorem extractFuncDecls_func (env : Env) (fileIndex : Nat) (f : File) (file : String)
    (fn : FuncDecl) (varTrap : Bool) :
    (fn.Name = "init" →
      getFuncDeclInfo fileIndex f file fn = some none ∧
      extractFuncDecls env fileIndex f file (Decl.FuncDecl fn) varTrap = some []) ∧
    (fn.Name ≠ "init" → recvShapeOk fn = true →
      ∃ d, getFuncDeclInfo fileIndex f file fn = some (some d) ∧
        extractFuncDecls env fileIndex f file (Decl.FuncDecl fn) varTrap = some [d] ∧
        d.Kind = Kind_Func ∧ d.Name = fn.Name) ∧
    (fn.Name ≠ "init" → recvShapeOk fn = false →
      getFuncDeclInfo fileIndex f file fn = none ∧
      extractFuncDecls env fileIndex f file (Decl.FuncDecl fn) varTrap = none) := by
  refine ⟨?_, ?_, ?_⟩
  · intro hinit
    have h1 : getFuncDeclInfo fileIndex f file fn = some none := by
      simp [getFuncDeclInfo, hinit]
    exact ⟨h1, by simp only [extractFuncDecls, h1]⟩
  · intro hne hshape
    have key : ∃ d, getFuncDeclInfo fileIndex f file fn = some (some d) ∧
        d.Kind = Kind_Func ∧ d.Name = fn.Name := by
      simp only [getFuncDeclInfo, hne, if_false]
      cases hrecv : fn.Recv with
      | none =>
        simp only [fillMissingArgNames, hrecv, Option.map_none']
        exact ⟨_, rfl, rfl, rfl⟩
      | some recv =>
        simp only [recvShapeOk, hrecv] at hshape
        simp only [fillMissingArgNames, hrecv, Option.map_some']
        have hty : (fillName recv "__xgo_recv_auto_filled").Type_ = recv.Type_ := by
          unfold fillName
          split
          · rfl
          · split <;> rfl
        rw [hty]
        cases hT : recv.Type_ with
        | Name v => exact ⟨_, rfl, rfl, rfl⟩
        | Operation op X Y =>
          rw [hT] at hshape
          cases op <;> first
            | (simp only [isRecvBase] at hshape; cases hshape)
            | (cases X with
              | Name v => exact ⟨_, rfl, rfl, rfl⟩
              | IndexExpr X1 I1 =>
                cases X1 with
                | Name v => exact ⟨_, rfl, rfl, rfl⟩
                | _ => simp [isRecvBase] at hshape
              | _ => simp [isRecvBase] at hshape)
        | IndexExpr X I =>
          rw [hT] at hshape
          cases X with
          | Name v => exact ⟨_, rfl, rfl, rfl⟩
          | _ => simp [isRecvBase] at hshape
        | BasicLit v => rw [hT] at hshape; simp [isRecvBase] at hshape
        | InterfaceType => rw [hT] at hshape; simp [isRecvBase] at hshape
        | Other => rw [hT] at hshape; simp [isRecvBase] at hshape
    obtain ⟨d, hd, hk, hn⟩ := key
    exact ⟨d, hd, by simp only [extractFuncDecls, hd], hk, hn⟩
  · intro hne hshape
    have key : getFuncDeclInfo fileIndex f file fn = none := by
      simp only [getFuncDeclInfo, hne, if_false]
      cases hrecv : fn.Recv with
      | none => simp [recvShapeOk, hrecv] at hshape
      | some recv =>
        simp only [recvShapeOk, hrecv] at hshape
        simp only [fillMissingArgNames, hrecv, Option.map_some']
        have hty : (fillName recv "__xgo_recv_auto_filled").Type_ = recv.Type_ := by
          unfold fillName
          split
          · rfl
          · split <;> rfl
        rw [hty]
        cases hT : recv.Type_ with
        | Name v => rw [hT] at hshape; simp [isRecvBase] at hshape
        | Operation op X Y =>
          rw [hT] at hshape
          cases op <;> first
            | rfl
            | (cases X with
              | Name v => simp [isRecvBase] at hshape
              | IndexExpr X1 I1 =>
                cases X1 with
                | Name v => simp [isRecvBase] at hshape
                | _ => rfl
              | _ => rfl)
        | IndexExpr X I =>
          rw [hT] at hshape
          cases X with
          | Name v => simp [isRecvBase] at hshape
          | _ => rfl
        | BasicLit v => rfl
        | InterfaceType => rfl
        | Other => rfl
    exact ⟨key, by simp only [extractFuncDecls, key]⟩

/-- Witness of `extractFuncDecls_func`: the method `func (r *T) M(a int, _ string)`. -/
theorem extractFuncDecls_func_witness :
    sampleMethodPtr.Name ≠ "init" ∧ recvShapeOk sampleMethodPtr = true ∧
    (getFuncDeclInfo 0 sampleFileA "a.go" sampleMethodPtr).map
        (Option.map (fun d => (d.Name, d.RecvTypeName, d.RecvPtr, d.ArgNames))) =
      some (some ("M", "T", true, ["a", "__xgo_arg_auto_filled_1_blank"])) ∧
    ∃ d, getFuncDeclInfo 0 sampleFileA "a.go" sampleMethodPtr = some (some d) ∧
      extractFuncDecls (mainEnv false) 0 sampleFileA "a.go" (Decl.FuncDecl sampleMethodPtr)
        false = some [d] ∧
      d.Kind = Kind_Func ∧ d.Name = sampleMethodPtr.Name :=
  ⟨by decide, rfl, by decide,
    (extractFuncDecls_func (mainEnv false) 0 sampleFileA "a.go" sampleMethodPtr false).2.1
      (by decide) rfl⟩

/-! ## Theorems: extraction without variable trapping -/

/-- With variable trapping disabled every descriptor `getFuncDeclInfo` returns
is of the function kind and not marked. -/
theorem getFuncDeclInfo_kind (i : Nat) (f : File) (file : String) (fn : FuncDecl)
    (d : DeclInfo) (h : getFuncDeclInfo i f file fn = some (some d)) :
    d.Kind = Kind_Func ∧ d.FollowingTrapConst = false := by
  simp only [getFuncDeclInfo] at h
  split at h
  · cases h
  · split at h
    · simp only [Option.some.injEq] at h
      subst h
      exact ⟨rfl, rfl⟩
    · split at h
      · simp only [Option.some.injEq] at h
        subst h
        exact ⟨rfl, rfl⟩
      · cases h

/-- With variable trapping disabled every descriptor `extractFuncDecls`
returns is of the function kind and not marked. -/
theorem extractFuncDecls_false_kind (env : Env) (i : Nat) (f : File) (file : String)
    (decl : Decl) (ds : List DeclInfo)
    (h : extractFuncDecls env i f file decl false = some ds) :
    ∀ d ∈ ds, d.Kind = Kind_Func ∧ d.FollowingTrapConst = false := by
  intro d hd
  cases decl with
  | FuncDecl fn =>
    simp only [extractFuncDecls] at h
    split at h
    · cases h
    · simp only [Option.some.injEq] at h
      subst h
      cases hd
    · rename_i info hinfo
      simp only [Option.some.injEq] at h
      subst h
      simp only [List.mem_singleton] at hd
      subst hd
      exact getFuncDeclInfo_kind i f file fn _ hinfo
  | VarDecl v =>
    simp only [extractFuncDecls, Bool.not_false, if_true, Option.some.injEq] at h
    subst h
    cases hd
  | ConstDecl c =>
    simp only [extractFuncDecls, Bool.not_false, if_true, Option.some.injEq] at h
    subst h
    cases hd
  | TypeDecl t =>
    simp only [extractFuncDecls] at h
    split at h
    · simp only [Option.some.injEq] at h
      subst h
      cases hd
    · split at h
      · simp only [Option.some.injEq] at h
        subst h
        cases hd
      · split at h
        · simp only [Option.some.injEq] at h
          subst h
          simp only [List.mem_singleton] at hd
          subst hd
          exact ⟨rfl, rfl⟩
        · simp only [Option.some.injEq] at h
          subst h
          cases hd
  | ImportDecl =>
    simp only [extractFuncDecls, Option.some.injEq] at h
    subst h
    cases hd

/-- With variable trapping disabled every descriptor extracted from the
declarations of a file is of the function kind and not marked. -/
theorem extractDeclList_false_kind (env : Env) (i : Nat) (f : File) (decls : List Decl) :
    ∀ ds, extractDeclList env i f false decls = some ds →
      ∀ d ∈ ds, d.Kind = Kind_Func ∧ d.FollowingTrapConst = false := by
  induction decls with
  | nil =>
    intro ds h d hd
    simp only [extractDeclList, Option.some.injEq] at h
    subst h
    cases hd
  | cons decl rest ih =>
    intro ds h d hd
    simp only [extractDeclList] at h
    split at h
    · cases h
    · rename_i fnDecls hfn
      split at h
      · cases h
      · rename_i more hmore
        simp only [Option.some.injEq] at h
        subst h
        rcases List.mem_append.1 hd with hd | hd
        · exact extractFuncDecls_false_kind env i f f.RelFilename decl fnDecls hfn d hd
        · exact ih more hmore d hd

/-- With variable trapping disabled every extracted descriptor is of the
function kind and not marked. -/
theorem extractFiles_false_kind (env : Env) (files : List File) :
    ∀ (i : Nat) (ext : List DeclInfo), extractFiles env false i files = some ext →
      ∀ d ∈ ext, d.Kind = Kind_Func ∧ d.FollowingTrapConst = false := by
  induction files with
  | nil =>
    intro i ext h d hd
    simp only [extractFiles, Option.some.injEq] at h
    subst h
    cases hd
  | cons f rest ih =>
    intro i ext h d hd
    simp only [extractFiles] at h
    split at h
    · cases h
    · rename_i ds hds
      split at h
      · cases h
      · rename_i more hmore
        simp only [Option.some.injEq] at h
        subst h
        rcases List.mem_append.1 hd with hd | hd
        · exact extractDeclList_false_kind env i f f.DeclList ds hds d hd
        · exact ih (i + 1) more hmore d hd

/-- Reading the pointers `s, s + 1, ...` of the objects after the first `s`
gives these objects. -/
theorem derefAll_range' (pre l : List DeclInfo) :
    derefAll (pre ++ l) (List.range' pre.length l.length) = some l := by
  induction l generalizing pre with
  | nil => simp [derefAll]
  | cons a t ih =>
    have hget : (pre ++ a :: t)[pre.length]? = some a :=
      getElem?_append_cons_length pre a t
    have hrec := ih (pre ++ [a])
    simp only [List.append_assoc, List.singleton_append, List.length_append,
      List.length_singleton] at hrec
    simp only [List.length_cons, List.range'_succ, derefAll, hget, hrec]

/-- When no position of the extracted sequence is paired, `getFuncDecls`
returns the extracted sequence as it is. -/
theorem getFuncDecls_of_unpaired (env : Env) (files : List File) (varTrap : Bool)
    (ext : List DeclInfo) (hext : extractFiles env varTrap 0 files = some ext)
    (hno : ∀ k, pairedAt env.EqualFold ext k = false) :
    getFuncDecls env files varTrap = some ext := by
  obtain ⟨objs, hrun, hobj⟩ := trapPairPass_eq env.EqualFold ext
  have hobjs : objs = ext := by
    apply List.ext_getElem?
    intro k
    rw [hobj k, hno k]
    cases ext[k]? <;> simp [markIf]
  have hkept : keptFrom env.EqualFold ext 0 = List.range' 0 ext.length := by
    simp [keptFrom, hno]
  have hderef : derefAll ext (List.range' 0 ext.length) = some ext := derefAll_range' [] ext
  simp only [getFuncDecls, hext, hrun, hobjs, hkept, hderef]

/-- With variable trapping disabled `getFuncDecls` returns the extracted
sequence as it is. -/
theorem getFuncDecls_false_eq (env : Env) (files : List File) (res : List DeclInfo)
    (h : getFuncDecls env files false = some res) :
    extractFiles env false 0 files = some res := by
  obtain ⟨ext, hext, -⟩ := getFuncDecls_eq env files false res h
  have hkind := extractFiles_false_kind env files 0 ext hext
  have hno : ∀ k, pairedAt env.EqualFold ext k = false := by
    intro k
    by_contra hne
    have hk : pairedAt env.EqualFold ext k = true := by simpa using hne
    obtain ⟨fn, hfn, hv⟩ := pairedAt_kind_var env.EqualFold ext k hk
    have := (hkind fn (List.getElem?_mem hfn)).1
    rw [this] at hv
    exact absurd hv (by decide)
  have := getFuncDecls_of_unpaired env files false ext hext hno
  rw [h] at this
  rw [hext]
  exact this.symm

/-- An element on the right of two lists related element by element has its
partner on the left. -/
theorem forall₂_mem_right {α β : Type} {P : α → β → Prop} {l₁ : List α} {l₂ : List β}
    (h : List.Forall₂ P l₁ l₂) {b : β} (hb : b ∈ l₂) : ∃ a ∈ l₁, P a b := by
  induction h with
  | nil => cases hb
  | cons hab _ ih =>
    rcases List.mem_cons.1 hb with rfl | hb
    · exact ⟨_, List.mem_cons_self _ _, hab⟩
    · obtain ⟨a, ha, hP⟩ := ih hb
      exact ⟨a, List.mem_cons_of_mem _ ha, hP⟩

/-- C12: with variable trapping disabled `getFuncDecls` returns no
variable-kind and no constant-kind descriptor, every descriptor it returns is
of the function kind, and a variable or constant declaration contributes no
descriptor. -/
theorem getFuncDecls_no_var_trap (env : Env) (files : List File) (res : List DeclInfo)
    (h : getFuncDecls env files false = some res) :
    (∀ d ∈ res, d.Kind ≠ Kind_Var ∧ d.Kind ≠ Kind_VarPtr ∧ d.Kind ≠ Kind_Const ∧
      d.Kind = Kind_Func) ∧
    (∀ (i : Nat) (f : File) (file : String) (v : VarDecl),
      extractFuncDecls env i f file (Decl.VarDecl v) false = some []) ∧
    (∀ (i : Nat) (f : File) (file : String) (c : ConstDecl),
      extractFuncDecls env i f file (Decl.ConstDecl c) false = some []) := by
  refine ⟨?_, ?_, ?_⟩
  · intro d hd
    have hext := getFuncDecls_false_eq env files res h
    have hk := (extractFiles_false_kind env files 0 res hext d hd).1
    rw [hk]
    exact ⟨by decide, by decide, by decide, rfl⟩
  · intro i f file v
    simp [extractFuncDecls]
  · intro i f file c
    simp [extractFuncDecls]

/-- Witness of `getFuncDecls_no_var_trap`: the sample file with a function, a
marker constant and a variable. -/
theorem getFuncDecls_no_var_trap_witness :
    (getFuncDecls (mainEnv false) [sampleFileA] false).map
        (List.map (fun d => (d.Name, d.Kind))) = some [("A", Kind_Func)] ∧
    ∃ res, getFuncDecls (mainEnv false) [sampleFileA] false = some res ∧
      ∀ d ∈ res, d.Kind ≠ Kind_Var ∧ d.Kind ≠ Kind_VarPtr ∧ d.Kind ≠ Kind_Const ∧
        d.Kind = Kind_Func :=
  ⟨by decide, _, rfl, (getFuncDecls_no_var_trap (mainEnv false) [sampleFileA] _ rfl).1⟩

/-- Refutation of C11 as stated: with variable trapping disabled the marker
`__xgo_trap_X` followed by the variable `x` yields no descriptor for `x`; the
function `A` is the only descriptor. -/
theorem getFuncDecls_trap_pair_counterexample :
    (getFuncDecls (mainEnv false) [sampleFileA] false).map
        (List.map (fun d => (d.Name, d.Kind, d.FollowingTrapConst))) =
      some [("A", Kind_Func, false)] ∧
    (getFuncDecls (mainEnv true) [sampleFileA] true).map
        (List.map (fun d => (d.Name, d.Kind, d.FollowingTrapConst))) =
      some [("A", Kind_Func, false), ("x", Kind_Var, true)] := by
  decide

/-- C11, amended: with variable trapping disabled `getFuncDecls` returns
function-kind descriptors only, none of them marked, so a marker constant
followed by a matching variable has no effect; with variable trapping
enabled, when the extracted sequence holds a marker constant right before a
value-kind variable whose name equals the suffix of the marker ignoring case,
`getFuncDecls` returns the descriptor of that variable with
`FollowingTrapConst` set. -/
theorem getFuncDecls_trap_pair (env : Env) (files : List File) :
    (∀ res, getFuncDecls env files false = some res →
      ∀ d ∈ res, d.Kind = Kind_Func ∧ d.FollowingTrapConst = false) ∧
    (∀ (ext : List DeclInfo) (k : Nat) (s : String) (c v : DeclInfo),
      extractFiles env true 0 files = some ext →
      ext[k]? = some c → ext[k + 1]? = some v →
      c.Kind = Kind_Const → c.Name = "__xgo_trap_" ++ s →
      v.Kind = Kind_Var → env.EqualFold v.Name s = true →
      ∃ res, getFuncDecls env files true = some res ∧
        { v with FollowingTrapConst := true } ∈ res) := by
  refine ⟨?_, ?_⟩
  · intro res h d hd
    exact extractFiles_false_kind env files 0 res (getFuncDecls_false_eq env files res h) d hd
  · intro ext k s c v hext hc hv hck hcn hvk hvn
    obtain ⟨res, hres⟩ := getFuncDecls_total env files true ext hext
    obtain ⟨ext1, hext1, hF⟩ := getFuncDecls_eq env files true res hres
    rw [hext] at hext1
    simp only [Option.some.injEq] at hext1
    subst hext1
    have hpair : pairedAt env.EqualFold ext (k + 1) = true := by
      have hpre : HasPrefix c.Name xgoTrapPrefix = true := by
        rw [hcn]
        simp [HasPrefix, xgoTrapPrefix]
      have hsub : String.mk (c.Name.data.drop (len xgoTrapPrefix)) = s := by
        rw [hcn]
        simp [len, xgoTrapPrefix]
      simp [pairedAt, hc, hv, hck, hvk, hpre, hsub, hvn]
    have hnext : pairedAt env.EqualFold ext (k + 2) = false := by
      by_contra hne
      have ht : pairedAt env.EqualFold ext (k + 1 + 1) = true := by simpa using hne
      obtain ⟨last, hlast, hconst⟩ := pairedAt_kind_const env.EqualFold ext (k + 1) ht
      rw [hv] at hlast
      cases hlast
      rw [hvk] at hconst
      exact absurd hconst (by decide)
    have hlt : k + 1 < ext.length := (List.getElem?_eq_some_iff.1 hv).1
    have hmem : k + 1 ∈ keptFrom env.EqualFold ext 0 :=
      (mem_keptFrom_zero env.EqualFold ext (k + 1)).2 ⟨hlt, hnext⟩
    obtain ⟨d, hd, hdk⟩ := forall₂_mem_right hF hmem
    refine ⟨res, hres, ?_⟩
    rw [hv, hpair] at hdk
    simp only [Option.map_some', markIf, if_true, Option.some.injEq] at hdk
    rw [hdk]
    exact hd

/-- Witness of `getFuncDecls_trap_pair`: the sample file with a function, a
marker constant and a variable, with variable trapping enabled. -/
theorem getFuncDecls_trap_pair_witness :
    ∃ (ext : List DeclInfo) (c v : DeclInfo),
      extractFiles (mainEnv true) true 0 [sampleFileA] = some ext ∧
      ext[1]? = some c ∧ ext[1 + 1]? = some v ∧
      c.Kind = Kind_Const ∧ c.Name = "__xgo_trap_" ++ "X" ∧
      v.Kind = Kind_Var ∧ (mainEnv true).EqualFold v.Name "X" = true ∧
      ∃ res, getFuncDecls (mainEnv true) [sampleFileA] true = some res ∧
        { v with FollowingTrapConst := true } ∈ res :=
  ⟨_, _, _, rfl, rfl, rfl, rfl, by decide, rfl, by decide,
    (getFuncDecls_trap_pair (mainEnv true) [sampleFileA]).2 _ 1 "X" _ _ rfl rfl rfl rfl
      (by decide) rfl (by decide)⟩

/-! ## Theorems: the size of a registration unit -/

/-- A descriptor adds two statements when it is a value-kind variable and one
otherwise. -/
theorem regStmtsOf_length (env : Env) (r s : String) (d : DeclInfo) :
    (regStmtsOf env r s d).length = if d.Kind = Kind_Var then 2 else 1 := by
  unfold regStmtsOf
  by_cases hk : d.Kind = Kind_Var <;> simp [hk]

/-- The number of statements of a list of descriptors: one for each, and one
more for each value-kind variable. -/
theorem flatMap_regStmtsOf_length (env : Env) (r s : String) (l : List DeclInfo) :
    (l.flatMap (regStmtsOf env r s)).length =
        l.length + (l.filter (fun d => decide (d.Kind = Kind_Var))).length ∧
    (l.flatMap (regStmtsOf env r s)).length ≤ 2 * l.length ∧
    ((∀ d ∈ l, d.Kind ≠ Kind_Var) → (l.flatMap (regStmtsOf env r s)).length = l.length) := by
  induction l with
  | nil => simp
  | cons d rest ih =>
    obtain ⟨h1, h2, h3⟩ := ih
    have hd := regStmtsOf_length env r s d
    refine ⟨?_, ?_, ?_⟩
    · rw [List.flatMap_cons, List.length_append, hd, h1, List.filter_cons]
      by_cases hk : d.Kind = Kind_Var
      · simp only [hk, if_true, decide_True, List.length_cons]
        omega
      · simp only [hk, if_false, decide_False, List.length_cons, Bool.false_eq_true]
        omega
    · rw [List.flatMap_cons, List.length_append, hd, List.length_cons]
      by_cases hk : d.Kind = Kind_Var
      · simp only [hk, if_true]
        omega
      · simp only [hk, if_false]
        omega
    · intro hall
      have hk : d.Kind ≠ Kind_Var := hall d (List.mem_cons_self _ _)
      rw [List.flatMap_cons, List.length_append, hd,
        h3 (fun d1 hd1 => hall d1 (List.mem_cons_of_mem _ hd1)), List.length_cons]
      simp only [hk, if_false]
      omega

/-- No batch returned by `splitBatch` for a positive batch size is longer than
the batch size. -/
theorem splitBatch_le {α : Type} (m : Nat) (hm : 0 < m) (L : List α) (bs : List (List α))
    (h : splitBatch L (m : Int) = some bs) : ∀ b ∈ bs, b.length ≤ m := by
  obtain ⟨full, rest, heq, hall, -, hrest, -⟩ := splitBatch_eq m hm L
  rw [h] at heq
  simp only [Option.some.injEq] at heq
  subst heq
  intro b hb
  rcases List.mem_append.1 hb with hb | hb
  · exact (hall b hb).le
  · by_cases h0 : rest.length = 0
    · simp [h0] at hb
    · simp only [h0, if_false, List.mem_singleton] at hb
      subst hb
      rw [hrest]
      exact (Nat.mod_lt _ hm).le

/-- A list that is not empty and shorter than the batch size is its own single
batch. -/
theorem splitBatch_single {α : Type} (m : Nat) (L : List α) (h0 : 0 < L.length)
    (hlt : L.length < m) : splitBatch L (m : Int) = some [L] := by
  obtain ⟨full, rest, heq, -, hcount, hrest, hcat⟩ := splitBatch_eq m (by omega) L
  have hfull : full = [] := by
    apply List.length_eq_zero.1
    rw [hcount]
    exact Nat.div_eq_of_lt hlt
  subst hfull
  have hr : rest = L := by simpa using hcat
  subst hr
  have hne : ¬ rest.length = 0 := by omega
  rw [heq]
  simp [hne]

/-- Every file the loop over the batches adds carries the code synthesized for
one of the batches. -/
theorem registerBatches_units (env : Env) (pkgName : String) (total : Nat)
    (bs : List (List DeclInfo)) :
    ∀ (i : Nat) (files : List AddedFile),
      registerBatches env pkgName total i bs = some files →
      ∀ a ∈ files, ∃ b ∈ bs, ∃ fileDefs stmts,
        generateFuncRegBodyLoop env XgoLinkGeneratedRegisterFunc XgoLocalFuncStub b [] [] [] =
          some (fileDefs, stmts) ∧
        a.code = generateRegFileCode pkgName "init"
          (if stmts.length = 0 then "" else Join (fileDefs ++ stmts) "\n") := by
  induction bs with
  | nil =>
    intro i files h a ha
    simp only [registerBatches, Option.some.injEq] at h
    subst h
    cases ha
  | cons b rest ih =>
    intro i files h a ha
    by_cases hb : b.length = 0
    · simp only [registerBatches, hb, if_true] at h
      obtain ⟨b1, hb1, hrest⟩ := ih (i + 1) files h a ha
      exact ⟨b1, List.mem_cons_of_mem _ hb1, hrest⟩
    · simp only [registerBatches, hb, if_false] at h
      split at h
      · cases h
      · rename_i body hbody
        split at h
        · cases h
        · rename_i more hmore
          simp only [Option.some.injEq] at h
          subst h
          rcases List.mem_cons.1 ha with rfl | ha
          · refine ⟨b, List.mem_cons_self _ _, ?_⟩
            cases hloop : generateFuncRegBodyLoop env XgoLinkGeneratedRegisterFunc
                XgoLocalFuncStub b [] [] [] with
            | none =>
              simp only [generateFuncRegBody, hloop] at hbody
              cases hbody
            | some p =>
              obtain ⟨fileDefs, stmts⟩ := p
              refine ⟨fileDefs, stmts, rfl, ?_⟩
              rw [generateFuncRegBody_of_loop env _ _ b fileDefs stmts hloop] at hbody
              simp only [Option.some.injEq] at hbody
              rw [← hbody]
          · obtain ⟨b1, hb1, hrest⟩ := ih (i + 1) more hmore a ha
            exact ⟨b1, List.mem_cons_of_mem _ hb1, hrest⟩

/-- C14, amended: every registration unit `registerFuncs` synthesizes is
generated from a batch of at most 1000 descriptors; it holds one statement for
each descriptor of the batch with a name other than `_` and one more for each
value-kind variable among them, so at most 2000 statements, and at most 1000
when the batch holds no value-kind variable. -/
theorem registerFuncs_unit_sizes (env : Env) (g : Globals) (fileList : List File)
    (g1 : Globals) (added : List AddedFile)
    (h : registerFuncs env g fileList = some (g1, added)) :
    ∀ a ∈ added, isRegisterUnit a = true →
      ∃ (batch : List DeclInfo) (fileDefs stmts : List String) (pkgName : String),
        batch.length ≤ 1000 ∧
        generateFuncRegBodyLoop env XgoLinkGeneratedRegisterFunc XgoLocalFuncStub batch
          [] [] [] = some (fileDefs, stmts) ∧
        a.code = generateRegFileCode pkgName "init"
          (if stmts.length = 0 then "" else Join (fileDefs ++ stmts) "\n") ∧
        stmts.length = (batch.filter nonBlank).length +
          ((batch.filter nonBlank).filter (fun d => decide (d.Kind = Kind_Var))).length ∧
        stmts.length ≤ 2 * 1000 ∧
        ((∀ d ∈ batch, d.Kind ≠ Kind_Var) → stmts.length ≤ 1000) := by
  intro a ha hunit
  simp only [registerFuncs] at h
  split at h
  · cases h
  · simp only [Option.some.injEq, Prod.mk.injEq] at h
    obtain ⟨_, rfl⟩ := h
    cases ha
  · split at h
    · cases h
    · rename_i ds hds
      split at h
      · simp only [Option.some.injEq, Prod.mk.injEq] at h
        obtain ⟨_, rfl⟩ := h
        cases ha
      · cases hsplit : splitBatch (filterFuncDecls env ds env.pkgPath) 1000 with
        | none =>
          rw [hsplit] at h
          cases h
        | some bs =>
          rw [hsplit] at h
          simp only at h
          split at h
          · cases h
          · rename_i files hfiles
            simp only [Option.some.injEq, Prod.mk.injEq] at h
            obtain ⟨_, rfl⟩ := h
            have hafiles : a ∈ files := by
              rcases List.mem_cons.1 ha with rfl | ha
              · have hno : HasPrefix "__xgo_autogen_register_func_helper.go"
                    "__xgo_autogen_register_func_info" = false := by decide
                simp [isRegisterUnit, hno] at hunit
              · exact ha
            obtain ⟨b, hb, fileDefs, stmts, hloop, hcode⟩ :=
              registerBatches_units env _ _ bs 0 files hfiles a hafiles
            have hble : b.length ≤ 1000 :=
              splitBatch_le 1000 (by decide) _ bs hsplit b hb
            obtain ⟨hst, -⟩ := generateFuncRegBodyLoop_spec env _ _ b [] [] [] fileDefs stmts hloop
            have hst1 : stmts = (b.filter nonBlank).flatMap
                (regStmtsOf env XgoLinkGeneratedRegisterFunc XgoLocalFuncStub) := by
              simpa using hst
            obtain ⟨hcount, hle2, hnovar⟩ := flatMap_regStmtsOf_length env
              XgoLinkGeneratedRegisterFunc XgoLocalFuncStub (b.filter nonBlank)
            have hfl : (b.filter nonBlank).length ≤ b.length := List.length_filter_le _ _
            refine ⟨b, fileDefs, stmts, _, hble, hloop, hcode, ?_, ?_, ?_⟩
            · rw [hst1]
              exact hcount
            · rw [hst1]
              omega
            · intro hall
              rw [hst1, hnovar (fun d hd => hall d (List.mem_filter.1 hd).1)]
              omega

/-- Witness of `registerFuncs_unit_sizes`: the module `main` with the sample
file that holds a function, a marker constant and a variable. -/
theorem registerFuncs_unit_sizes_witness :
    ∃ g1 helper unit,
      registerFuncs (mainEnv true) {} [sampleFileA] = some (g1, [helper, unit]) ∧
      isRegisterUnit unit = true ∧
      ∃ (batch : List DeclInfo) (fileDefs stmts : List String) (pkgName : String),
        batch.length ≤ 1000 ∧
        generateFuncRegBodyLoop (mainEnv true) XgoLinkGeneratedRegisterFunc XgoLocalFuncStub
          batch [] [] [] = some (fileDefs, stmts) ∧
        unit.code = generateRegFileCode pkgName "init"
          (if stmts.length = 0 then "" else Join (fileDefs ++ stmts) "\n") ∧
        stmts.length = (batch.filter nonBlank).length +
          ((batch.filter nonBlank).filter (fun d => decide (d.Kind = Kind_Var))).length ∧
        stmts.length ≤ 2 * 1000 ∧
        ((∀ d ∈ batch, d.Kind ≠ Kind_Var) → stmts.length ≤ 1000) :=
  ⟨_, _, _, rfl, by decide,
    registerFuncs_unit_sizes (mainEnv true) {} [sampleFileA] _ _ rfl _
      (List.mem_cons_of_mem _ (List.mem_cons_self _ _)) (by decide)⟩

/-- The descriptors of `manyVarsFile`: 501 value-kind variables whose names
start with `v`, each pointing to its file. -/
theorem manyVarsDecls_props :
    manyVarsDecls.length = 501 ∧
    ∀ d ∈ manyVarsDecls, d.Kind = Kind_Var ∧ d.RecvTypeName = "" ∧
      d.FileSyntax = some manyVarsFile ∧ ∃ t : String, d.Name = "v" ++ t := by
  refine ⟨by simp [manyVarsDecls, manyVarsNames], ?_⟩
  intro d hd
  simp only [manyVarsDecls, manyVarsNames, List.map_map, List.mem_map, List.mem_range,
    Function.comp] at hd
  obtain ⟨i, -, rfl⟩ := hd
  exact ⟨rfl, rfl, rfl, _, rfl⟩

/-- A name that starts with `v` is neither `_` nor the name of the registration
link function. -/
theorem v_name_ne (t : String) :
    "v" ++ t ≠ "_" ∧ "v" ++ t ≠ XgoLinkGeneratedRegisterFunc := by
  constructor
  · intro h
    have := congrArg String.data h
    simp [String.data_append] at this
  · intro h
    have := congrArg String.data h
    simp [String.data_append, XgoLinkGeneratedRegisterFunc] at this

/-- What `registerFuncs` does for an eligible module whose descriptors pass
the filter unchanged and fit in one batch: it records them and adds the helper
file and one registration unit. -/
theorem registerFuncs_single_batch (env : Env) (g : Globals) (f : File) (rest : List File)
    (ds : List DeclInfo) (fileDefs stmts : List String)
    (hskip : SkipPackageTrap env.stdWhitelist env.isSkippableSpecialPkg env.Std env.pkgPath =
      some false)
    (hget : getFuncDecls env (f :: rest) env.allowVarTrap = some ds)
    (hlink : ds.any (fun funcDecl => decide (funcDecl.RecvTypeName = "") &&
      decide (funcDecl.Name = XgoLinkGeneratedRegisterFunc)) = false)
    (hfilter : filterFuncDecls env ds env.pkgPath = ds)
    (hsplit : splitBatch ds 1000 = some [ds]) (hne : ds.length ≠ 0)
    (hloop : generateFuncRegBodyLoop env XgoLinkGeneratedRegisterFunc XgoLocalFuncStub ds
      [] [] [] = some (fileDefs, stmts))
    (hst : stmts.length ≠ 0) :
    registerFuncs env g (f :: rest) =
      some ({ g with allFiles := f :: rest, allDecls := ds },
        [{ name := "__xgo_autogen_register_func_helper.go",
           code := generateRegHelperCode env f.PkgName },
         { name := "__xgo_autogen_register_func_info.go",
           code := generateRegFileCode f.PkgName "init" (Join (fileDefs ++ stmts) "\n") }]) := by
  have hbody : generateFuncRegBody env ds XgoLinkGeneratedRegisterFunc XgoLocalFuncStub =
      some (Join (fileDefs ++ stmts) "\n") := by
    rw [generateFuncRegBody_of_loop _ _ _ _ fileDefs stmts hloop]
    simp [hst]
  have hname : "__xgo_autogen_register_func_info" ++ ".go" =
      "__xgo_autogen_register_func_info.go" := by decide
  simp only [registerFuncs, hskip, hget, hlink, hfilter, hsplit, List.length_singleton,
    registerBatches, hne, if_false, hbody, Bool.false_eq_true, gt_iff_lt, Nat.lt_irrefl, hname]

/-- Refutation of C14 as stated: the module `main` with 501 variables and
variable trapping enabled gets one registration unit, and that unit holds 1002
registration statements. -/
theorem registerFuncs_unit_counterexample :
    ∃ g1 helper unit fileDefs stmts,
      registerFuncs (mainEnv true) {} [manyVarsFile] = some (g1, [helper, unit]) ∧
      unit.name = "__xgo_autogen_register_func_info.go" ∧
      generateFuncRegBodyLoop (mainEnv true) XgoLinkGeneratedRegisterFunc XgoLocalFuncStub
        manyVarsDecls [] [] [] = some (fileDefs, stmts) ∧
      unit.code = generateRegFileCode "main" "init" (Join (fileDefs ++ stmts) "\n") ∧
      stmts.length = 1002 ∧ 1000 < stmts.length := by
  obtain ⟨hlen, hprops⟩ := manyVarsDecls_props
  have hskip : SkipPackageTrap (mainEnv true).stdWhitelist (mainEnv true).isSkippableSpecialPkg
      (mainEnv true).Std (mainEnv true).pkgPath = some false := by decide
  have hext : extractFiles (mainEnv true) true 0 [manyVarsFile] = some manyVarsDecls := by
    simp [extractFiles, extractDeclList, extractFuncDecls, manyVarsFile, mainEnv,
      collectVarDeclsPerName, manyVarsDecls, setVarProvenance, manyVarsDecl, List.map_map,
      Function.comp]
  have hno : ∀ k, pairedAt (mainEnv true).EqualFold manyVarsDecls k = false := by
    intro k
    by_contra hne
    have hk : pairedAt (mainEnv true).EqualFold manyVarsDecls k = true := by simpa using hne
    cases k with
    | zero => simp [pairedAt] at hk
    | succ k =>
      obtain ⟨last, hlast, hconst⟩ := pairedAt_kind_const _ manyVarsDecls k hk
      have := (hprops last (List.getElem?_mem hlast)).1
      rw [this] at hconst
      exact absurd hconst (by decide)
  have hget : getFuncDecls (mainEnv true) [manyVarsFile] (mainEnv true).allowVarTrap =
      some manyVarsDecls :=
    getFuncDecls_of_unpaired (mainEnv true) [manyVarsFile] true manyVarsDecls hext hno
  have hlink : manyVarsDecls.any (fun funcDecl => decide (funcDecl.RecvTypeName = "") &&
      decide (funcDecl.Name = XgoLinkGeneratedRegisterFunc)) = false := by
    rw [List.any_eq_false]
    intro d hd
    obtain ⟨-, -, -, t, ht⟩ := hprops d hd
    simp [ht, (v_name_ne t).2]
  have hfilter : filterFuncDecls (mainEnv true) manyVarsDecls (mainEnv true).pkgPath =
      manyVarsDecls := by
    simp [filterFuncDecls, AllowPkgFuncTrap, mainEnv]
  have hsplit : splitBatch manyVarsDecls 1000 = some [manyVarsDecls] :=
    splitBatch_single 1000 manyVarsDecls (by omega) (by omega)
  obtain ⟨fileDefs, stmts, hloop⟩ := generateFuncRegBodyLoop_total (mainEnv true)
    XgoLinkGeneratedRegisterFunc XgoLocalFuncStub manyVarsDecls
    (fun d hd _ => by rw [(hprops d hd).2.2.1]; simp) [] [] []
  obtain ⟨hst, -⟩ := generateFuncRegBodyLoop_spec (mainEnv true) _ _ manyVarsDecls [] [] []
    fileDefs stmts hloop
  have hnb : manyVarsDecls.filter nonBlank = manyVarsDecls := by
    rw [List.filter_eq_self]
    intro d hd
    obtain ⟨-, -, -, t, ht⟩ := hprops d hd
    simp [nonBlank, ht, (v_name_ne t).1]
  have hvar : manyVarsDecls.filter (fun d => decide (d.Kind = Kind_Var)) = manyVarsDecls := by
    rw [List.filter_eq_self]
    intro d hd
    simp [(hprops d hd).1]
  have hcount : stmts.length = 1002 := by
    have := (flatMap_regStmtsOf_length (mainEnv true) XgoLinkGeneratedRegisterFunc
      XgoLocalFuncStub manyVarsDecls).1
    rw [hvar, hlen] at this
    rw [hst, hnb, List.nil_append, this]
  have hlen0 : manyVarsDecls.length ≠ 0 := by omega
  have hst0 : stmts.length ≠ 0 := by omega
  have hreg := registerFuncs_single_batch (mainEnv true) {} manyVarsFile [] manyVarsDecls
    fileDefs stmts hskip hget hlink hfilter hsplit hlen0 hloop hst0
  exact ⟨_, _, _, fileDefs, stmts, hreg, rfl, hloop, rfl, hcount, by omega⟩

/-! ## Theorems: the names of parameters, results and receivers -/

/-- The receiver keeps its type when its name is filled. -/
theorem fillName_Type (field : Field) (namePrefix : String) :
    (fillName field namePrefix).Type_ = field.Type_ := by
  unfold fillName
  split
  · rfl
  · split <;> rfl

/-- The character of a decimal digit is a digit with that value. -/
theorem digitChar_decimal (k : Nat) (hk : k < 10) :
    (Nat.digitChar k).toNat - 48 = k ∧ (Nat.digitChar k).isDigit = true := by
  interval_cases k <;> exact ⟨by decide, by decide⟩

/-- The value of a sequence of digits followed by one more digit. -/
theorem digitsValue_concat (xs : List Char) (c : Char) :
    digitsValue (xs ++ [c]) = 10 * digitsValue xs + (c.toNat - 48) := by
  simp [digitsValue, List.foldl_append]

/-- The digits `Nat.toDigitsCore` puts in front of its accumulator are decimal
digits and their value is the number. -/
theorem toDigitsCore_spec (fuel : Nat) :
    ∀ (n : Nat) (ds : List Char), n < fuel →
      ∃ xs, Nat.toDigitsCore 10 fuel n ds = xs ++ ds ∧ digitsValue xs = n ∧
        ∀ c ∈ xs, c.isDigit = true := by
  induction fuel with
  | zero => intro n ds h; omega
  | succ fuel ih =>
    intro n ds h
    obtain ⟨hv, hd⟩ := digitChar_decimal (n % 10) (Nat.mod_lt _ (by decide))
    by_cases hq : n / 10 = 0
    · refine ⟨[Nat.digitChar (n % 10)], ?_, ?_, ?_⟩
      · simp [Nat.toDigitsCore, hq]
      · have : digitsValue [Nat.digitChar (n % 10)] = (Nat.digitChar (n % 10)).toNat - 48 := by
          simp [digitsValue]
        rw [this, hv]
        omega
      · intro c hc
        rw [List.mem_singleton] at hc
        rw [hc]
        exact hd
    · obtain ⟨xs, hrun, hval, hdig⟩ := ih (n / 10) (Nat.digitChar (n % 10) :: ds) (by omega)
      refine ⟨xs ++ [Nat.digitChar (n % 10)], ?_, ?_, ?_⟩
      · simp only [Nat.toDigitsCore, hq, if_false]
        rw [hrun]
        simp
      · rw [digitsValue_concat, hval, hv]
        omega
      · intro c hc
        rw [List.mem_append, List.mem_singleton] at hc
        rcases hc with hc | hc
        · exact hdig c hc
        · rw [hc]
          exact hd

/-- The decimal digits of a natural number, as `FormatInt` writes them. -/
theorem FormatInt_natCast (i : Nat) :
    ∃ xs, (FormatInt (i : Int)).data = xs ∧ digitsValue xs = i ∧ ∀ c ∈ xs, c.isDigit = true := by
  obtain ⟨xs, hrun, hval, hdig⟩ := toDigitsCore_spec (i + 1) i [] (Nat.lt_succ_self i)
  refine ⟨xs, ?_, hval, hdig⟩
  have : (FormatInt (i : Int)).data = Nat.toDigitsCore 10 (i + 1) i [] := rfl
  rw [this, hrun]
  simp

/-- Reading the leading digits of digits followed by nothing or by `_blank`. -/
theorem takeWhile_digits (xs s : List Char) (hx : ∀ c ∈ xs, c.isDigit = true)
    (hs : s = [] ∨ s = "_blank".data) : (xs ++ s).takeWhile Char.isDigit = xs := by
  induction xs with
  | nil =>
    rcases hs with hs | hs <;> subst hs <;> rfl
  | cons c xs ih =>
    have hc : c.isDigit = true := hx c (List.mem_cons_self _ _)
    simp only [List.cons_append, List.takeWhile_cons, hc, if_true]
    rw [ih (fun c1 h1 => hx c1 (List.mem_cons_of_mem _ h1))]

/-- The placeholders of two different parameter positions differ, with or
without the ending `_blank`. -/
theorem backfilled_placeholder_ne (i j : Nat) (hij : i ≠ j) (a b : Option String)
    (ha : a = none ∨ a = some "_") (hb : b = none ∨ b = some "_") :
    backfilled (argPlaceholder i) a ≠ backfilled (argPlaceholder j) b := by
  obtain ⟨xi, hxi, hvi, hdi⟩ := FormatInt_natCast i
  obtain ⟨xj, hxj, hvj, hdj⟩ := FormatInt_natCast j
  have hform : ∀ (k : Nat) (xk : List Char) (c : Option String),
      (FormatInt (k : Int)).data = xk → (c = none ∨ c = some "_") →
      ∃ s, (s = [] ∨ s = "_blank".data) ∧
        (backfilled (argPlaceholder k) c).data = "__xgo_arg_auto_filled_".data ++ (xk ++ s) := by
    intro k xk c hxk hc
    rcases hc with hc | hc
    · subst hc
      exact ⟨[], Or.inl rfl, by simp [backfilled, argPlaceholder, String.data_append, hxk]⟩
    · subst hc
      exact ⟨"_blank".data, Or.inr rfl,
        by simp [backfilled, argPlaceholder, String.data_append, hxk]⟩
  obtain ⟨si, hsi, hdi1⟩ := hform i xi a hxi ha
  obtain ⟨sj, hsj, hdj1⟩ := hform j xj b hxj hb
  intro heq
  have hdata := congrArg String.data heq
  rw [hdi1, hdj1] at hdata
  have hcancel : xi ++ si = xj ++ sj := List.append_cancel_left hdata
  have htw := congrArg (List.takeWhile Char.isDigit) hcancel
  rw [takeWhile_digits xi si hdi hsi, takeWhile_digits xj sj hdj hsj] at htw
  apply hij
  rw [← hvi, ← hvj, htw]

/-- The name read from a field after `fillName`. -/
theorem getFieldName_fillName (p : Field) (namePrefix : String) :
    getFieldName (fillName p namePrefix) = backfilled namePrefix p.Name := by
  unfold fillName getFieldName backfilled
  cases hp : p.Name with
  | none => simp
  | some v =>
    by_cases hv : v = "_"
    · simp [hv]
    · simp [hv, hp]

/-- The receiver name read after `fillName`. -/
theorem recvName_fillName (recv : Field) (namePrefix : String) :
    (match (fillName recv namePrefix).Name with
      | none => "_"
      | some v => v) = backfilled namePrefix recv.Name := by
  unfold fillName backfilled
  cases hp : recv.Name with
  | none => simp
  | some v =>
    by_cases hv : v = "_"
    · simp [hv]
    · simp [hv, hp]

/-- The parameters after the loop of `fillMissingArgNames`, read by position. -/
theorem fillParamNames_getElem (params : List Field) :
    ∀ (k i : Nat) (p : Field), params[i]? = some p →
      (fillParamNames k params)[i]? =
        some (fillName p ("__xgo_arg_auto_filled_" ++ FormatInt ((k + i : Nat) : Int))) := by
  induction params with
  | nil => intro k i p h; simp at h
  | cons q rest ih =>
    intro k i p h
    cases i with
    | zero =>
      simp only [List.getElem?_cons_zero, Option.some.injEq] at h
      subst h
      simp [fillParamNames]
    | succ i =>
      simp only [List.getElem?_cons_succ] at h
      have := ih (k + 1) i p h
      simp only [fillParamNames, List.getElem?_cons_succ]
      rw [this]
      have e : k + 1 + i = k + (i + 1) := by omega
      rw [e]

/-- The loop of `fillMissingArgNames` keeps the number of parameters. -/
theorem fillParamNames_length (params : List Field) :
    ∀ k, (fillParamNames k params).length = params.length := by
  induction params with
  | nil => intro k; rfl
  | cons q rest ih => intro k; simp [fillParamNames, ih]

/-- The names `getFuncDeclInfo` records. -/
theorem getFuncDeclInfo_fields (fileIndex : Nat) (f : File) (file : String) (fn : FuncDecl)
    (d : DeclInfo) (h : getFuncDeclInfo fileIndex f file fn = some (some d)) :
    d.ArgNames = getFieldNames (fillParamNames 0 fn.Type_.ParamList) ∧
    d.ResNames = getFieldNames fn.Type_.ResultList ∧
    d.RecvName =
      (match fn.Recv with
       | none => ""
       | some recv => backfilled "__xgo_recv_auto_filled" recv.Name) := by
  simp only [getFuncDeclInfo] at h
  split at h
  · cases h
  · cases hrecv : fn.Recv with
    | none =>
      simp only [fillMissingArgNames, hrecv, Option.map_none', Option.some.injEq] at h
      subst h
      exact ⟨rfl, rfl, rfl⟩
    | some recv =>
      simp only [fillMissingArgNames, hrecv, Option.map_some'] at h
      split at h
      · simp only [Option.some.injEq] at h
        subst h
        refine ⟨rfl, rfl, ?_⟩
        exact recvName_fillName recv "__xgo_recv_auto_filled"
      · cases h


/-- A filled name is not the blank identifier. -/
theorem backfilled_ne_blank (placeholder : String) (declared : Option String)
    (hp : ∃ t : List Char, placeholder.data = '_' :: '_' :: t) :
    backfilled placeholder declared ≠ "_" := by
  obtain ⟨t, ht⟩ := hp
  unfold backfilled
  cases declared with
  | none =>
    intro h
    have := congrArg String.data h
    rw [ht] at this
    simp at this
  | some v =>
    by_cases hv : v = "_"
    · simp only [hv, if_true]
      intro h
      have := congrArg String.data h
      rw [String.data_append, ht] at this
      simp at this
    · simp only [hv, if_false]
      exact hv

/-- A filled name is not empty unless the declared name is. -/
theorem backfilled_ne_empty (placeholder : String) (declared : Option String)
    (hp : ∃ t : List Char, placeholder.data = '_' :: '_' :: t) (hd : declared ≠ some "") :
    backfilled placeholder declared ≠ "" := by
  obtain ⟨t, ht⟩ := hp
  unfold backfilled
  cases declared with
  | none =>
    intro h
    have := congrArg String.data h
    rw [ht] at this
    simp at this
  | some v =>
    by_cases hv : v = "_"
    · simp only [hv, if_true]
      intro h
      have := congrArg String.data h
      rw [String.data_append, ht] at this
      simp at this
    · simp only [hv, if_false]
      intro h
      exact hd (by rw [h])

/-- The placeholder of a parameter position starts with two underscores. -/
theorem argPlaceholder_data (i : Nat) :
    ∃ t : List Char, (argPlaceholder i).data = '_' :: '_' :: t :=
  ⟨_, by simp only [argPlaceholder, String.data_append]; rfl⟩

/-- Whenever the receiver type has a supported shape, `getFuncDeclInfo`
returns a descriptor for a declaration that is not named `init`. -/
theorem getFuncDeclInfo_returns (fileIndex : Nat) (f : File) (file : String) (fn : FuncDecl)
    (hname : fn.Name ≠ "init") (hshape : recvShapeOk fn = true) :
    ∃ d, getFuncDeclInfo fileIndex f file fn = some (some d) := by
  simp only [getFuncDeclInfo, hname, if_false]
  cases hrecv : fn.Recv with
  | none =>
    simp only [fillMissingArgNames, hrecv, Option.map_none']
    exact ⟨_, rfl⟩
  | some recv =>
    simp only [recvShapeOk, hrecv] at hshape
    simp only [fillMissingArgNames, hrecv, Option.map_some', fillName_Type]
    cases hT : recv.Type_ with
    | Name v => exact ⟨_, rfl⟩
    | Operation op X Y =>
      rw [hT] at hshape
      cases op <;> first
        | (simp only [isRecvBase] at hshape; cases hshape)
        | (cases X with
          | Name v => exact ⟨_, rfl⟩
          | IndexExpr X1 I1 =>
            cases X1 with
            | Name v => exact ⟨_, rfl⟩
            | _ => simp [isRecvBase] at hshape
          | _ => simp [isRecvBase] at hshape)
    | IndexExpr X I =>
      rw [hT] at hshape
      cases X with
      | Name v => exact ⟨_, rfl⟩
      | _ => simp [isRecvBase] at hshape
    | BasicLit v => rw [hT] at hshape; simp [isRecvBase] at hshape
    | InterfaceType => rw [hT] at hshape; simp [isRecvBase] at hshape
    | Other => rw [hT] at hshape; simp [isRecvBase] at hshape

/-- What `getFuncDeclInfo` does on its own with the names of the declaration it
is given: parameter and receiver names are filled, result names are read as
they are. -/
theorem getFuncDeclInfo_names_code (fileIndex : Nat) (f : File) (file : String) (fn : FuncDecl)
    (d : DeclInfo) (hd : getFuncDeclInfo fileIndex f file fn = some (some d)) :
    d.ArgNames.length = fn.Type_.ParamList.length ∧
    (∀ i p, fn.Type_.ParamList[i]? = some p →
      d.ArgNames[i]? = some (backfilled (argPlaceholder i) p.Name)) ∧
    (∀ recv, fn.Recv = some recv →
      d.RecvName = backfilled "__xgo_recv_auto_filled" recv.Name ∧ d.RecvName ≠ "_" ∧
      (recv.Name ≠ some "" → d.RecvName ≠ "")) ∧
    (∀ n ∈ d.ArgNames, n ≠ "_") ∧
    ((∀ p ∈ fn.Type_.ParamList, p.Name ≠ some "") → ∀ n ∈ d.ArgNames, n ≠ "") ∧
    (∀ (i j : Nat) (pi pj : Field), i ≠ j →
      fn.Type_.ParamList[i]? = some pi → fn.Type_.ParamList[j]? = some pj →
      (pi.Name = none ∨ pi.Name = some "_") → (pj.Name = none ∨ pj.Name = some "_") →
      d.ArgNames[i]? ≠ d.ArgNames[j]?) ∧
    d.ResNames = fn.Type_.ResultList.map (fun r => r.Name.getD "") := by
  obtain ⟨hargs, hres, hrecvName⟩ := getFuncDeclInfo_fields fileIndex f file fn d hd
  have hget : ∀ i p, fn.Type_.ParamList[i]? = some p →
      d.ArgNames[i]? = some (backfilled (argPlaceholder i) p.Name) := by
    intro i p hp
    rw [hargs, getFieldNames, List.getElem?_map, fillParamNames_getElem _ 0 i p hp]
    simp only [Option.map_some', getFieldName_fillName, Nat.zero_add]
    rfl
  have hlen : d.ArgNames.length = fn.Type_.ParamList.length := by
    rw [hargs, getFieldNames, List.length_map, fillParamNames_length]
  have hmem : ∀ n ∈ d.ArgNames, ∃ i p, fn.Type_.ParamList[i]? = some p ∧
      p ∈ fn.Type_.ParamList ∧ n = backfilled (argPlaceholder i) p.Name := by
    intro n hn
    obtain ⟨i, hi, hin⟩ := List.getElem_of_mem hn
    have hi2 : i < fn.Type_.ParamList.length := by omega
    have hp : fn.Type_.ParamList[i]? = some (fn.Type_.ParamList[i]) :=
      List.getElem?_eq_getElem hi2
    have h1 := hget i _ hp
    rw [List.getElem?_eq_getElem hi, hin] at h1
    exact ⟨i, _, hp, List.getElem?_mem hp, Option.some.inj h1⟩
  refine ⟨hlen, hget, ?_, ?_, ?_, ?_, ?_⟩
  · intro recv hrecv
    rw [hrecv] at hrecvName
    simp only at hrecvName
    rw [hrecvName]
    exact ⟨rfl, backfilled_ne_blank _ _ ⟨_, rfl⟩, backfilled_ne_empty _ _ ⟨_, rfl⟩⟩
  · intro n hn
    obtain ⟨i, p, _, _, rfl⟩ := hmem n hn
    exact backfilled_ne_blank _ _ (argPlaceholder_data i)
  · intro hdecl n hn
    obtain ⟨i, p, _, hp, rfl⟩ := hmem n hn
    exact backfilled_ne_empty _ _ (argPlaceholder_data i) (hdecl p hp)
  · intro i j pi pj hij hi hj hpi hpj heq
    rw [hget i pi hi, hget j pj hj] at heq
    exact backfilled_placeholder_ne i j hij _ _ hpi hpj (Option.some.inj heq)
  · rw [hres, getFieldNames]
    apply List.map_congr_left
    intro r _
    unfold getFieldName
    cases r.Name <;> rfl

/-- A name left by the earlier pass is not the blank identifier. -/
theorem filledNameSpec_ne_blank (placeholder : String) (declared : Option String)
    (hp : placeholder ≠ "_") : filledNameSpec placeholder declared ≠ "_" := by
  unfold filledNameSpec
  cases declared with
  | none => exact hp
  | some v =>
    by_cases hv : v = "_"
    · simp only [hv, if_true]; exact hp
    · simp only [hv, if_false]; exact hv

/-- A name left by the earlier pass is not empty unless the declared name is. -/
theorem filledNameSpec_ne_empty (placeholder : String) (declared : Option String)
    (hp : placeholder ≠ "") (hd : declared ≠ some "") : filledNameSpec placeholder declared ≠ "" := by
  unfold filledNameSpec
  cases declared with
  | none => exact hp
  | some v =>
    by_cases hv : v = "_"
    · simp only [hv, if_true]; exact hp
    · simp only [hv, if_false]
      intro h
      exact hd (by rw [h])

/-- A name left by the earlier pass is kept by `fillName`. -/
theorem backfilled_filledNameSpec (namePrefix placeholder : String) (declared : Option String)
    (hp : placeholder ≠ "_") :
    backfilled namePrefix (some (filledNameSpec placeholder declared)) =
      filledNameSpec placeholder declared := by
  have := filledNameSpec_ne_blank placeholder declared hp
  simp only [backfilled, this, if_false]

/-- The fields after the earlier pass, read by position. -/
theorem fillFieldsSpec_getElem (placeholder : Nat → String) (fields : List Field) :
    ∀ (k i : Nat), (fillFieldsSpec placeholder k fields)[i]? =
      (fields[i]?).map (fillFieldSpec (placeholder (k + i))) := by
  induction fields with
  | nil => intro k i; simp [fillFieldsSpec]
  | cons q rest ih =>
    intro k i
    cases i with
    | zero => simp [fillFieldsSpec]
    | succ i =>
      simp only [fillFieldsSpec, List.getElem?_cons_succ]
      rw [ih (k + 1) i]
      have e : k + 1 + i = k + (i + 1) := by omega
      rw [e]

/-- The parameters after the loop of `fillMissingArgNames`, read by position,
also past the end. -/
theorem fillParamNames_getElem_map (params : List Field) (k i : Nat) :
    (fillParamNames k params)[i]? =
      (params[i]?).map
        (fun p => fillName p ("__xgo_arg_auto_filled_" ++ FormatInt ((k + i : Nat) : Int))) := by
  cases hp : params[i]? with
  | some p => rw [fillParamNames_getElem params k i p hp]; rfl
  | none =>
    have hlen : params.length ≤ i := by
      by_contra hlt
      rw [List.getElem?_eq_getElem (by omega)] at hp
      cases hp
    rw [List.getElem?_eq_none (by rw [fillParamNames_length]; exact hlen)]
    rfl

/-- The names `getFuncDeclInfo` records for a declaration that the earlier pass
has filled. -/
theorem getFuncDeclInfo_after_fill (fileIndex : Nat) (f : File) (file : String) (fn : FuncDecl)
    (ph : Placeholders) (hph : ph.usable) (d : DeclInfo)
    (hd : getFuncDeclInfo fileIndex f file (fillFuncArgResNamesSpec ph fn) = some (some d)) :
    (∀ i, d.ArgNames[i]? =
      (fn.Type_.ParamList[i]?).map (fun p => filledNameSpec (ph.arg i) p.Name)) ∧
    (∀ i, d.ResNames[i]? =
      (fn.Type_.ResultList[i]?).map (fun r => filledNameSpec (ph.res i) r.Name)) ∧
    (∀ recv, fn.Recv = some recv → d.RecvName = filledNameSpec ph.recv recv.Name) := by
  obtain ⟨⟨_, hrb⟩, harg, hres, _, _⟩ := hph
  obtain ⟨hargs, hress, hrecvName⟩ := getFuncDeclInfo_fields fileIndex f file _ d hd
  refine ⟨?_, ?_, ?_⟩
  · intro i
    rw [hargs, getFieldNames, List.getElem?_map, fillParamNames_getElem_map]
    show Option.map getFieldName (Option.map _ ((fillFieldsSpec ph.arg 0 fn.Type_.ParamList)[i]?)) = _
    rw [fillFieldsSpec_getElem]
    cases fn.Type_.ParamList[i]? with
    | none => rfl
    | some p =>
      simp only [Option.map_some', getFieldName_fillName, Nat.zero_add, fillFieldSpec]
      rw [backfilled_filledNameSpec _ _ _ (harg i).2]
  · intro i
    rw [hress, getFieldNames, List.getElem?_map]
    show Option.map getFieldName ((fillFieldsSpec ph.res 0 fn.Type_.ResultList)[i]?) = _
    rw [fillFieldsSpec_getElem]
    cases fn.Type_.ResultList[i]? with
    | none => rfl
    | some r =>
      simp only [Option.map_some', Nat.zero_add, fillFieldSpec, getFieldName]
  · intro recv hrecv
    have hr : (fillFuncArgResNamesSpec ph fn).Recv = some (fillFieldSpec ph.recv recv) := by
      simp [fillFuncArgResNamesSpec, hrecv]
    rw [hr] at hrecvName
    simp only [fillFieldSpec] at hrecvName
    rw [hrecvName, backfilled_filledNameSpec _ _ _ hrb]


/-- The earlier pass keeps the shape of the receiver type. -/
theorem recvShapeOk_fillFuncArgResNamesSpec (ph : Placeholders) (fn : FuncDecl) :
    recvShapeOk (fillFuncArgResNamesSpec ph fn) = recvShapeOk fn := by
  unfold recvShapeOk fillFuncArgResNamesSpec
  cases fn.Recv with
  | none => rfl
  | some recv => rfl

/-- Two natural numbers written alike by `FormatInt` are equal. -/
theorem FormatInt_natCast_inj (i j : Nat) (h : FormatInt (i : Int) = FormatInt (j : Int)) :
    i = j := by
  obtain ⟨xi, hxi, hvi, _⟩ := FormatInt_natCast i
  obtain ⟨xj, hxj, hvj, _⟩ := FormatInt_natCast j
  rw [← hvi, ← hvj, ← hxi, ← hxj, h]

/-- The placeholders `_x`, `_a0`, `_a1`, ..., `_r0`, `_r1`, ... are usable. -/
theorem samplePlaceholders_usable : samplePlaceholders.usable := by
  have hne : ∀ (c : Char) (i : Nat),
      String.mk ['_', c] ++ FormatInt (i : Int) ≠ "" ∧
        String.mk ['_', c] ++ FormatInt (i : Int) ≠ "_" := by
    intro c i
    constructor
    · intro h
      have := congrArg String.data h
      simp [String.data_append] at this
    · intro h
      have := congrArg String.data h
      simp [String.data_append] at this
  have hinj : ∀ (c : Char) (i j : Nat), i ≠ j →
      String.mk ['_', c] ++ FormatInt (i : Int) ≠ String.mk ['_', c] ++ FormatInt (j : Int) := by
    intro c i j hij h
    apply hij
    apply FormatInt_natCast_inj
    have := congrArg String.data h
    simp only [String.data_append, List.append_cancel_left_eq] at this
    exact String.ext this
  exact ⟨⟨by decide, by decide⟩, fun i => hne 'a' i, fun i => hne 'r' i,
    fun i j hij => hinj 'a' i j hij, fun i j hij => hinj 'r' i j hij⟩

/-- C21: a declaration that is not named `init` reaches `getFuncDeclInfo` after
the pass `fillFuncArgResNames` (modelled from the spec, with any usable
placeholders).  For such a declaration `getFuncDeclInfo` returns a descriptor
whenever the receiver type has a supported shape, and in every descriptor it
returns no parameter name, no result name and no receiver name is `_`, none
is empty as long as no declared name is empty, the names at two parameter
positions declared without name or as `_` differ, and each name is the
declared one or the placeholder of its position.  On its own, for every
declaration it is given, `getFuncDeclInfo` fills the parameter names and the
receiver name (the placeholder of the position, followed by `_blank` for a
declared `_`), with different names at different filled positions, and reads
the result names as they are. -/
theorem getFuncDeclInfo_names (fileIndex : Nat) (f : File) (file : String) (fn : FuncDecl)
    (ph : Placeholders) (hname : fn.Name ≠ "init") (hph : ph.usable) :
    (recvShapeOk fn = true →
      ∃ d, getFuncDeclInfo fileIndex f file (fillFuncArgResNamesSpec ph fn) = some (some d)) ∧
    (∀ d, getFuncDeclInfo fileIndex f file (fillFuncArgResNamesSpec ph fn) = some (some d) →
      (∀ n ∈ d.ArgNames, n ≠ "_") ∧ (∀ n ∈ d.ResNames, n ≠ "_") ∧
      (fn.Recv ≠ none → d.RecvName ≠ "_") ∧
      (noEmptyName fn = true →
        (∀ n ∈ d.ArgNames, n ≠ "") ∧ (∀ n ∈ d.ResNames, n ≠ "") ∧
        (fn.Recv ≠ none → d.RecvName ≠ "")) ∧
      (∀ (i j : Nat) (pi pj : Field), i ≠ j →
        fn.Type_.ParamList[i]? = some pi → fn.Type_.ParamList[j]? = some pj →
        (pi.Name = none ∨ pi.Name = some "_") → (pj.Name = none ∨ pj.Name = some "_") →
        d.ArgNames[i]? ≠ d.ArgNames[j]?) ∧
      (∀ i, d.ArgNames[i]? =
        (fn.Type_.ParamList[i]?).map (fun p => filledNameSpec (ph.arg i) p.Name)) ∧
      (∀ i, d.ResNames[i]? =
        (fn.Type_.ResultList[i]?).map (fun r => filledNameSpec (ph.res i) r.Name)) ∧
      (∀ recv, fn.Recv = some recv → d.RecvName = filledNameSpec ph.recv recv.Name)) ∧
    (∀ d, getFuncDeclInfo fileIndex f file fn = some (some d) →
      d.ArgNames.length = fn.Type_.ParamList.length ∧
      (∀ i p, fn.Type_.ParamList[i]? = some p →
        d.ArgNames[i]? = some (backfilled (argPlaceholder i) p.Name)) ∧
      (∀ recv, fn.Recv = some recv →
        d.RecvName = backfilled "__xgo_recv_auto_filled" recv.Name ∧ d.RecvName ≠ "_" ∧
        (recv.Name ≠ some "" → d.RecvName ≠ "")) ∧
      (∀ n ∈ d.ArgNames, n ≠ "_") ∧
      ((∀ p ∈ fn.Type_.ParamList, p.Name ≠ some "") → ∀ n ∈ d.ArgNames, n ≠ "") ∧
      (∀ (i j : Nat) (pi pj : Field), i ≠ j →
        fn.Type_.ParamList[i]? = some pi → fn.Type_.ParamList[j]? = some pj →
        (pi.Name = none ∨ pi.Name = some "_") → (pj.Name = none ∨ pj.Name = some "_") →
        d.ArgNames[i]? ≠ d.ArgNames[j]?) ∧
      d.ResNames = fn.Type_.ResultList.map (fun r => r.Name.getD "")) := by
  refine ⟨?_, ?_, fun d hd => getFuncDeclInfo_names_code fileIndex f file fn d hd⟩
  · intro hshape
    exact getFuncDeclInfo_returns fileIndex f file _ hname
      (by rw [recvShapeOk_fillFuncArgResNamesSpec]; exact hshape)
  · intro d hd
    obtain ⟨hA, hR, hV⟩ := getFuncDeclInfo_after_fill fileIndex f file fn ph hph d hd
    obtain ⟨⟨hre, hrb⟩, harg, hres, hargInj, _⟩ := hph
    have hmemA : ∀ n ∈ d.ArgNames, ∃ i p, fn.Type_.ParamList[i]? = some p ∧
        n = filledNameSpec (ph.arg i) p.Name := by
      intro n hn
      obtain ⟨i, hi, hin⟩ := List.getElem_of_mem hn
      have h1 := hA i
      rw [List.getElem?_eq_getElem hi, hin] at h1
      cases hp : fn.Type_.ParamList[i]? with
      | none => rw [hp] at h1; cases h1
      | some p =>
        rw [hp] at h1
        exact ⟨i, p, hp, Option.some.inj h1⟩
    have hmemR : ∀ n ∈ d.ResNames, ∃ i r, fn.Type_.ResultList[i]? = some r ∧
        n = filledNameSpec (ph.res i) r.Name := by
      intro n hn
      obtain ⟨i, hi, hin⟩ := List.getElem_of_mem hn
      have h1 := hR i
      rw [List.getElem?_eq_getElem hi, hin] at h1
      cases hp : fn.Type_.ResultList[i]? with
      | none => rw [hp] at h1; cases h1
      | some r =>
        rw [hp] at h1
        exact ⟨i, r, hp, Option.some.inj h1⟩
    refine ⟨?_, ?_, ?_, ?_, ?_, hA, hR, hV⟩
    · intro n hn
      obtain ⟨i, p, _, rfl⟩ := hmemA n hn
      exact filledNameSpec_ne_blank _ _ (harg i).2
    · intro n hn
      obtain ⟨i, r, _, rfl⟩ := hmemR n hn
      exact filledNameSpec_ne_blank _ _ (hres i).2
    · intro hrecv
      cases hr : fn.Recv with
      | none => exact absurd hr hrecv
      | some recv =>
        rw [hV recv hr]
        exact filledNameSpec_ne_blank _ _ hrb
    · intro hno
      simp only [noEmptyName, Bool.and_eq_true, List.all_eq_true, decide_eq_true_eq] at hno
      obtain ⟨⟨hnoA, hnoR⟩, hnoV⟩ := hno
      refine ⟨?_, ?_, ?_⟩
      · intro n hn
        obtain ⟨i, p, hp, rfl⟩ := hmemA n hn
        exact filledNameSpec_ne_empty _ _ (harg i).1 (hnoA p (List.getElem?_mem hp))
      · intro n hn
        obtain ⟨i, r, hr, rfl⟩ := hmemR n hn
        exact filledNameSpec_ne_empty _ _ (hres i).1 (hnoR r (List.getElem?_mem hr))
      · intro hrecv
        cases hr : fn.Recv with
        | none => exact absurd hr hrecv
        | some recv =>
          rw [hV recv hr]
          rw [hr] at hnoV
          exact filledNameSpec_ne_empty _ _ hre (by simpa using hnoV)
    · intro i j pi pj hij hi hj hpi hpj heq
      rw [hA i, hA j, hi, hj] at heq
      simp only [Option.map_some', Option.some.injEq] at heq
      have e1 : filledNameSpec (ph.arg i) pi.Name = ph.arg i := by
        rcases hpi with h | h <;> simp [filledNameSpec, h]
      have e2 : filledNameSpec (ph.arg j) pj.Name = ph.arg j := by
        rcases hpj with h | h <;> simp [filledNameSpec, h]
      rw [e1, e2] at heq
      exact hargInj i j hij heq

/-- Witness of `getFuncDeclInfo_names`: the method
`func (_ *T) M(_ int, b string) (n int, _ error)` and the function
`func F(int, string) (int, error)`, with the placeholders `_x`, `_a0`, `_a1`,
`_r0`, `_r1`. -/
theorem getFuncDeclInfo_names_witness :
    sampleMethodBlank.Name ≠ "init" ∧ recvShapeOk sampleMethodBlank = true ∧
    noEmptyName sampleMethodBlank = true ∧
    (∃ d, getFuncDeclInfo 0 sampleFileA "a.go"
        (fillFuncArgResNamesSpec samplePlaceholders sampleMethodBlank) = some (some d) ∧
      d.ArgNames = ["_a0", "b"] ∧ d.ResNames = ["n", "_r1"] ∧ d.RecvName = "_x" ∧
      (∀ n ∈ d.ArgNames, n ≠ "_") ∧ (∀ n ∈ d.ResNames, n ≠ "_") ∧
      (∀ n ∈ d.ArgNames, n ≠ "") ∧ (∀ n ∈ d.ResNames, n ≠ "")) ∧
    (∃ d, getFuncDeclInfo 0 sampleFileA "a.go"
        (fillFuncArgResNamesSpec samplePlaceholders sampleFuncUnnamed) = some (some d) ∧
      d.ArgNames = ["_a0", "_a1"] ∧ d.ResNames = ["_r0", "_r1"] ∧ d.RecvName = "") :=
  ⟨by decide, by decide, by decide,
    ⟨_, rfl, rfl, rfl, rfl,
      ((getFuncDeclInfo_names 0 sampleFileA "a.go" sampleMethodBlank samplePlaceholders
        (by decide) samplePlaceholders_usable).2.1 _ rfl).1,
      ((getFuncDeclInfo_names 0 sampleFileA "a.go" sampleMethodBlank samplePlaceholders
        (by decide) samplePlaceholders_usable).2.1 _ rfl).2.1,
      (((getFuncDeclInfo_names 0 sampleFileA "a.go" sampleMethodBlank samplePlaceholders
        (by decide) samplePlaceholders_usable).2.1 _ rfl).2.2.2.1 (by decide)).1,
      (((getFuncDeclInfo_names 0 sampleFileA "a.go" sampleMethodBlank samplePlaceholders
        (by decide) samplePlaceholders_usable).2.1 _ rfl).2.2.2.1 (by decide)).2.1⟩,
    ⟨_, rfl, rfl, rfl, rfl⟩⟩

/-! ## Theorems: the memo of `HasSkipTrap` -/

/-- `registerFuncs` loads the files and keeps the memo of `HasSkipTrap`. -/
theorem registerFuncs_keeps_memo (env : Env) (g g1 : Globals) (fileList : List File)
    (added : List AddedFile) (h : registerFuncs env g fileList = some (g1, added)) :
    g1.allFiles = fileList ∧ g1.computedSkipTrap = g.computedSkipTrap ∧
      g1.skipTrap = g.skipTrap := by
  simp only [registerFuncs] at h
  split at h
  · cases h
  · simp only [Option.some.injEq, Prod.mk.injEq] at h
    obtain ⟨rfl, _⟩ := h
    exact ⟨rfl, rfl, rfl⟩
  · split at h
    · cases h
    · split at h
      · simp only [Option.some.injEq, Prod.mk.injEq] at h
        obtain ⟨rfl, _⟩ := h
        exact ⟨rfl, rfl, rfl⟩
      · split at h
        · cases h
        · split at h
          · cases h
          · simp only [Option.some.injEq, Prod.mk.injEq] at h
            obtain ⟨rfl, _⟩ := h
            exact ⟨rfl, rfl, rfl⟩

/-- After a call of `HasSkipTrap` the memo is set. -/
theorem HasSkipTrap_computed (g : Globals) :
    (HasSkipTrap g).2.computedSkipTrap = true ∧ (HasSkipTrap g).2.skipTrap = (HasSkipTrap g).1 := by
  unfold HasSkipTrap
  by_cases h : g.computedSkipTrap = true
  · simp [h]
  · simp [h]

/-- C22: the memo of `HasSkipTrap` is not reset between modules.  After a call
of `HasSkipTrap`, then `ClearFiles`, `ClearDecls` and `ClearSyntaxDeclMapping`,
then a call of `registerFuncs` that loads the files of the next module, these
files are the recorded ones and `HasSkipTrap` returns what the earlier call
returned; a call made while `computedSkipTrap` is false returns
`computeSkipTrap` of the recorded files. -/
theorem HasSkipTrap_not_reset (env : Env) (g g3 : Globals) (files : List File)
    (added : List AddedFile)
    (hload : registerFuncs env
      (ClearSyntaxDeclMapping (ClearDecls (ClearFiles (HasSkipTrap g).2))) files =
        some (g3, added)) :
    g3.allFiles = files ∧ (HasSkipTrap g3).1 = (HasSkipTrap g).1 ∧
      (g.computedSkipTrap = false → (HasSkipTrap g).1 = computeSkipTrap g.allFiles) := by
  obtain ⟨hfiles, hc, hs⟩ := registerFuncs_keeps_memo env _ g3 files added hload
  obtain ⟨h1, h2⟩ := HasSkipTrap_computed g
  refine ⟨hfiles, ?_, ?_⟩
  · have hc3 : g3.computedSkipTrap = true := by
      rw [hc]
      exact h1
    have hs3 : g3.skipTrap = (HasSkipTrap g).1 := by
      rw [hs]
      exact h2
    unfold HasSkipTrap at hs3 ⊢
    simp only [hc3, if_true]
    exact hs3
  · intro h
    simp [HasSkipTrap, h]

/-- The module of `sampleFileSkip` declares the marker constant and the module
of `sampleFileA` does not; after the decision for the first, the three clearing
functions and the loading of the second, `HasSkipTrap` still returns true. -/
theorem HasSkipTrap_not_reset_counterexample :
    ∃ (g1 g3 : Globals) (added1 added3 : List AddedFile),
      registerFuncs (mainEnv false) {} [sampleFileSkip] = some (g1, added1) ∧
      (HasSkipTrap g1).1 = true ∧
      registerFuncs (mainEnv false)
        (ClearSyntaxDeclMapping (ClearDecls (ClearFiles (HasSkipTrap g1).2))) [sampleFileA] =
          some (g3, added3) ∧
      g3.allFiles = [sampleFileA] ∧
      computeSkipTrap [sampleFileA] = false ∧
      (HasSkipTrap g3).1 = true :=
  ⟨_, _, _, _, rfl, rfl, rfl, rfl, rfl, rfl⟩

/-- Witness of `HasSkipTrap_not_reset`: the module of `sampleFileSkip`, then the
three clearing functions, then the module of `sampleFileA`. -/
theorem HasSkipTrap_not_reset_witness :
    ∃ (g1 g3 : Globals) (added1 added3 : List AddedFile),
      registerFuncs (mainEnv false) {} [sampleFileSkip] = some (g1, added1) ∧
      registerFuncs (mainEnv false)
        (ClearSyntaxDeclMapping (ClearDecls (ClearFiles (HasSkipTrap g1).2))) [sampleFileA] =
          some (g3, added3) ∧
      g3.allFiles = [sampleFileA] ∧ (HasSkipTrap g3).1 = (HasSkipTrap g1).1 ∧
      (g1.computedSkipTrap = false → (HasSkipTrap g1).1 = computeSkipTrap g1.allFiles) :=
  ⟨_, _, _, _, rfl, rfl,
    HasSkipTrap_not_reset (mainEnv false) _ _ [sampleFileA] _ rfl⟩

/-! ## Theorems: `patchVersions` -/

/-- C23: `patchVersions` returns the files as they are (and, being a total
function, it returns on every input) whenever the module path is not
`XgoRuntimeCorePkg`, or the version is empty, or the revision is empty, or
`strconv.ParseInt` of the numeric build gives no integer greater than zero. -/
theorem patchVersions_noop (env : Env) (venv : VersionEnv) (fileList : List File)
    (h : env.pkgPath ≠ XgoRuntimeCorePkg ∨
      venv.Getenv XGO_TOOLCHAIN_VERSION = "" ∨
      venv.Getenv XGO_TOOLCHAIN_REVISION = "" ∨
      (∀ n : Int, venv.ParseInt (venv.Getenv XGO_TOOLCHAIN_VERSION_NUMBER) = some n → n ≤ 0)) :
    patchVersions env venv fileList = fileList := by
  unfold patchVersions
  by_cases h1 : env.pkgPath ≠ XgoRuntimeCorePkg
  · rw [if_pos h1]
  · rw [if_neg h1]
    by_cases h2 : venv.Getenv XGO_TOOLCHAIN_VERSION = ""
    · rw [if_pos h2]
    · rw [if_neg h2]
      by_cases h3 : venv.Getenv XGO_TOOLCHAIN_REVISION = ""
      · rw [if_pos h3]
      · rw [if_neg h3]
        have h4 : ∀ n : Int,
            venv.ParseInt (venv.Getenv XGO_TOOLCHAIN_VERSION_NUMBER) = some n → n ≤ 0 := by
          rcases h with h | h | h | h
          · exact absurd h h1
          · exact absurd h h2
          · exact absurd h h3
          · exact h
        show (match venv.ParseInt (venv.Getenv XGO_TOOLCHAIN_VERSION_NUMBER) with
          | none => fileList
          | some versionNum =>
            if versionNum ≤ 0 then fileList
            else patchVersionFile venv (venv.Getenv XGO_TOOLCHAIN_VERSION)
              (venv.Getenv XGO_TOOLCHAIN_REVISION) versionNum fileList) = fileList
        cases hp : venv.ParseInt (venv.Getenv XGO_TOOLCHAIN_VERSION_NUMBER) with
        | none => rfl
        | some n => exact if_pos (h4 n hp)

/-- What `ParseInt10` gives for some strings. -/
theorem ParseInt10_examples :
    ParseInt10 "-1" = some (-1) ∧ ParseInt10 "0" = some 0 ∧ ParseInt10 "" = none ∧
    ParseInt10 "abc" = none ∧ ParseInt10 "4x" = none ∧ ParseInt10 "+" = none ∧
    ParseInt10 "42" = some 42 ∧ ParseInt10 "9223372036854775808" = none ∧
    ParseInt10 "-9223372036854775808" = some (-9223372036854775808) := by
  refine ⟨?_, ?_, ?_, ?_, ?_, ?_, ?_, ?_, ?_⟩ <;> decide

/-- Witness of `patchVersions_noop`: a module that is not the runtime core, and
the runtime core with the numeric builds `-1`, `0`, the empty string and
`abc`; with the numeric build `42` the three constants of `version.go` are
rewritten. -/
theorem patchVersions_noop_witness :
    patchVersions (mainEnv false) (sampleVersionEnv "42") [sampleFileVersion] = [sampleFileVersion] ∧
    patchVersions coreEnv (sampleVersionEnv "-1") [sampleFileVersion] = [sampleFileVersion] ∧
    patchVersions coreEnv (sampleVersionEnv "0") [sampleFileVersion] = [sampleFileVersion] ∧
    patchVersions coreEnv (sampleVersionEnv "") [sampleFileVersion] = [sampleFileVersion] ∧
    patchVersions coreEnv (sampleVersionEnv "abc") [sampleFileVersion] = [sampleFileVersion] ∧
    (patchVersions coreEnv (sampleVersionEnv "42") [sampleFileVersion]).map
        (fun file => file.DeclList.map (fun decl =>
          match decl with
          | Decl.ConstDecl c =>
            (match c.Values with
             | some (Expr.BasicLit v) => v
             | _ => "")
          | _ => "")) =
      [["\"1.2.3\"", "\"abcdef\"", "42", ""]] :=
  ⟨patchVersions_noop (mainEnv false) (sampleVersionEnv "42") [sampleFileVersion]
      (Or.inl (by decide)),
   patchVersions_noop coreEnv (sampleVersionEnv "-1") [sampleFileVersion]
      (Or.inr (Or.inr (Or.inr (by decide)))),
   patchVersions_noop coreEnv (sampleVersionEnv "0") [sampleFileVersion]
      (Or.inr (Or.inr (Or.inr (by decide)))),
   patchVersions_noop coreEnv (sampleVersionEnv "") [sampleFileVersion]
      (Or.inr (Or.inr (Or.inr (by decide)))),
   patchVersions_noop coreEnv (sampleVersionEnv "abc") [sampleFileVersion]
      (Or.inr (Or.inr (Or.inr (by decide)))),
   by decide⟩

/-! ## Theorems: the receiver of a method -/

/-- C24: for a declaration named `init`, with or without receiver,
`getFuncDeclInfo` returns nil.  For a method declaration that is not named
`init` and whose receiver type is `T`, `*T`, `T[P]` or `*T[P]` with `T` a
name, `getFuncDeclInfo` returns a descriptor with `RecvTypeName = T`, with
`RecvPtr` true exactly when the leading `*` is there, and with `Generic` true
exactly when the index is there or the declaration has type parameters; for a
declaration without receiver that is not named `init` the descriptor has an
empty `RecvTypeName`, an empty `RecvName` and `RecvPtr` false. -/
theorem getFuncDeclInfo_receiver (fileIndex : Nat) (f : File) (file : String) (fn : FuncDecl) :
    (fn.Name = "init" → getFuncDeclInfo fileIndex f file fn = some none) ∧
    (fn.Name ≠ "init" →
      (∀ (recv : Field) (T : String) (ptr : Bool) (index : Option Expr),
        fn.Recv = some recv → recv.Type_ = recvTypeOf T ptr index →
        ∃ d, getFuncDeclInfo fileIndex f file fn = some (some d) ∧
          d.RecvTypeName = T ∧ (d.RecvPtr = true ↔ ptr = true) ∧
          (d.Generic = true ↔ (index.isSome = true ∨ 0 < fn.TParamList.length))) ∧
      (fn.Recv = none →
        ∃ d, getFuncDeclInfo fileIndex f file fn = some (some d) ∧
          d.RecvTypeName = "" ∧ d.RecvName = "" ∧ d.RecvPtr = false)) := by
  refine ⟨fun hinit => by simp [getFuncDeclInfo, hinit], fun hname => ?_⟩
  constructor
  · intro recv T ptr index hrecv hty
    simp only [getFuncDeclInfo, hname, if_false, fillMissingArgNames, hrecv, Option.map_some',
      fillName_Type, hty]
    cases ptr <;> cases index <;>
      simp [recvTypeOf]
  · intro hrecv
    simp only [getFuncDeclInfo, hname, if_false, fillMissingArgNames, hrecv, Option.map_none']
    exact ⟨_, rfl, rfl, rfl, rfl⟩

/-- Witness of `getFuncDeclInfo_receiver`: the method
`func (l *List[E]) Push(e E)`. -/
theorem getFuncDeclInfo_receiver_witness :
    sampleMethodGeneric.Name ≠ "init" ∧
    (∃ d, getFuncDeclInfo 0 sampleFileA "a.go" sampleMethodGeneric = some (some d) ∧
      d.RecvTypeName = "List" ∧ (d.RecvPtr = true ↔ true = true) ∧
      (d.Generic = true ↔
        ((some (Expr.Name "E")).isSome = true ∨ 0 < sampleMethodGeneric.TParamList.length))) :=
  ⟨by decide,
   ((getFuncDeclInfo_receiver 0 sampleFileA "a.go" sampleMethodGeneric).2 (by decide)).1
     _ "List" true (some (Expr.Name "E")) rfl rfl⟩

/-- The method `func (t T) init()` has a receiver of the shape `T`, and
`getFuncDeclInfo` returns nil for it: no receiver type name is recorded. -/
theorem getFuncDeclInfo_receiver_counterexample :
    sampleMethodInit.Recv = some { Name := some "t", Type_ := recvTypeOf "T" false none } ∧
    getFuncDeclInfo 0 sampleFileA "a.go" sampleMethodInit = some none :=
  ⟨rfl, rfl⟩

/-! ## Theorems: the registration link function -/

/-- C25: for an eligible module whose descriptors, as `getFuncDecls` returns
them, include one with an empty receiver type name and the name
`__xgo_link_generated_register_func`, `registerFuncs` returns without a call
of `addFile` (no helper file and no registration unit) and leaves `allDecls`
as it was; the files are recorded in `allFiles`. -/
theorem registerFuncs_link_refused (env : Env) (g : Globals) (fileList : List File)
    (ds : List DeclInfo)
    (hskip : SkipPackageTrap env.stdWhitelist env.isSkippableSpecialPkg env.Std env.pkgPath =
      some false)
    (hget : getFuncDecls env fileList env.allowVarTrap = some ds)
    (hlink : ∃ d ∈ ds, d.RecvTypeName = "" ∧ d.Name = XgoLinkGeneratedRegisterFunc) :
    ∃ g1, registerFuncs env g fileList = some (g1, []) ∧
      g1.allDecls = g.allDecls ∧ g1.allFiles = fileList := by
  have hany : ds.any (fun funcDecl => decide (funcDecl.RecvTypeName = "") &&
      decide (funcDecl.Name = XgoLinkGeneratedRegisterFunc)) = true := by
    obtain ⟨d, hd, h1, h2⟩ := hlink
    rw [List.any_eq_true]
    exact ⟨d, hd, by simp [h1, h2]⟩
  refine ⟨{ g with allFiles := fileList }, ?_, rfl, rfl⟩
  simp only [registerFuncs, hskip, hget, hany, if_true]

/-- Witness of `registerFuncs_link_refused`: a module `main` with the functions
`A` and `__xgo_link_generated_register_func`, entered with one descriptor
recorded. -/
theorem registerFuncs_link_refused_witness :
    SkipPackageTrap (mainEnv false).stdWhitelist (mainEnv false).isSkippableSpecialPkg
      (mainEnv false).Std (mainEnv false).pkgPath = some false ∧
    (∃ ds, getFuncDecls (mainEnv false) [sampleFileLink] (mainEnv false).allowVarTrap = some ds ∧
      ∃ d ∈ ds, d.RecvTypeName = "" ∧ d.Name = XgoLinkGeneratedRegisterFunc) ∧
    ∃ g1, registerFuncs (mainEnv false) { allDecls := [sampleDeclA] } [sampleFileLink] =
        some (g1, []) ∧
      g1.allDecls = [sampleDeclA] ∧ g1.allFiles = [sampleFileLink] :=
  ⟨by decide,
   ⟨_, rfl, _, List.mem_cons_of_mem _ (List.mem_singleton.2 rfl), rfl, rfl⟩,
   registerFuncs_link_refused (mainEnv false) { allDecls := [sampleDeclA] } [sampleFileLink] _
     (by decide) rfl ⟨_, List.mem_cons_of_mem _ (List.mem_singleton.2 rfl), rfl, rfl⟩⟩

/-! ## Theorems: soundness of the trap-pair pass -/

/-- Counting a predicate at the successors. -/
theorem countP_succ_range (P : Nat → Bool) (n : Nat) (h0 : P 0 = false) (hn : P n = false) :
    List.countP (fun k => P (k + 1)) (List.range n) = List.countP P (List.range n) := by
  have e1 : List.countP P (List.range (n + 1)) = List.countP P (List.range n) := by
    rw [List.range_succ, List.countP_append]
    simp [hn]
  have e2 : List.countP P (List.range (n + 1)) =
      List.countP (fun k => P (k + 1)) (List.range n) := by
    rw [List.range_succ_eq_map, List.countP_cons, List.countP_map]
    simp [h0, Function.comp_def]
  rw [← e2, e1]

/-- The kept positions and the marked positions together are as many as the
extracted descriptors. -/
theorem keptFrom_length_add_marked (EqualFold : String → String → Bool) (ds : List DeclInfo) :
    (keptFrom EqualFold ds 0).length + (markedPositions EqualFold ds).length = ds.length := by
  have h0 : pairedAt EqualFold ds 0 = false := rfl
  have hn : pairedAt EqualFold ds ds.length = false :=
    pairedAt_of_length_le EqualFold ds ds.length (le_refl _)
  have hc := countP_succ_range (pairedAt EqualFold ds) ds.length h0 hn
  have hsplit := List.length_eq_countP_add_countP (fun k => pairedAt EqualFold ds (k + 1))
    (List.range ds.length)
  simp only [keptFrom, markedPositions, Nat.sub_zero, ← List.range_eq_range',
    ← List.countP_eq_length_filter]
  rw [List.length_range] at hsplit
  rw [← hc]
  have e : List.countP (fun k => !pairedAt EqualFold ds (k + 1)) (List.range ds.length) =
      List.countP (fun a => decide ¬pairedAt EqualFold ds (a + 1) = true)
        (List.range ds.length) := by
    congr 1
    funext k
    cases pairedAt EqualFold ds (k + 1) <;> rfl
  rw [e]
  omega


/-- What a paired position says about the two descriptors. -/
theorem pairedAt_succ_iff (EqualFold : String → String → Bool) (ds : List DeclInfo) (k : Nat) :
    pairedAt EqualFold ds (k + 1) = true ↔
      ∃ (c v : DeclInfo) (s : String), ds[k]? = some c ∧ ds[k + 1]? = some v ∧
        c.Kind = Kind_Const ∧ c.Name = xgoTrapPrefix ++ s ∧
        v.Kind = Kind_Var ∧ EqualFold v.Name s = true := by
  constructor
  · intro h
    simp only [pairedAt] at h
    split at h
    · rename_i fn last hfn hlast
      simp only [Bool.and_eq_true, decide_eq_true_eq] at h
      obtain ⟨⟨⟨hv, hc⟩, hpre⟩, heq⟩ := h
      obtain ⟨t, ht⟩ := (HasPrefix_iff _ _).1 hpre
      have hname : last.Name = xgoTrapPrefix ++ String.mk t := by
        apply String.ext
        rw [String.data_append, ht]
      have hdrop : List.drop (len xgoTrapPrefix) last.Name.data = t := by
        rw [ht]
        exact List.drop_left' rfl
      rw [hdrop] at heq
      exact ⟨last, fn, String.mk t, hlast, hfn, hc, hname, hv, heq⟩
    · simp at h
  · rintro ⟨c, v, s, hc, hv, hkc, hname, hkv, heq⟩
    have hpre : HasPrefix c.Name xgoTrapPrefix = true :=
      (HasPrefix_iff _ _).2 ⟨s.data, by rw [hname, String.data_append]⟩
    have hdrop : List.drop (len xgoTrapPrefix) c.Name.data = s.data := by
      rw [hname, String.data_append]
      exact List.drop_left' rfl
    simp only [pairedAt, hv, hc, hkv, hkc, hpre, hdrop, decide_True, Bool.and_self,
      Bool.true_and]
    exact heq

/-- C26: on every extracted sequence, also one that starts with a variable,
the trap-pair pass returns (it never reads before the start of the sequence).
A position is left out of the result only if it holds a constant named with
the reserved prefix and the next position holds a value-kind variable whose
name equals the rest of the name of the constant ignoring case, and then the
next position is marked; a descriptor is either unchanged or it gets
`FollowingTrapConst` set, and then it is such a variable right after such a
constant, which is left out; and the length of the result and the number of
marked positions add up to the length of the input. -/
theorem trapPairPass_sound (EqualFold : String → String → Bool) (ds : List DeclInfo) :
    ∃ (objs : List DeclInfo) (ptrs : List Nat),
      trapPairPass EqualFold ds = some (objs, ptrs) ∧
      (∀ p ∈ ptrs, p < ds.length) ∧
      (∀ k, k < ds.length → k ∉ ptrs →
        k + 1 ∈ markedPositions EqualFold ds ∧
        ∃ (c v : DeclInfo) (s : String), ds[k]? = some c ∧ ds[k + 1]? = some v ∧
          c.Kind = Kind_Const ∧ c.Name = xgoTrapPrefix ++ s ∧
          v.Kind = Kind_Var ∧ EqualFold v.Name s = true) ∧
      (∀ k d, ds[k]? = some d →
        (k ∉ markedPositions EqualFold ds ∧ objs[k]? = some d) ∨
        (k ∈ markedPositions EqualFold ds ∧
          objs[k]? = some { d with FollowingTrapConst := true } ∧
          ∃ (c : DeclInfo) (s : String), 0 < k ∧ ds[k - 1]? = some c ∧ k - 1 ∉ ptrs ∧
            c.Kind = Kind_Const ∧ c.Name = xgoTrapPrefix ++ s ∧
            d.Kind = Kind_Var ∧ EqualFold d.Name s = true)) ∧
      ptrs.length + (markedPositions EqualFold ds).length = ds.length := by
  obtain ⟨objs, hrun, hobj⟩ := trapPairPass_eq EqualFold ds
  have hmem : ∀ k, k ∈ markedPositions EqualFold ds ↔
      k < ds.length ∧ pairedAt EqualFold ds k = true := by
    intro k
    simp [markedPositions, List.mem_filter]
  refine ⟨objs, keptFrom EqualFold ds 0, hrun, ?_, ?_, ?_, keptFrom_length_add_marked EqualFold ds⟩
  · intro p hp
    exact ((mem_keptFrom_zero EqualFold ds p).1 hp).1
  · intro k hk hnot
    have hp : pairedAt EqualFold ds (k + 1) = true := by
      by_contra hne
      apply hnot
      exact (mem_keptFrom_zero EqualFold ds k).2 ⟨hk, by simpa using hne⟩
    refine ⟨(hmem (k + 1)).2 ⟨?_, hp⟩, (pairedAt_succ_iff EqualFold ds k).1 hp⟩
    by_contra hge
    have := pairedAt_of_length_le EqualFold ds (k + 1) (by omega)
    rw [this] at hp
    cases hp
  · intro k d hd
    have hk : k < ds.length := by
      by_contra hge
      rw [List.getElem?_eq_none (by omega)] at hd
      cases hd
    have hobjk := hobj k
    rw [hd] at hobjk
    by_cases hp : pairedAt EqualFold ds k = true
    · right
      refine ⟨(hmem k).2 ⟨hk, hp⟩, by simpa [markIf, hp] using hobjk, ?_⟩
      cases k with
      | zero => simp [pairedAt] at hp
      | succ j =>
        obtain ⟨c, v, s, hc, hv, hkc, hname, hkv, heq⟩ := (pairedAt_succ_iff EqualFold ds j).1 hp
        rw [hd] at hv
        cases hv
        refine ⟨c, s, Nat.succ_pos j, by simpa using hc, ?_, hkc, hname, hkv, heq⟩
        intro hin
        have := ((mem_keptFrom_zero EqualFold ds j).1 (by simpa using hin)).2
        rw [this] at hp
        cases hp
    · left
      refine ⟨fun hin => hp ((hmem k).1 hin).2, ?_⟩
      have hf : pairedAt EqualFold ds k = false := by simpa using hp
      simpa [markIf, hf] using hobjk

/-- Witness of `trapPairPass_sound`: the sequence `var x`, `func A`,
`const __xgo_trap_Y`, `var y` starts with a variable; the pass returns the
positions 0, 1 and 3 and marks position 3. -/
theorem trapPairPass_sound_witness :
    trapPairPass asciiEqualFold sampleSeqVarFirst =
      some ([ { Kind := Kind_Var, Name := "x", Line := 2 },
              { Kind := Kind_Func, Name := "A", Line := 3 },
              { Kind := Kind_Const, Name := "__xgo_trap_Y", Line := 5 },
              { Kind := Kind_Var, Name := "y", Line := 6, FollowingTrapConst := true } ],
            [0, 1, 3]) ∧
    markedPositions asciiEqualFold sampleSeqVarFirst = [3] ∧
    ∃ (objs : List DeclInfo) (ptrs : List Nat),
      trapPairPass asciiEqualFold sampleSeqVarFirst = some (objs, ptrs) ∧
      (∀ p ∈ ptrs, p < sampleSeqVarFirst.length) ∧
      ptrs.length + (markedPositions asciiEqualFold sampleSeqVarFirst).length =
        sampleSeqVarFirst.length := by
  refine ⟨rfl, by decide, ?_⟩
  obtain ⟨objs, ptrs, h1, h2, _, _, h5⟩ := trapPairPass_sound asciiEqualFold sampleSeqVarFirst
  exact ⟨objs, ptrs, h1, h2, h5⟩

/-! ## Theorems: `cutPkgPrefix` -/

/-- C27: for all strings `s` and `pkg`, `cutPkgPrefix s pkg` returns (no read of
`s` is out of range); the flag `ok` is true exactly when `s` is `pkg` or `s` is
`pkg` followed by `/` and a remainder; for `s = pkg` the suffix is empty, for
the other accepted strings `s` is `pkg`, `/` and the suffix; and whenever `ok`
is false the suffix is empty. -/
theorem cutPkgPrefix_safe (s pkg : String) :
    ∃ suffix ok, cutPkgPrefix s pkg = some (suffix, ok) ∧
      (ok = true ↔ (s = pkg ∨ ∃ r : String, s = pkg ++ "/" ++ r)) ∧
      (s = pkg → suffix = "") ∧
      (ok = true → s ≠ pkg → s = pkg ++ "/" ++ suffix) ∧
      (ok = false → suffix = "") := by
  obtain ⟨h1, h2, h3⟩ := cutPkgPrefix_spec s pkg
  by_cases he : s = pkg
  · exact ⟨"", true, h1 he, by simp [he], fun _ => rfl, fun _ hne => absurd he hne,
      fun _ => rfl⟩
  · by_cases hr : ∃ r : String, s = pkg ++ "/" ++ r
    · obtain ⟨r, hr1⟩ := hr
      exact ⟨r, true, h2 r hr1, by simp; right; exact ⟨r, hr1⟩, fun h => absurd h he,
        fun _ _ => hr1, fun h => Bool.noConfusion h⟩
    · exact ⟨"", false, h3 he hr, by simp [he, hr], fun _ => rfl, fun h => Bool.noConfusion h,
        fun _ => rfl⟩

/-- Witness of `cutPkgPrefix_safe`: the path `a/b` under `a`, next to the
results for `a` itself, for `ab`, for `a/` and for the empty string. -/
theorem cutPkgPrefix_safe_witness :
    cutPkgPrefix "a/b" "a" = some ("b", true) ∧ cutPkgPrefix "a" "a" = some ("", true) ∧
    cutPkgPrefix "ab" "a" = some ("", false) ∧ cutPkgPrefix "a/" "a" = some ("", true) ∧
    cutPkgPrefix "" "a" = some ("", false) ∧
    ∃ suffix ok, cutPkgPrefix "a/b" "a" = some (suffix, ok) ∧
      (ok = true ↔ ("a/b" = "a" ∨ ∃ r : String, "a/b" = "a" ++ "/" ++ r)) ∧
      ("a/b" = "a" → suffix = "") ∧
      (ok = true → "a/b" ≠ "a" → "a/b" = "a" ++ "/" ++ suffix) ∧
      (ok = false → suffix = "") :=
  ⟨by decide, by decide, by decide, by decide, by decide, cutPkgPrefix_safe "a/b" "a"⟩

end Xgo
